import Mathlib

/-!
# Verification of the state-audit analyzer core

This development is a shallow embedding, in Lean 4, of the core of the
`state-audit-poc` static analyzer (a ts-morph based Recoil/Jotai migration
auditor).  The TypeScript sources are translated function by function:

* `src/core/symbols.ts`        — symbol index, factory classification;
* `src/core/events/shared/common.ts` — event constructors, init-context
  classification, dedupe and ordering;
* `src/core/events/core/setter-bindings.ts` — direct and wrapper-aware
  setter-binding resolution (memoised, cycle-guarded);
* `src/core/events/extensions/forwarding/index.ts` — one-hop forwarding;
* `src/core/events/core/direct-hooks.ts`, `core/dependencies.ts`,
  `extensions/callbacks/index.ts`, `extensions/store-api/index.ts` — the
  event and dependency extractors;
* `src/core/events/pipeline.ts`  — the capability-gated pipeline;
* `src/core/profiles.ts`        — capability profiles;
* `src/core/rules/r004-stale-readonly-recoil-atom.ts` — rule R004.

The ts-morph AST and symbol table are presented arena-style: expressions are
an inductive type; function-like nodes live in a table keyed by
`filePath:start` (the key the source itself computes with
`getFunctionLikeNodeKey`); every node records the data the analyzer queries
of it (its location, its ancestor chain, the declarations of its symbol
after alias unwrapping).  JavaScript `Map`s are modelled as chronological
association lists whose lookup returns the most recent entry, and JS `Set`s
as membership lists.
-/

set_option autoImplicit false

namespace StateAudit

/-! ## Comparators

The TypeScript output comparators are built from `localeCompare` on strings
and subtraction on numbers.  We model them with a lexicographic character
comparator and a three-way natural comparator; both are proved lawful
(swap, transitivity), which is what the ordering theorems need. -/

def natCmp (a b : Nat) : Ordering :=
  if a < b then .lt else if b < a then .gt else .eq

def chCmp (c d : Char) : Ordering := natCmp c.toNat d.toNat

def charsCmp : List Char → List Char → Ordering
  | [], [] => .eq
  | [], _ :: _ => .lt
  | _ :: _, [] => .gt
  | c :: cs, d :: ds =>
    match chCmp c d with
    | .eq => charsCmp cs ds
    | o => o

def strCmp (a b : String) : Ordering := charsCmp a.data b.data

theorem natCmp_eq_iff (a b : Nat) : natCmp a b = .eq ↔ a = b := by
  unfold natCmp; split <;> [skip; split] <;> simp_all <;> omega

theorem natCmp_swap (a b : Nat) : (natCmp a b).swap = natCmp b a := by
  unfold natCmp
  rcases Nat.lt_trichotomy a b with h | h | h
  · simp [h, Nat.lt_asymm h, Ordering.swap]
  · subst h; simp [Nat.lt_irrefl, Ordering.swap]
  · simp [h, Nat.lt_asymm h, Ordering.swap]

theorem natCmp_lt_iff (a b : Nat) : natCmp a b = .lt ↔ a < b := by
  unfold natCmp
  rcases Nat.lt_trichotomy a b with h | h | h
  · rw [if_pos h]; simp [h]
  · subst h; rw [if_neg (by omega)]; simp
  · rw [if_neg (by omega), if_pos h]; simp; omega

theorem natCmp_lt_trans {a b c : Nat} (h₁ : natCmp a b = .lt) (h₂ : natCmp b c = .lt) :
    natCmp a c = .lt := by
  rw [natCmp_lt_iff] at *
  omega

theorem chCmp_eq_iff (c d : Char) : chCmp c d = .eq ↔ c = d := by
  unfold chCmp
  rw [natCmp_eq_iff]
  constructor
  · intro h
    have := congrArg Char.ofNat h
    rwa [Char.ofNat_toNat, Char.ofNat_toNat] at this
  · intro h; rw [h]

theorem charsCmp_eq_iff (a b : List Char) : charsCmp a b = .eq ↔ a = b := by
  induction a generalizing b with
  | nil => cases b <;> simp [charsCmp]
  | cons c cs ih =>
    cases b with
    | nil => simp [charsCmp]
    | cons d ds =>
      simp only [charsCmp]
      rcases h : chCmp c d with _ | _ | _
      · simp only [List.cons.injEq]
        constructor
        · intro h'; exact absurd h' (by simp)
        · rintro ⟨rfl, _⟩; rw [(chCmp_eq_iff c c).2 rfl] at h; exact absurd h (by simp)
      · rw [(chCmp_eq_iff c d).1 h]
        simp [ih]
      · simp only [List.cons.injEq]
        constructor
        · intro h'; exact absurd h' (by simp)
        · rintro ⟨rfl, _⟩; rw [(chCmp_eq_iff c c).2 rfl] at h; exact absurd h (by simp)

theorem charsCmp_swap (a b : List Char) : (charsCmp a b).swap = charsCmp b a := by
  induction a generalizing b with
  | nil => cases b <;> simp [charsCmp, Ordering.swap]
  | cons c cs ih =>
    cases b with
    | nil => simp [charsCmp, Ordering.swap]
    | cons d ds =>
      have hswap : chCmp d c = (chCmp c d).swap := by
        unfold chCmp; rw [natCmp_swap]
      simp only [charsCmp, hswap]
      rcases h : chCmp c d with _ | _ | _
      · simp [Ordering.swap]
      · exact ih ds
      · simp [Ordering.swap]

theorem charsCmp_lt_trans {a b c : List Char} (h₁ : charsCmp a b = .lt)
    (h₂ : charsCmp b c = .lt) : charsCmp a c = .lt := by
  induction a generalizing b c with
  | nil =>
    cases b with
    | nil => simp [charsCmp] at h₁
    | cons d ds => cases c <;> simp [charsCmp] at h₂ ⊢
  | cons x xs ih =>
    cases b with
    | nil => simp [charsCmp] at h₁
    | cons y ys =>
      cases c with
      | nil => simp [charsCmp] at h₂
      | cons z zs =>
        simp only [charsCmp] at h₁ h₂ ⊢
        rcases hxy : chCmp x y with _ | _ | _ <;> rw [hxy] at h₁ <;>
          rcases hyz : chCmp y z with _ | _ | _ <;> rw [hyz] at h₂
        · rw [show chCmp x z = .lt from natCmp_lt_trans hxy hyz]
        · rw [← (chCmp_eq_iff y z).1 hyz, hxy]
        · exact absurd h₂ (by simp)
        · rw [(chCmp_eq_iff x y).1 hxy, hyz]
        · rw [(chCmp_eq_iff x y).1 hxy, hyz]
          exact ih h₁ h₂
        · exact absurd h₂ (by simp)
        · exact absurd h₁ (by simp)
        · exact absurd h₁ (by simp)
        · exact absurd h₁ (by simp)

theorem strCmp_eq_iff (a b : String) : strCmp a b = .eq ↔ a = b := by
  unfold strCmp
  rw [charsCmp_eq_iff]
  constructor
  · intro h
    cases a; cases b
    simp only at h
    rw [h]
  · intro h; rw [h]

theorem strCmp_swap (a b : String) : (strCmp a b).swap = strCmp b a :=
  charsCmp_swap _ _

theorem strCmp_lt_trans {a b c : String} (h₁ : strCmp a b = .lt)
    (h₂ : strCmp b c = .lt) : strCmp a c = .lt := charsCmp_lt_trans h₁ h₂

/-- The laws a three-way comparator needs for the output-ordering proofs. -/
structure CmpLaws {α : Type _} (cmp : α → α → Ordering) : Prop where
  swap_eq : ∀ a b, (cmp a b).swap = cmp b a
  lt_trans : ∀ {a b c}, cmp a b = .lt → cmp b c = .lt → cmp a c = .lt
  eq_trans : ∀ {a b c}, cmp a b = .eq → cmp b c = .eq → cmp a c = .eq
  lt_of_lt_of_eq : ∀ {a b c}, cmp a b = .lt → cmp b c = .eq → cmp a c = .lt
  lt_of_eq_of_lt : ∀ {a b c}, cmp a b = .eq → cmp b c = .lt → cmp a c = .lt

theorem cmpLaws_of_eq_iff {α : Type _} {cmp : α → α → Ordering}
    (heq : ∀ a b, cmp a b = .eq ↔ a = b)
    (hswap : ∀ a b, (cmp a b).swap = cmp b a)
    (hlt : ∀ {a b c}, cmp a b = .lt → cmp b c = .lt → cmp a c = .lt) :
    CmpLaws cmp where
  swap_eq := hswap
  lt_trans := hlt
  eq_trans := by
    intro a b c h₁ h₂
    rw [(heq a b).1 h₁]; exact h₂
  lt_of_lt_of_eq := by
    intro a b c h₁ h₂
    rw [← (heq b c).1 h₂]; exact h₁
  lt_of_eq_of_lt := by
    intro a b c h₁ h₂
    rw [(heq a b).1 h₁]; exact h₂

theorem natCmpLaws : CmpLaws natCmp :=
  cmpLaws_of_eq_iff natCmp_eq_iff natCmp_swap natCmp_lt_trans

theorem strCmpLaws : CmpLaws strCmp :=
  cmpLaws_of_eq_iff strCmp_eq_iff strCmp_swap strCmp_lt_trans

theorem CmpLaws.comap {α β : Type _} {cmp : β → β → Ordering} (h : CmpLaws cmp)
    (f : α → β) : CmpLaws (fun a b => cmp (f a) (f b)) where
  swap_eq := fun a b => h.swap_eq (f a) (f b)
  lt_trans := fun h₁ h₂ => h.lt_trans h₁ h₂
  eq_trans := fun h₁ h₂ => h.eq_trans h₁ h₂
  lt_of_lt_of_eq := fun h₁ h₂ => h.lt_of_lt_of_eq h₁ h₂
  lt_of_eq_of_lt := fun h₁ h₂ => h.lt_of_eq_of_lt h₁ h₂

theorem CmpLaws.lex {α : Type _} {c₁ c₂ : α → α → Ordering}
    (h₁ : CmpLaws c₁) (h₂ : CmpLaws c₂) :
    CmpLaws (fun a b => (c₁ a b).then (c₂ a b)) := by
  constructor
  · intro a b
    rw [← h₁.swap_eq a b, ← h₂.swap_eq a b]
    rcases c₁ a b with _ | _ | _ <;> rcases c₂ a b with _ | _ | _ <;> rfl
  · intro a b c hab hbc
    rcases e₁ : c₁ a b with _ | _ | _ <;> rw [e₁] at hab <;>
      rcases e₂ : c₁ b c with _ | _ | _ <;> rw [e₂] at hbc <;>
      simp only [Ordering.then] at hab hbc ⊢
    · rw [h₁.lt_trans e₁ e₂]
    · rw [h₁.lt_of_lt_of_eq e₁ e₂]
    · exact absurd hbc (by simp)
    · rw [h₁.lt_of_eq_of_lt e₁ e₂]
    · rw [h₁.eq_trans e₁ e₂]
      exact h₂.lt_trans hab hbc
    · exact absurd hbc (by simp)
    · exact absurd hab (by simp)
    · exact absurd hab (by simp)
    · exact absurd hab (by simp)
  · intro a b c hab hbc
    rcases e₁ : c₁ a b with _ | _ | _ <;> rw [e₁] at hab <;>
      rcases e₂ : c₁ b c with _ | _ | _ <;> rw [e₂] at hbc <;>
      simp only [Ordering.then] at hab hbc ⊢ <;> try simp_all
    rw [h₁.eq_trans e₁ e₂]
    simp only [Ordering.then]
    exact h₂.eq_trans hab hbc
  · intro a b c hab hbc
    rcases e₁ : c₁ a b with _ | _ | _ <;> rw [e₁] at hab <;>
      rcases e₂ : c₁ b c with _ | _ | _ <;> rw [e₂] at hbc <;>
      simp only [Ordering.then] at hab hbc ⊢ <;> try simp_all
    · rw [h₁.lt_of_lt_of_eq e₁ e₂]
    · rw [h₁.eq_trans e₁ e₂]
      simp only [Ordering.then]
      exact h₂.lt_of_lt_of_eq hab hbc
  · intro a b c hab hbc
    rcases e₁ : c₁ a b with _ | _ | _ <;> rw [e₁] at hab <;>
      rcases e₂ : c₁ b c with _ | _ | _ <;> rw [e₂] at hbc <;>
      simp only [Ordering.then] at hab hbc ⊢ <;> try simp_all
    · rw [h₁.lt_of_eq_of_lt e₁ e₂]
    · rw [h₁.eq_trans e₁ e₂]
      simp only [Ordering.then]
      exact h₂.lt_of_eq_of_lt hab hbc

theorem CmpLaws.refl_eq {α : Type _} {cmp : α → α → Ordering} (h : CmpLaws cmp)
    (a : α) : cmp a a = .eq := by
  have := h.swap_eq a a
  rcases e : cmp a a with _ | _ | _
  · rw [e] at this; exact absurd this (by decide)
  · rfl
  · rw [e] at this; exact absurd this (by decide)

theorem CmpLaws.le_total {α : Type _} {cmp : α → α → Ordering} (h : CmpLaws cmp)
    (a b : α) : cmp a b ≠ .gt ∨ cmp b a ≠ .gt := by
  rcases e : cmp a b with _ | _ | _
  · left; simp
  · left; simp
  · right
    have := h.swap_eq a b
    rw [e] at this
    rw [← this]
    simp [Ordering.swap]

theorem CmpLaws.le_trans {α : Type _} {cmp : α → α → Ordering} (h : CmpLaws cmp)
    {a b c : α} (hab : cmp a b ≠ .gt) (hbc : cmp b c ≠ .gt) : cmp a c ≠ .gt := by
  rcases e₁ : cmp a b with _ | _ | _ <;> rcases e₂ : cmp b c with _ | _ | _ <;>
    try simp_all
  · rw [h.lt_trans e₁ e₂]; simp
  · rw [h.lt_of_lt_of_eq e₁ e₂]; simp
  · rw [h.lt_of_eq_of_lt e₁ e₂]; simp
  · rw [h.eq_trans e₁ e₂]; simp

/-! ## Stable sorting

`Array.prototype.sort` is stable; its output on a comparator that is a total
preorder is the unique stable ordering, which insertion sort reproduces. -/

def orderedInsertCmp {α : Type _} (cmp : α → α → Ordering) (a : α) : List α → List α
  | [] => [a]
  | b :: l => if cmp a b ≠ .gt then a :: b :: l else b :: orderedInsertCmp cmp a l

def stableSortByCmp {α : Type _} (cmp : α → α → Ordering) (l : List α) : List α :=
  l.foldr (orderedInsertCmp cmp) []

theorem orderedInsertCmp_perm {α : Type _} (cmp : α → α → Ordering) (a : α)
    (l : List α) : List.Perm (orderedInsertCmp cmp a l) (a :: l) := by
  induction l with
  | nil => simp [orderedInsertCmp]
  | cons b l ih =>
    by_cases h : cmp a b ≠ .gt
    · simp [orderedInsertCmp, h]
    · simp only [orderedInsertCmp, if_neg h]
      exact (ih.cons b).trans (List.Perm.swap a b l)

theorem stableSortByCmp_perm {α : Type _} (cmp : α → α → Ordering) (l : List α) :
    List.Perm (stableSortByCmp cmp l) l := by
  induction l with
  | nil => rfl
  | cons a l ih =>
    exact (orderedInsertCmp_perm cmp a _).trans (ih.cons a)

theorem mem_orderedInsertCmp {α : Type _} {cmp : α → α → Ordering} {a x : α}
    {l : List α} (hx : x ∈ orderedInsertCmp cmp a l) : x = a ∨ x ∈ l := by
  have := (orderedInsertCmp_perm cmp a l).mem_iff.1 hx
  simpa using this

theorem pairwise_orderedInsertCmp {α : Type _} {cmp : α → α → Ordering}
    (laws : CmpLaws cmp) (a : α) {l : List α}
    (h : l.Pairwise (fun x y => cmp x y ≠ .gt)) :
    (orderedInsertCmp cmp a l).Pairwise (fun x y => cmp x y ≠ .gt) := by
  induction l with
  | nil => simp [orderedInsertCmp]
  | cons b l ih =>
    rcases List.pairwise_cons.1 h with ⟨hb, hl⟩
    by_cases hab : cmp a b ≠ .gt
    · rw [orderedInsertCmp, if_pos hab]
      refine List.pairwise_cons.2 ⟨?_, h⟩
      intro x hx
      rcases List.mem_cons.1 hx with rfl | hx
      · exact hab
      · exact laws.le_trans hab (hb x hx)
    · rw [orderedInsertCmp, if_neg hab]
      refine List.pairwise_cons.2 ⟨?_, ih hl⟩
      intro x hx
      rcases mem_orderedInsertCmp hx with rfl | hx
      · rcases laws.le_total x b with h' | h'
        · exact absurd (by simpa using h') hab
        · have := laws.swap_eq x b
          rcases e : cmp x b with _ | _ | _ <;> simp_all
      · exact hb x hx

theorem pairwise_stableSortByCmp {α : Type _} {cmp : α → α → Ordering}
    (laws : CmpLaws cmp) (l : List α) :
    (stableSortByCmp cmp l).Pairwise (fun x y => cmp x y ≠ .gt) := by
  induction l with
  | nil => simp [stableSortByCmp]
  | cons a l ih => exact pairwise_orderedInsertCmp laws a ih

/-! ## `Array.join("|")` and bar-free strings -/

def joinBar : List String → String
  | [] => ""
  | [s] => s
  | s :: rest => s ++ "|" ++ joinBar rest

def barFree (s : String) : Bool := decide ('|' ∉ s.data)

theorem barSplit {a b r r' : List Char} (ha : '|' ∉ a) (hb : '|' ∉ b)
    (h : a ++ '|' :: r = b ++ '|' :: r') : a = b ∧ r = r' := by
  induction a generalizing b with
  | nil =>
    cases b with
    | nil => simpa using h
    | cons c bs =>
      simp only [List.nil_append, List.cons_append, List.cons.injEq] at h
      exact absurd (h.1 ▸ List.mem_cons_self c bs) (h.1 ▸ hb)
  | cons c as ih =>
    cases b with
    | nil =>
      simp only [List.cons_append, List.nil_append, List.cons.injEq] at h
      rw [h.1] at ha
      exact absurd (List.mem_cons_self '|' as) ha
    | cons d bs =>
      simp only [List.cons_append, List.cons.injEq] at h
      obtain ⟨rfl, h⟩ := h
      have := ih (fun hm => ha (List.mem_cons_of_mem _ hm))
        (fun hm => hb (List.mem_cons_of_mem _ hm)) h
      exact ⟨by rw [this.1], this.2⟩

theorem joinBar_inj : ∀ (p q : List String), p.length = q.length →
    (∀ s ∈ p, barFree s) → (∀ s ∈ q, barFree s) → joinBar p = joinBar q → p = q := by
  intro p
  induction p with
  | nil =>
    intro q hlen _ _ _
    cases q with
    | nil => rfl
    | cons _ _ => simp at hlen
  | cons s rest ih =>
    intro q hlen hp hq hj
    cases q with
    | nil => simp at hlen
    | cons t rest' =>
      cases rest with
      | nil =>
        cases rest' with
        | nil => simpa [joinBar] using hj
        | cons _ _ => simp at hlen
      | cons s₂ rest₂ =>
        cases rest' with
        | nil => simp at hlen
        | cons t₂ rest₂' =>
          have hj' : s.data ++ '|' :: (joinBar (s₂ :: rest₂)).data
              = t.data ++ '|' :: (joinBar (t₂ :: rest₂')).data := by
            have h1 := congrArg String.data hj
            simpa [joinBar, String.data_append] using h1
          have hs : '|' ∉ s.data := by
            have := hp s (List.mem_cons_self s _)
            simpa [barFree] using this
          have ht : '|' ∉ t.data := by
            have := hq t (List.mem_cons_self t _)
            simpa [barFree] using this
          obtain ⟨hdata, hrest⟩ := barSplit hs ht hj'
          have hst : s = t := by
            cases s; cases t
            simp only at hdata
            rw [hdata]
          have hjr : joinBar (s₂ :: rest₂) = joinBar (t₂ :: rest₂') := by
            have h2 : (joinBar (s₂ :: rest₂)).data = (joinBar (t₂ :: rest₂')).data := hrest
            cases e₁ : joinBar (s₂ :: rest₂)
            cases e₂ : joinBar (t₂ :: rest₂')
            rw [e₁, e₂] at h2
            simp only at h2
            rw [h2]
          have := ih (t₂ :: rest₂') (by simpa using hlen)
            (fun x hx => hp x (List.mem_cons_of_mem _ hx))
            (fun x hx => hq x (List.mem_cons_of_mem _ hx))
            hjr
          rw [hst, this]

/-! ## JavaScript collections

A JS `Map` is modelled as the chronological list of its `set` operations;
`jget` returns the value of the most recent `set` for a key, which is
exactly `Map.prototype.get` after those operations.  A JS `Set` of strings
is a membership list. -/

abbrev JsMap (β : Type _) := List (String × β)

def jget {β : Type _} : JsMap β → String → Option β
  | [], _ => none
  | (a, b) :: rest, k =>
    match jget rest k with
    | some r => some r
    | none => if a = k then some b else none

def jset {β : Type _} (m : JsMap β) (k : String) (v : β) : JsMap β :=
  m ++ [(k, v)]

def jsetValues {β : Type _} (m : JsMap β) : List β := m.map Prod.snd

theorem jget_jset {β : Type _} (m : JsMap β) (k k' : String) (v : β) :
    jget (jset m k v) k' = if k = k' then some v else jget m k' := by
  induction m with
  | nil =>
    show jget [(k, v)] k' = _
    by_cases h : k = k' <;> simp [jget, h]
  | cons p rest ih =>
    obtain ⟨a, b⟩ := p
    show jget ((a, b) :: (rest ++ [(k, v)])) k' = _
    simp only [jget]
    rw [show rest ++ [(k, v)] = jset rest k v from rfl, ih]
    by_cases h : k = k' <;> simp [h, jget]

theorem jget_mem_values {β : Type _} {m : JsMap β} {k : String} {v : β}
    (h : jget m k = some v) : v ∈ jsetValues m := by
  induction m with
  | nil => simp [jget] at h
  | cons p rest ih =>
    obtain ⟨a, b⟩ := p
    rcases e : jget rest k with _ | r
    · have h' : (if a = k then some b else none) = some v := by
        simpa [jget, e] using h
      by_cases hak : a = k
      · rw [if_pos hak] at h'
        simp only [Option.some.injEq] at h'
        simp [jsetValues, h']
      · rw [if_neg hak] at h'
        exact absurd h' (by simp)
    · have h' : r = v := by simpa [jget, e] using h
      subst h'
      exact List.mem_cons_of_mem _ (ih e)

abbrev JsSet := List String

def sadd (s : JsSet) (k : String) : JsSet := s ++ [k]

def shas (s : JsSet) (k : String) : Bool := s.contains k

/-! ## Data model (`src/core/types.ts`)

`Store`, `StateKind`, `StateSymbol`, `UsageEvent` and `DependencyEdge`
mirror the analyzer's record types; the enum-like string unions become
inductives with a `toStr` rendering used wherever the TypeScript code uses
the string (dedupe keys, ordering). -/

inductive Store where
  | recoil
  | jotai
deriving DecidableEq, Repr

inductive StateKind where
  | atom
  | selector
  | atomFamily
  | selectorFamily
  | derivedAtom
  | atomWithDefault
deriving DecidableEq, Repr

structure StateSymbol where
  id : String
  name : String
  store : Store
  kind : StateKind
  filePath : String
  line : Nat
  column : Nat
  exported : Bool
  isRecoilPlainAtom : Bool
deriving DecidableEq, Repr

inductive EventType where
  | read
  | runtimeWrite
  | initWrite
deriving DecidableEq, Repr

def EventType.toStr : EventType → String
  | .read => "read"
  | .runtimeWrite => "runtimeWrite"
  | .initWrite => "initWrite"

inductive EventPhase where
  | runtime
  | dependency
deriving DecidableEq, Repr

def EventPhase.toStr : EventPhase → String
  | .runtime => "runtime"
  | .dependency => "dependency"

inductive ActorType where
  | state
  | function
  | unknown
deriving DecidableEq, Repr

def ActorType.toStr : ActorType → String
  | .state => "state"
  | .function => "function"
  | .unknown => "unknown"

structure UsageEvent where
  type : EventType
  phase : EventPhase
  stateId : String
  actorType : ActorType
  actorName : String
  actorStateId : Option String := none
  filePath : String
  line : Nat
  column : Nat
  via : String
deriving DecidableEq, Repr

structure DependencyEdge where
  fromStateId : String
  toStateId : String
  filePath : String
  line : Nat
  column : Nat
  via : String
deriving DecidableEq, Repr

/-! ## The arena-style AST model

Each node records the data the analyzer reads off it.  An identifier (and a
property access) carries its resolved symbol — already unwrapped through
aliases, the way every call site of `unwrapAliasedSymbol` uses it — as the
list of its declarations plus the symbol's name and fully-qualified name.
Function-like nodes live in `Program.fnTable`; references to them go by
their `filePath:start` key, the same key `getFunctionLikeNodeKey` computes,
which breaks the reference cycles of the object graph. -/

/-- A declaration of a symbol, as the analyzer inspects it. -/
inductive SymDeclKind where
  /-- A `VariableDeclaration`; if its initializer is an arrow function or
  function expression, `initFnKey` is that node's function-table key. -/
  | varDecl (initFnKey : Option String)
  /-- A `FunctionDeclaration` with the given function-table key. -/
  | funcDecl (fnKey : String)
  /-- A `MethodDeclaration` with the given function-table key. -/
  | methodDecl (fnKey : String)
  /-- A `BindingElement` whose name node is the identifier `nameText` with
  symbol key `nameSymKey` (as computed by `getSymbolKey`). -/
  | bindingElem (nameText : String) (nameSymKey : Option String)
  /-- Any other declaration kind. -/
  | otherDecl
deriving DecidableEq, Repr

structure SymDecl where
  /-- `declaration.getSourceFile().getFilePath()`. -/
  filePath : String
  /-- `declaration.getStart()`. -/
  start : Nat
  /-- The nearest ancestor `VariableDeclaration`, as (file, start), used by
  `resolveStateFromExpression` for non-variable declarations. -/
  ancestorVar : Option (String × Nat)
  kind : SymDeclKind
deriving DecidableEq, Repr

/-- A ts-morph symbol after `unwrapAliasedSymbol`. -/
structure SymRef where
  name : String
  fqName : String
  declarations : List SymDecl
deriving DecidableEq, Repr

/-- Ancestor-chain entry, innermost first: what the parent walks of
`isInitWriteContext`, `getContainingFunctionName` and
`isSetterReferenceWriteSite` can observe. For a function-like ancestor,
`fnName` is the name both walks would compute for it (its own name for
declarations and methods, the nearest ancestor variable name for arrow and
function expressions; `none` when there is no such name). -/
inductive AncestorInfo where
  | functionLike (fnName : Option String)
  | jsxAttribute (attrName : String)
  | propertyAssignment (propName : String)
  | otherNode
deriving DecidableEq, Repr

mutual

/-- Expressions, to the depth the analyzer pattern-matches them. -/
inductive Expr where
  | identE (text : String) (sym : Option SymRef)
  | propE (base : Expr) (name : String) (sym : Option SymRef)
  | callE (callee : Expr) (args : List Expr) (filePath : String)
      (line : Nat) (column : Nat) (ancestors : List AncestorInfo)
  | objectE (props : List ObjProp)
  /-- An arrow function or function expression, by function-table key. -/
  | arrowE (fnKey : String)
  | otherE

inductive ObjProp where
  | shorthandP (name : String)
  | assignP (name : String) (init : Expr)
  | methodP (name : String) (fnKey : String)
  | otherP

end

mutual

/-- A binding name (the left-hand side of a declaration or parameter). -/
inductive BindingName where
  | identB (text : String) (sym : Option SymRef)
  | arrayB (elements : List (Option BindingElem))
  | objectB (elements : List BindingElem)

inductive BindingElem where
  | mk (propertyName : Option String) (name : BindingName)

end

def BindingElem.propertyName : BindingElem → Option String
  | .mk p _ => p

def BindingElem.name : BindingElem → BindingName
  | .mk _ n => n

/-- `decl.getName()` for the identifier case (the one the analyzer uses). -/
def BindingName.nameText : BindingName → String
  | .identB t _ => t
  | _ => ""

/-- The symbol attached to an expression node (`node.getSymbol()` after
`unwrapAliasedSymbol`); literals and function expressions resolve to none
in every position the analyzer queries. -/
def exprSym : Expr → Option SymRef
  | .identE _ s => s
  | .propE _ _ s => s
  | _ => none

def callArguments : Expr → List Expr
  | .callE _ args _ _ _ _ => args
  | _ => []

def callFilePath : Expr → String
  | .callE _ _ fp _ _ _ => fp
  | _ => ""

def callLine : Expr → Nat
  | .callE _ _ _ ln _ _ => ln
  | _ => 0

def callColumn : Expr → Nat
  | .callE _ _ _ _ col _ => col
  | _ => 0

def callAncestors : Expr → List AncestorInfo
  | .callE _ _ _ _ _ anc => anc
  | _ => []

structure ImportSpecifier where
  name : String
  aliasName : Option String
deriving Repr

structure ImportDecl where
  moduleSpecifier : String
  namedImports : List ImportSpecifier
  namespaceImport : Option String
deriving Repr

structure VarDecl where
  filePath : String
  start : Nat
  nameNode : BindingName
  init : Option Expr
  /-- The function-table key of the nearest enclosing function-like node
  (`none` at module scope); this is what the parent walk of
  `isInFunctionOwnScope` observes. -/
  ownerFnKey : Option String
  nameLine : Nat
  nameColumn : Nat
  exported : Bool

/-- `declaration.getInitializerIfKind(SyntaxKind.CallExpression)`. -/
def VarDecl.initCall (d : VarDecl) : Option Expr :=
  match d.init with
  | some e =>
    match e with
    | .callE callee args fp ln col anc => some (.callE callee args fp ln col anc)
    | _ => none
  | none => none

structure IdentSite where
  text : String
  sym : Option SymRef
  filePath : String
  line : Nat
  column : Nat
  ancestors : List AncestorInfo
  /-- When the identifier is the sole expression of a `JsxExpression` that
  initializes a `JsxAttribute`, that attribute's name. -/
  jsxAttrName : Option String

structure JsxAttr where
  name : String
  /-- The expression of the initializer, when the initializer is a
  `JsxExpression` holding one. -/
  valueExpr : Option Expr
  /-- The tag-name node of the enclosing opening/self-closing element
  (`getJsxTagNameNode`). -/
  tagNode : Option Expr

inductive FnBody where
  | block
  | exprBody (e : Expr)
  | noBody

structure RetStmt where
  ownerFnKey : Option String
  expr : Option Expr

structure FnNode where
  filePath : String
  /-- `functionNode.getStart()`. -/
  start : Nat
  /-- True for `FunctionDeclaration`/`MethodDeclaration`; false for arrow
  functions and function expressions. -/
  isDeclOrMethod : Bool
  params : List BindingName
  body : FnBody
  /-- `getDescendantsOfKind(SyntaxKind.CallExpression)`, document order. -/
  descendantCalls : List Expr
  /-- `getDescendantsOfKind(SyntaxKind.VariableDeclaration)`. -/
  descendantVarDecls : List VarDecl
  /-- Descendant `ReturnStatement`s with the key of the function-like node
  that owns them. -/
  descendantReturns : List RetStmt
  /-- The function-like descendants of this node, by table key. -/
  descendantFnKeys : List String

structure SourceFileModel where
  filePath : String
  importDecls : List ImportDecl
  /-- `sourceFile.getVariableDeclarations()` (top-level declarations). -/
  topVarDecls : List VarDecl
  /-- `sourceFile.getDescendantsOfKind(SyntaxKind.VariableDeclaration)`. -/
  allVarDecls : List VarDecl
  /-- `sourceFile.getDescendantsOfKind(SyntaxKind.CallExpression)`. -/
  calls : List Expr
  /-- `sourceFile.getDescendantsOfKind(SyntaxKind.Identifier)`. -/
  identSites : List IdentSite
  /-- `sourceFile.getDescendantsOfKind(SyntaxKind.JsxAttribute)`. -/
  jsxAttrs : List JsxAttr

structure Program where
  files : List SourceFileModel
  fnTable : List FnNode

/-- Decimal rendering of the numbers interpolated into keys.  Structured as
fuel-based recursion so that concrete keys evaluate by reduction; injectivity
is proved below, which is all the dedupe keys rely on. -/
def digitChar (d : Nat) : Char := Char.ofNat (48 + d)

def natDigitsAux : Nat → Nat → List Nat
  | 0, _ => []
  | fuel + 1, n => if n = 0 then [] else n % 10 :: natDigitsAux fuel (n / 10)

def natDigitsLE (n : Nat) : List Nat := natDigitsAux n n

def natToStr (n : Nat) : String :=
  if n = 0 then "0" else String.mk ((natDigitsLE n).reverse.map digitChar)

/-- `getFunctionLikeNodeKey` (shared/common.ts). -/
def getFunctionLikeNodeKey (functionNode : FnNode) : String :=
  functionNode.filePath ++ ":" ++ natToStr functionNode.start

def lookupFn (prog : Program) (key : String) : Option FnNode :=
  prog.fnTable.find? (fun fn => getFunctionLikeNodeKey fn = key)

/-! ## `src/core/symbols.ts` -/

inductive ImportEntry where
  | namedE (module : String) (imported : String)
  | namespaceE (module : String)
deriving DecidableEq, Repr

abbrev ImportMap := JsMap ImportEntry

def buildImportMap (importDeclarations : List ImportDecl) : ImportMap :=
  importDeclarations.foldl (fun map declaration =>
    let map := declaration.namedImports.foldl (fun m namedImport =>
      jset m (namedImport.aliasName.getD namedImport.name)
        (.namedE declaration.moduleSpecifier namedImport.name)) map
    match declaration.namespaceImport with
    | some ns => jset map ns (.namespaceE declaration.moduleSpecifier)
    | none => map) []

structure CalledFactory where
  module : String
  imported : String
deriving DecidableEq, Repr

def resolveCalledFactory (callExpression : Expr) (importMap : ImportMap) :
    Option CalledFactory :=
  match callExpression with
  | .callE callee _ _ _ _ _ =>
    match callee with
    | .identE text _ =>
      match jget importMap text with
      | some (.namedE module imported) => some ⟨module, imported⟩
      | _ => none
    | .propE base name _ =>
      match base with
      | .identE baseText _ =>
        match jget importMap baseText with
        | some (.namespaceE module) => some ⟨module, name⟩
        | _ => none
      | _ => none
    | _ => none
  | _ => none

/-- `Node.isArrowFunction(e) || Node.isFunctionExpression(e)`. -/
def isFunctionLikeExpression : Expr → Bool
  | .arrowE _ => true
  | _ => false

def classifyStateFactory (moduleSpecifier importedName : String)
    (callExpression : Expr) : Option (Store × StateKind) :=
  if moduleSpecifier = "recoil" then
    if importedName = "atom" then some (.recoil, .atom)
    else if importedName = "selector" then some (.recoil, .selector)
    else if importedName = "atomFamily" then some (.recoil, .atomFamily)
    else if importedName = "selectorFamily" then some (.recoil, .selectorFamily)
    else none
  else if moduleSpecifier = "jotai" then
    if importedName = "atom" then
      match (callArguments callExpression).head? with
      | some firstArg =>
        if isFunctionLikeExpression firstArg then some (.jotai, .derivedAtom)
        else some (.jotai, .atom)
      | none => some (.jotai, .atom)
    else none
  else if moduleSpecifier = "jotai/utils" then
    if importedName = "atomFamily" then some (.jotai, .atomFamily)
    else if importedName = "atomWithDefault" then some (.jotai, .atomWithDefault)
    else none
  else none

def createStateId (filePath stateName : String) : String :=
  filePath ++ "::" ++ stateName

/-- `getDeclarationKey`, on the (file, start) data of a declaration. -/
def getDeclarationKey (filePath : String) (start : Nat) : String :=
  filePath ++ ":" ++ natToStr start

def VarDecl.declKey (d : VarDecl) : String := getDeclarationKey d.filePath d.start

structure StateInternal where
  state : StateSymbol
  declaration : VarDecl
  initCall : Expr

structure SymbolIndex where
  states : List StateSymbol
  stateById : JsMap StateSymbol
  declarationByStateId : JsMap VarDecl
  initCallByStateId : JsMap Expr
  stateByDeclarationKey : JsMap StateSymbol
  importMapByFilePath : JsMap ImportMap

/-- The declaration walk of `resolveStateFromExpression`: a variable
declaration is looked up under its own key, any other declaration under the
key of its nearest ancestor variable declaration; the first hit wins. -/
def resolveStateFromDeclarations (decls : List SymDecl)
    (stateByDeclarationKey : JsMap StateSymbol) : Option StateSymbol :=
  match decls with
  | [] => none
  | d :: rest =>
    match d.kind with
    | .varDecl _ =>
      match jget stateByDeclarationKey (getDeclarationKey d.filePath d.start) with
      | some m => some m
      | none => resolveStateFromDeclarations rest stateByDeclarationKey
    | _ =>
      match d.ancestorVar with
      | some (f, s) =>
        match jget stateByDeclarationKey (getDeclarationKey f s) with
        | some m => some m
        | none => resolveStateFromDeclarations rest stateByDeclarationKey
      | none => resolveStateFromDeclarations rest stateByDeclarationKey

def resolveStateFromExpression (node : Option Expr) (index : SymbolIndex) :
    Option StateSymbol :=
  match node with
  | none => none
  | some n =>
    match exprSym n with
    | none => none
    | some symbol => resolveStateFromDeclarations symbol.declarations index.stateByDeclarationKey

/-- `getSymbolKey` (shared/common.ts), at the symbol level. -/
def getSymbolKey (sym : Option SymRef) : Option String :=
  match sym with
  | none => none
  | some symbol =>
    match symbol.declarations with
    | [] => some symbol.fqName
    | declaration :: _ =>
      some (declaration.filePath ++ ":" ++ natToStr declaration.start ++ ":" ++ symbol.name)

def hasSelectorDefault (atomCall : Expr) (index : SymbolIndex) : Bool :=
  match (callArguments atomCall).head? with
  | some (.objectE props) =>
    match props.find? (fun p => match p with
        | .assignP n _ => n = "default"
        | _ => false) with
    | some (.assignP _ initializer) =>
      (match initializer with
        | .callE _ _ fp _ _ _ =>
          match jget index.importMapByFilePath fp with
          | some importMap =>
            match resolveCalledFactory initializer importMap with
            | some factory =>
              factory.module = "recoil" &&
                (factory.imported = "selector" || factory.imported = "selectorFamily")
            | none => false
          | none => false
        | _ => false) ||
      (match resolveStateFromExpression (some initializer) index with
        | some referencedState =>
          referencedState.store = .recoil &&
            (referencedState.kind = .selector || referencedState.kind = .selectorFamily)
        | none => false)
    | _ => false
  | _ => false

/-- The comparator of the `states.sort` call in `buildSymbolIndex`. -/
def stateSortCmp (left right : StateSymbol) : Ordering :=
  if left.filePath ≠ right.filePath then strCmp left.filePath right.filePath
  else if left.line ≠ right.line then natCmp left.line right.line
  else strCmp left.name right.name

/-- First pass of `buildSymbolIndex`: per-file import maps, the internal
state list, and the declaration-key map. -/
def buildSymbolIndexScan (sourceFiles : List SourceFileModel) :
    JsMap ImportMap × List StateInternal × JsMap StateSymbol :=
  sourceFiles.foldl (fun acc sourceFile =>
    let importMap := buildImportMap sourceFile.importDecls
    let ims := jset acc.1 sourceFile.filePath importMap
    let inner := sourceFile.topVarDecls.foldl (fun acc2 declaration =>
      match declaration.initCall with
      | none => acc2
      | some initCall =>
        match resolveCalledFactory initCall importMap with
        | none => acc2
        | some factory =>
          match classifyStateFactory factory.module factory.imported initCall with
          | none => acc2
          | some classification =>
            let name := declaration.nameNode.nameText
            let state : StateSymbol := {
              id := createStateId declaration.filePath name
              name := name
              store := classification.1
              kind := classification.2
              filePath := declaration.filePath
              line := declaration.nameLine
              column := declaration.nameColumn
              exported := declaration.exported
              isRecoilPlainAtom :=
                classification.1 = .recoil && classification.2 = .atom }
            (acc2.1 ++ [⟨state, declaration, initCall⟩],
             jset acc2.2 declaration.declKey state))
      (acc.2.1, acc.2.2)
    (ims, inner.1, inner.2)) ([], [], [])

def indexOfInternals (internals : List StateInternal)
    (stateByDeclarationKey : JsMap StateSymbol)
    (importMapByFilePath : JsMap ImportMap) : SymbolIndex := {
  states := internals.map (·.state)
  stateById := internals.map (fun i => (i.state.id, i.state))
  declarationByStateId := internals.map (fun i => (i.state.id, i.declaration))
  initCallByStateId := internals.map (fun i => (i.state.id, i.initCall))
  stateByDeclarationKey := stateByDeclarationKey
  importMapByFilePath := importMapByFilePath }

/-- `buildSymbolIndex`.  The second pass of the source mutates
`internal.state.isRecoilPlainAtom` on the shared state objects; since
`hasSelectorDefault` never reads that flag, updating every internal against
the temporary (pre-update) index and rebuilding the maps — which in the
source alias the very same objects — is the same function. -/
def buildSymbolIndex (sourceFiles : List SourceFileModel) : SymbolIndex :=
  let scan := buildSymbolIndexScan sourceFiles
  let importMapByFilePath := scan.1
  let internals := scan.2.1
  let stateByDeclarationKey0 := scan.2.2
  let temporaryIndex := indexOfInternals internals stateByDeclarationKey0 importMapByFilePath
  let updated := internals.map (fun internal =>
    if internal.state.store = .recoil ∧ internal.state.kind = .atom then
      { internal with state :=
          { internal.state with
              isRecoilPlainAtom := !hasSelectorDefault internal.initCall temporaryIndex } }
    else internal)
  let stateByDeclarationKey := updated.foldl
    (fun m i => jset m i.declaration.declKey i.state) ([] : JsMap StateSymbol)
  let index := indexOfInternals updated stateByDeclarationKey importMapByFilePath
  { index with states := stableSortByCmp stateSortCmp index.states }

/-! ## `src/core/events/shared/common.ts` -/

def RECOIL_SNAPSHOT_READ_METHODS : List String := ["get", "getPromise", "getLoadable"]
def RECOIL_SETTER_FACTORIES : List String := ["useSetRecoilState", "useResetRecoilState"]
def RECOIL_TUPLE_FACTORIES : List String := ["useRecoilState", "useRecoilStateLoadable"]
def RECOIL_READ_FACTORIES : List String :=
  ["useRecoilValue", "useRecoilValueLoadable"] ++ RECOIL_TUPLE_FACTORIES
def JOTAI_SETTER_FACTORIES : List String := ["useSetAtom"]
def JOTAI_TUPLE_FACTORIES : List String := ["useAtom"]
def JOTAI_READ_FACTORIES : List String := ["useAtomValue"] ++ JOTAI_TUPLE_FACTORIES

/-- `String.prototype.startsWith`, as structural list-prefix testing so that
concrete ancestor walks evaluate by reduction. -/
def strStartsWith (s pre : String) : Bool := pre.data.isPrefixOf s.data

/-- The `isInsideInitializeStateProperty` parent walk, over the ancestor
chain of a node. -/
def isInsideInitializeStateProperty : List AncestorInfo → Bool
  | [] => false
  | .jsxAttribute n :: rest =>
    n = "initializeState" || isInsideInitializeStateProperty rest
  | .propertyAssignment n :: rest =>
    n = "initializeState" || isInsideInitializeStateProperty rest
  | _ :: rest => isInsideInitializeStateProperty rest

/-- The second parent walk of `isInitWriteContext`: any enclosing
function-like whose computed name starts with `initialize`. -/
def initializeNameWalk : List AncestorInfo → Bool
  | [] => false
  | .functionLike (some n) :: rest =>
    strStartsWith n "initialize" || initializeNameWalk rest
  | _ :: rest => initializeNameWalk rest

def isInitWriteContext (ancestors : List AncestorInfo) : Bool :=
  isInsideInitializeStateProperty ancestors || initializeNameWalk ancestors

def classifyWriteType (ancestors : List AncestorInfo) : EventType :=
  if isInitWriteContext ancestors then .initWrite else .runtimeWrite

def getContainingFunctionName : List AncestorInfo → String
  | [] => "<anonymous>"
  | .functionLike (some n) :: _ => n
  | _ :: rest => getContainingFunctionName rest

/-- `createRuntimeReadEvent`; the node argument is passed as its location
and ancestor chain. -/
def createRuntimeReadEvent (filePath : String) (line column : Nat)
    (ancestors : List AncestorInfo) (stateId via_ : String) : UsageEvent := {
  type := .read
  phase := .runtime
  stateId := stateId
  actorType := .function
  actorName := getContainingFunctionName ancestors
  filePath := filePath
  line := line
  column := column
  via := via_ }

/-- `createWriteEvent`; the node argument is passed as its location and
ancestor chain. -/
def createWriteEvent (filePath : String) (line column : Nat)
    (ancestors : List AncestorInfo) (stateId runtimeVia initVia : String) :
    UsageEvent :=
  let writeType := classifyWriteType ancestors
  { type := writeType
    phase := .runtime
    stateId := stateId
    actorType := .function
    actorName := getContainingFunctionName ancestors
    filePath := filePath
    line := line
    column := column
    via := if writeType = .initWrite then initVia else runtimeVia }

inductive MutationKind where
  | set
  | reset
deriving DecidableEq, Repr

def getMutationVias : MutationKind → String × String
  | .set => ("set-call", "initializeState:set")
  | .reset => ("reset-call", "initializeState:reset")

def resolveMutationKind (callee : Expr) : Option MutationKind :=
  match callee with
  | .identE name _ =>
    if name = "set" then some .set else if name = "reset" then some .reset else none
  | .propE _ name _ =>
    if name = "set" then some .set else if name = "reset" then some .reset else none
  | _ => none

def isSetterReferenceWriteSite (identifier : IdentSite) : Bool :=
  match identifier.jsxAttrName with
  | some attrName => strStartsWith attrName "on"
  | none => false

mutual

def collectIdentifiersFromBindingName : BindingName → List String
  | .identB t _ => [t]
  | .objectB elements => collectIdentifiersFromBindingElems elements
  | .arrayB _ => []

def collectIdentifiersFromBindingElems : List BindingElem → List String
  | [] => []
  | .mk _ n :: rest =>
    collectIdentifiersFromBindingName n ++ collectIdentifiersFromBindingElems rest

end

def getFallbackSetterKey (filePath setterName : String) : String :=
  "name|" ++ filePath ++ "|" ++ setterName

def resolveFunctionLikeNodesFromExpression (prog : Program) (expression : Expr) :
    List FnNode :=
  match exprSym expression with
  | none => []
  | some symbol =>
    symbol.declarations.flatMap (fun declaration =>
      match declaration.kind with
      | .funcDecl k => (lookupFn prog k).toList
      | .methodDecl k => (lookupFn prog k).toList
      | .varDecl (some k) => (lookupFn prog k).toList
      | _ => [])

/-- `isInFunctionOwnScope`, with the parent walk of the node presented as
its precomputed owning function key. -/
def isInFunctionOwnScope (ownerFnKey : Option String) (functionNode : FnNode) : Bool :=
  ownerFnKey = some (getFunctionLikeNodeKey functionNode)

/-! ### Dedupe and ordering (shared/common.ts) -/

def usageEventKeyParts (event : UsageEvent) : List String :=
  [event.type.toStr, event.phase.toStr, event.stateId, event.actorType.toStr,
   event.actorName, event.filePath, natToStr event.line, natToStr event.column,
   event.via]

def usageEventKey (event : UsageEvent) : String :=
  joinBar (usageEventKeyParts event)

def dependencyEdgeKeyParts (edge : DependencyEdge) : List String :=
  [edge.fromStateId, edge.toStateId, edge.filePath, natToStr edge.line,
   natToStr edge.column, edge.via]

def dependencyEdgeKey (edge : DependencyEdge) : String :=
  joinBar (dependencyEdgeKeyParts edge)

/-- The `unique : Map` loop of the dedupe functions: keep the first entry
for each key, in first-occurrence order. -/
def firstOccurrences {α : Type _} (key : α → String) :
    List α → List String → List α
  | [], _ => []
  | e :: rest, seen =>
    if key e ∈ seen then firstOccurrences key rest seen
    else e :: firstOccurrences key rest (key e :: seen)

def compareUsageEvents (left right : UsageEvent) : Ordering :=
  if left.filePath ≠ right.filePath then strCmp left.filePath right.filePath
  else if left.line ≠ right.line then natCmp left.line right.line
  else if left.column ≠ right.column then natCmp left.column right.column
  else if left.type.toStr ≠ right.type.toStr then strCmp left.type.toStr right.type.toStr
  else strCmp left.stateId right.stateId

def compareDependencyEdges (left right : DependencyEdge) : Ordering :=
  if left.filePath ≠ right.filePath then strCmp left.filePath right.filePath
  else if left.line ≠ right.line then natCmp left.line right.line
  else if left.column ≠ right.column then natCmp left.column right.column
  else if left.fromStateId ≠ right.fromStateId then strCmp left.fromStateId right.fromStateId
  else strCmp left.toStateId right.toStateId

def dedupeUsageEvents (events : List UsageEvent) : List UsageEvent :=
  stableSortByCmp compareUsageEvents (firstOccurrences usageEventKey events [])

def dedupeDependencyEdges (edges : List DependencyEdge) : List DependencyEdge :=
  stableSortByCmp compareDependencyEdges (firstOccurrences dependencyEdgeKey edges [])

/-! ## `src/core/events/core/setter-bindings.ts`

The wrapper-aware resolution is recursive through the call graph.  Its
termination argument — the content of the source's cycle guard — is the
measure `remainingKeys`: the number of distinct function-table keys not yet
in the in-flight `resolvingKeys` set.  Recursion into a wrapper body only
happens for a key that is in the table and not in the set, and adds that
key to the set, so the measure strictly decreases exactly where the source
recurses. -/

inductive HookWriteBindingKind where
  | setter
  | tuple
  | object
deriving DecidableEq, Repr

structure HookWriteBinding where
  kind : HookWriteBindingKind
  stateId : Option String := none
  objectSetterStateByProp : Option (JsMap String) := none
deriving DecidableEq, Repr

def resolveDirectHookWriteBinding (callExpression : Expr) (index : SymbolIndex) :
    Option HookWriteBinding :=
  match jget index.importMapByFilePath (callFilePath callExpression) with
  | none => none
  | some importMap =>
    match resolveCalledFactory callExpression importMap with
    | none => none
    | some factory =>
      if factory.module = "recoil" ∧ factory.imported ∈ RECOIL_SETTER_FACTORIES then
        match resolveStateFromExpression (callArguments callExpression).head? index with
        | none => none
        | some targetState => some { kind := .setter, stateId := some targetState.id }
      else if factory.module = "jotai" ∧ factory.imported ∈ JOTAI_SETTER_FACTORIES then
        match resolveStateFromExpression (callArguments callExpression).head? index with
        | none => none
        | some targetState => some { kind := .setter, stateId := some targetState.id }
      else if factory.module = "recoil" ∧ factory.imported ∈ RECOIL_TUPLE_FACTORIES then
        match resolveStateFromExpression (callArguments callExpression).head? index with
        | none => none
        | some targetState => some { kind := .tuple, stateId := some targetState.id }
      else if factory.module = "jotai" ∧ factory.imported ∈ JOTAI_TUPLE_FACTORIES then
        match resolveStateFromExpression (callArguments callExpression).head? index with
        | none => none
        | some targetState => some { kind := .tuple, stateId := some targetState.id }
      else none

/-- The function-table keys a callee expression resolves to;
`resolveFunctionLikeNodesFromExpression` is their table lookup. -/
def resolveFunctionLikeKeysFromExpression (expression : Expr) : List String :=
  match exprSym expression with
  | none => []
  | some symbol =>
    symbol.declarations.flatMap (fun declaration =>
      match declaration.kind with
      | .funcDecl k => [k]
      | .methodDecl k => [k]
      | .varDecl (some k) => [k]
      | _ => [])

theorem flatMap_comp_pointwise {α β γ : Type _} (f : α → List γ) (g : α → List β)
    (h : β → List γ) (hpt : ∀ a, f a = (g a).flatMap h) (l : List α) :
    l.flatMap f = (l.flatMap g).flatMap h := by
  induction l with
  | nil => rfl
  | cons a l ih =>
    show f a ++ l.flatMap f = (g a ++ l.flatMap g).flatMap h
    rw [List.flatMap_append, hpt a, ih]

theorem resolveFunctionLikeNodes_eq_keys (prog : Program) (e : Expr) :
    resolveFunctionLikeNodesFromExpression prog e =
      (resolveFunctionLikeKeysFromExpression e).flatMap
        (fun k => (lookupFn prog k).toList) := by
  unfold resolveFunctionLikeNodesFromExpression resolveFunctionLikeKeysFromExpression
  match exprSym e with
  | none => rfl
  | some symbol =>
    refine flatMap_comp_pointwise _ _ _ ?_ symbol.declarations
    intro declaration
    match declaration.kind with
    | .funcDecl k => simp
    | .methodDecl k => simp
    | .varDecl (some k) => simp
    | .varDecl none => simp
    | .bindingElem _ _ => simp
    | .otherDecl => simp

def tableKeys (prog : Program) : List String :=
  prog.fnTable.map getFunctionLikeNodeKey

def remainingKeys (prog : Program) (resolvingKeys : JsSet) : Nat :=
  ((tableKeys prog).dedup.filter (fun k => ¬ shas resolvingKeys k)).length

theorem shas_iff (s : JsSet) (k : String) : shas s k = true ↔ k ∈ s := by
  simp [shas, List.elem_iff]

theorem shas_sadd (s : JsSet) (k k' : String) :
    shas (sadd s k) k' = (shas s k' || k' = k) := by
  by_cases h : k' ∈ s
  · have h1 : shas s k' = true := (shas_iff s k').2 h
    have h2 : shas (sadd s k) k' = true :=
      (shas_iff _ k').2 (by simp [sadd, h])
    rw [h1, h2]; simp
  · have h1 : shas s k' = false := by
      rcases e : shas s k' with _ | _
      · rfl
      · exact absurd ((shas_iff s k').1 e) h
    rw [h1]
    by_cases h2 : k' = k
    · subst h2
      have : shas (sadd s k') k' = true := (shas_iff _ k').2 (by simp [sadd])
      rw [this]; simp
    · have : shas (sadd s k) k' = false := by
        rcases e : shas (sadd s k) k' with _ | _
        · rfl
        · have := (shas_iff _ k').1 e
          simp [sadd] at this
          rcases this with h' | h'
          · exact absurd h' h
          · exact absurd h' h2
      rw [this]; simp [h2]

theorem length_filter_mono {α : Type _} (p q : α → Bool)
    (h : ∀ a, p a = true → q a = true) (l : List α) :
    (l.filter p).length ≤ (l.filter q).length := by
  induction l with
  | nil => simp
  | cons a l ih =>
    rcases e : p a with _ | _
    · rcases e' : q a with _ | _ <;> simp [List.filter_cons, e, e'] <;> omega
    · have := h a e
      simp [List.filter_cons, e, this]
      omega

theorem length_filter_strict {α : Type _} [DecidableEq α] (p q : α → Bool)
    (hmono : ∀ a, p a = true → q a = true) (key : α) (hq : q key = true)
    (hp : p key = false) {l : List α} (hmem : key ∈ l) :
    (l.filter p).length < (l.filter q).length := by
  induction l with
  | nil => simp at hmem
  | cons a l ih =>
    rcases List.mem_cons.1 hmem with rfl | hmem'
    · simp only [List.filter_cons, hp, hq]
      have := length_filter_mono p q hmono l
      simp
      omega
    · rcases e : p a with _ | _
      · rcases e' : q a with _ | _ <;> simp [List.filter_cons, e, e'] <;>
          have := ih hmem' <;> omega
      · have := hmono a e
        simp [List.filter_cons, e, this]
        have := ih hmem'
        omega

theorem remainingKeys_sadd_lt {prog : Program} {keys : JsSet} {key : String}
    (hmem : key ∈ tableKeys prog) (hnot : shas keys key = false) :
    remainingKeys prog (sadd keys key) < remainingKeys prog keys := by
  unfold remainingKeys
  refine length_filter_strict _ _ ?_ key ?_ ?_ ?_
  · intro a ha
    simp only [Bool.not_eq_true', decide_eq_true_eq] at ha ⊢
    rcases e : shas keys a with _ | _
    · simp
    · rw [shas_sadd, e] at ha
      simp at ha
  · simp [hnot]
  · rw [shas_sadd, hnot]
    simp
  · exact List.mem_dedup.2 hmem

abbrev HookCache := JsMap (Option HookWriteBinding)

def registerLocalHookBindingFromDeclaration (declaration : VarDecl)
    (binding : HookWriteBinding)
    (localValueBindings : JsMap HookWriteBinding)
    (localSetterByName : JsMap String) :
    JsMap HookWriteBinding × JsMap String :=
  match declaration.nameNode with
  | .identB t _ =>
    let lv := jset localValueBindings t binding
    let ls :=
      match binding.stateId with
      | some sid => if binding.kind = .setter then jset localSetterByName t sid
          else localSetterByName
      | none => localSetterByName
    (lv, ls)
  | .arrayB elements =>
    match binding.stateId with
    | some sid =>
      if binding.kind = .tuple then
        match elements[1]? with
        | some (some (BindingElem.mk _ (BindingName.identB t _))) =>
          (localValueBindings, jset localSetterByName t sid)
        | _ => (localValueBindings, localSetterByName)
      else (localValueBindings, localSetterByName)
    | none => (localValueBindings, localSetterByName)
  | .objectB elements =>
    match binding.objectSetterStateByProp with
    | some objMap =>
      if binding.kind = .object then
        (localValueBindings,
         elements.foldl (fun ls elem =>
           let propertyName := elem.propertyName.getD elem.name.nameText
           match jget objMap propertyName with
           | none => ls
           | some stateId =>
             (collectIdentifiersFromBindingName elem.name).foldl
               (fun ls' localName => jset ls' localName stateId) ls) localSetterByName)
      else (localValueBindings, localSetterByName)
    | none => (localValueBindings, localSetterByName)

def getReturnExpressions (functionNode : FnNode) : List Expr :=
  match functionNode.body with
  | .exprBody e => if functionNode.isDeclOrMethod then [] else [e]
  | .noBody => []
  | .block =>
    functionNode.descendantReturns.filterMap (fun r =>
      if isInFunctionOwnScope r.ownerFnKey functionNode then r.expr else none)

/-- The object-literal arm of `resolveHookWriteBindingFromReturnExpression`. -/
def buildObjectSetterStateByProp (props : List ObjProp)
    (localSetterByName : JsMap String) : JsMap String :=
  props.foldl (fun m property =>
    match property with
    | .shorthandP propertyName =>
      match jget localSetterByName propertyName with
      | some stateId => jset m propertyName stateId
      | none => m
    | .assignP propertyName initializer =>
      match initializer with
      | .identE t _ =>
        match jget localSetterByName t with
        | some stateId => jset m propertyName stateId
        | none => m
      | _ => m
    | _ => m) []

/-- The callee keys consulted by `resolveHookWriteBindingFromCallExpression`
when no direct binding matches. -/
def callFnKeys (callExpression : Expr) : List String :=
  match callExpression with
  | .callE callee _ _ _ _ _ => resolveFunctionLikeKeysFromExpression callee
  | _ => []

/-- A return expression that is itself a call, for the dispatch of
`resolveHookWriteBindingFromReturnExpression`. -/
def retCall (e : Expr) : Option Expr :=
  match e with
  | .callE callee args fp ln col anc => some (.callE callee args fp ln col anc)
  | _ => none

/-- The non-recursive arms of `resolveHookWriteBindingFromReturnExpression`:
a local identifier looks up the local value bindings, an object literal
packages the locally bound setters by property. -/
def resolveHookReturnNonCall (returnExpression : Expr)
    (localValueBindings : JsMap HookWriteBinding)
    (localSetterByName : JsMap String) (cache : HookCache) :
    Option HookWriteBinding × HookCache :=
  match returnExpression with
  | .identE t _ => (jget localValueBindings t, cache)
  | .objectE props =>
    let objectSetterStateByProp := buildObjectSetterStateByProp props localSetterByName
    if objectSetterStateByProp.length = 0 then (none, cache)
    else
      (some { kind := .object, objectSetterStateByProp := some objectSetterStateByProp },
       cache)
  | _ => (none, cache)

mutual

/-- `resolveHookWriteBindingFromCallExpression`: direct hook bindings first,
then wrapper resolution through the callee's function-like declarations. -/
def resolveHookWriteBindingFromCallExpression (prog : Program) (index : SymbolIndex)
    (callExpression : Expr) (cache : HookCache) (resolvingKeys : JsSet) :
    Option HookWriteBinding × HookCache :=
  match resolveDirectHookWriteBinding callExpression index with
  | some directBinding => (some directBinding, cache)
  | none =>
    let fnKeys := callFnKeys callExpression
    resolveHookFnLoop prog index fnKeys cache resolvingKeys
termination_by (remainingKeys prog resolvingKeys, 2, 0)

/-- The `for (const functionNode of functionNodes)` loop of
`resolveHookWriteBindingFromCallExpression`: consult the cache, skip keys
currently being analyzed, otherwise analyze under the extended in-flight set
and record the result (a `none` result as the `null` sentinel). -/
def resolveHookFnLoop (prog : Program) (index : SymbolIndex)
    (fnKeys : List String) (cache : HookCache) (resolvingKeys : JsSet) :
    Option HookWriteBinding × HookCache :=
  match fnKeys with
  | [] => (none, cache)
  | k :: rest =>
    match hfn : lookupFn prog k with
    | none => resolveHookFnLoop prog index rest cache resolvingKeys
    | some functionNode =>
      match jget cache (getFunctionLikeNodeKey functionNode) with
      | some cached =>
        match cached with
        | some b => (some b, cache)
        | none => resolveHookFnLoop prog index rest cache resolvingKeys
      | none =>
        if hres : shas resolvingKeys (getFunctionLikeNodeKey functionNode) then
          resolveHookFnLoop prog index rest cache resolvingKeys
        else
          have hlt : remainingKeys prog
              (sadd resolvingKeys (getFunctionLikeNodeKey functionNode)) <
              remainingKeys prog resolvingKeys :=
            remainingKeys_sadd_lt
              (List.mem_map_of_mem _ (List.mem_of_find?_eq_some hfn))
              (by simpa using hres)
          let res := analyzeHookWrapperFunction prog index functionNode cache
            (sadd resolvingKeys (getFunctionLikeNodeKey functionNode))
          let cache₂ := jset res.2 (getFunctionLikeNodeKey functionNode) res.1
          match res.1 with
          | some b => (some b, cache₂)
          | none => resolveHookFnLoop prog index rest cache₂ resolvingKeys
termination_by (remainingKeys prog resolvingKeys, 1, fnKeys.length)

/-- `analyzeHookWrapperFunction`. -/
def analyzeHookWrapperFunction (prog : Program) (index : SymbolIndex)
    (functionNode : FnNode) (cache : HookCache) (resolvingKeys : JsSet) :
    Option HookWriteBinding × HookCache :=
  let d := analyzeHookDeclsLoop prog index functionNode
    functionNode.descendantVarDecls [] [] cache resolvingKeys
  resolveHookReturnsLoop prog index (getReturnExpressions functionNode)
    d.1 d.2.1 d.2.2 resolvingKeys
termination_by (remainingKeys prog resolvingKeys, 9, 0)

/-- The declaration loop of `analyzeHookWrapperFunction`. -/
def analyzeHookDeclsLoop (prog : Program) (index : SymbolIndex)
    (functionNode : FnNode) (ds : List VarDecl)
    (localValueBindings : JsMap HookWriteBinding)
    (localSetterByName : JsMap String) (cache : HookCache)
    (resolvingKeys : JsSet) :
    JsMap HookWriteBinding × JsMap String × HookCache :=
  match ds with
  | [] => (localValueBindings, localSetterByName, cache)
  | declaration :: rest =>
    if isInFunctionOwnScope declaration.ownerFnKey functionNode then
      match declaration.initCall with
      | none =>
        analyzeHookDeclsLoop prog index functionNode rest
          localValueBindings localSetterByName cache resolvingKeys
      | some initializerCall =>
        let r := resolveHookWriteBindingFromCallExpression prog index
          initializerCall cache resolvingKeys
        match r.1 with
        | none =>
          analyzeHookDeclsLoop prog index functionNode rest
            localValueBindings localSetterByName r.2 resolvingKeys
        | some binding =>
          let reg := registerLocalHookBindingFromDeclaration declaration binding
            localValueBindings localSetterByName
          analyzeHookDeclsLoop prog index functionNode rest
            reg.1 reg.2 r.2 resolvingKeys
    else
      analyzeHookDeclsLoop prog index functionNode rest
        localValueBindings localSetterByName cache resolvingKeys
termination_by (remainingKeys prog resolvingKeys, 8, ds.length)

/-- The return-expression loop of `analyzeHookWrapperFunction`.  Each step is
`resolveHookWriteBindingFromReturnExpression` (defined just after this block):
the call arm recurses, the other arms are `resolveHookReturnNonCall`. -/
def resolveHookReturnsLoop (prog : Program) (index : SymbolIndex)
    (es : List Expr) (localValueBindings : JsMap HookWriteBinding)
    (localSetterByName : JsMap String) (cache : HookCache)
    (resolvingKeys : JsSet) : Option HookWriteBinding × HookCache :=
  match es with
  | [] => (none, cache)
  | returnExpression :: rest =>
    let r :=
      match retCall returnExpression with
      | some c =>
        resolveHookWriteBindingFromCallExpression prog index c cache resolvingKeys
      | none =>
        resolveHookReturnNonCall returnExpression localValueBindings
          localSetterByName cache
    match r.1 with
    | some binding => (some binding, r.2)
    | none =>
      resolveHookReturnsLoop prog index rest localValueBindings
        localSetterByName r.2 resolvingKeys
termination_by (remainingKeys prog resolvingKeys, 7, es.length)

end

/-- `resolveHookWriteBindingFromReturnExpression`. -/
def resolveHookWriteBindingFromReturnExpression (prog : Program)
    (index : SymbolIndex) (returnExpression : Expr)
    (localValueBindings : JsMap HookWriteBinding)
    (localSetterByName : JsMap String) (cache : HookCache)
    (resolvingKeys : JsSet) : Option HookWriteBinding × HookCache :=
  match returnExpression with
  | .callE callee args fp ln col anc =>
    resolveHookWriteBindingFromCallExpression prog index
      (.callE callee args fp ln col anc) cache resolvingKeys
  | .identE t _ => (jget localValueBindings t, cache)
  | .objectE props =>
    let objectSetterStateByProp := buildObjectSetterStateByProp props localSetterByName
    if objectSetterStateByProp.length = 0 then (none, cache)
    else
      (some { kind := .object, objectSetterStateByProp := some objectSetterStateByProp },
       cache)
  | _ => (none, cache)

/-! ### Fuel-indexed wrapper resolution

The source's recursion is not structurally bounded: it re-enters
`analyzeHookWrapperFunction` through arbitrary call graphs.  The fueled
variants below recurse exactly like the functions above but consume one
unit of fuel at each entry into a wrapper body — the only edge on which the
recursion can spiral.  Termination of the source's algorithm is then the
statement that `remainingKeys` fuel always suffices: the in-flight key set
bounds the depth of wrapper re-entry on every input, cyclic call graphs
included. -/

mutual

def resolveHookWriteBindingFromCallExpressionF (fuel : Nat) (prog : Program)
    (index : SymbolIndex) (callExpression : Expr) (cache : HookCache)
    (resolvingKeys : JsSet) : Option HookWriteBinding × HookCache :=
  match resolveDirectHookWriteBinding callExpression index with
  | some directBinding => (some directBinding, cache)
  | none =>
    let fnKeys := callFnKeys callExpression
    resolveHookFnLoopF fuel prog index fnKeys cache resolvingKeys
termination_by (fuel, 2, 0)

def resolveHookFnLoopF (fuel : Nat) (prog : Program) (index : SymbolIndex)
    (fnKeys : List String) (cache : HookCache) (resolvingKeys : JsSet) :
    Option HookWriteBinding × HookCache :=
  match fnKeys with
  | [] => (none, cache)
  | k :: rest =>
    match lookupFn prog k with
    | none => resolveHookFnLoopF fuel prog index rest cache resolvingKeys
    | some functionNode =>
      match jget cache (getFunctionLikeNodeKey functionNode) with
      | some cached =>
        match cached with
        | some b => (some b, cache)
        | none => resolveHookFnLoopF fuel prog index rest cache resolvingKeys
      | none =>
        if shas resolvingKeys (getFunctionLikeNodeKey functionNode) then
          resolveHookFnLoopF fuel prog index rest cache resolvingKeys
        else
          match fuel with
          | 0 => (none, cache)
          | f + 1 =>
            let res := analyzeHookWrapperFunctionF f prog index functionNode cache
              (sadd resolvingKeys (getFunctionLikeNodeKey functionNode))
            let cache₂ := jset res.2 (getFunctionLikeNodeKey functionNode) res.1
            match res.1 with
            | some b => (some b, cache₂)
            | none => resolveHookFnLoopF (f + 1) prog index rest cache₂ resolvingKeys
termination_by (fuel, 1, fnKeys.length)

def analyzeHookWrapperFunctionF (fuel : Nat) (prog : Program)
    (index : SymbolIndex) (functionNode : FnNode) (cache : HookCache)
    (resolvingKeys : JsSet) : Option HookWriteBinding × HookCache :=
  let d := analyzeHookDeclsLoopF fuel prog index functionNode
    functionNode.descendantVarDecls [] [] cache resolvingKeys
  resolveHookReturnsLoopF fuel prog index (getReturnExpressions functionNode)
    d.1 d.2.1 d.2.2 resolvingKeys
termination_by (fuel, 9, 0)

def analyzeHookDeclsLoopF (fuel : Nat) (prog : Program) (index : SymbolIndex)
    (functionNode : FnNode) (ds : List VarDecl)
    (localValueBindings : JsMap HookWriteBinding)
    (localSetterByName : JsMap String) (cache : HookCache)
    (resolvingKeys : JsSet) :
    JsMap HookWriteBinding × JsMap String × HookCache :=
  match ds with
  | [] => (localValueBindings, localSetterByName, cache)
  | declaration :: rest =>
    if isInFunctionOwnScope declaration.ownerFnKey functionNode then
      match declaration.initCall with
      | none =>
        analyzeHookDeclsLoopF fuel prog index functionNode rest
          localValueBindings localSetterByName cache resolvingKeys
      | some initializerCall =>
        let r := resolveHookWriteBindingFromCallExpressionF fuel prog index
          initializerCall cache resolvingKeys
        match r.1 with
        | none =>
          analyzeHookDeclsLoopF fuel prog index functionNode rest
            localValueBindings localSetterByName r.2 resolvingKeys
        | some binding =>
          let reg := registerLocalHookBindingFromDeclaration declaration binding
            localValueBindings localSetterByName
          analyzeHookDeclsLoopF fuel prog index functionNode rest
            reg.1 reg.2 r.2 resolvingKeys
    else
      analyzeHookDeclsLoopF fuel prog index functionNode rest
        localValueBindings localSetterByName cache resolvingKeys
termination_by (fuel, 8, ds.length)

def resolveHookReturnsLoopF (fuel : Nat) (prog : Program) (index : SymbolIndex)
    (es : List Expr) (localValueBindings : JsMap HookWriteBinding)
    (localSetterByName : JsMap String) (cache : HookCache)
    (resolvingKeys : JsSet) : Option HookWriteBinding × HookCache :=
  match es with
  | [] => (none, cache)
  | returnExpression :: rest =>
    let r :=
      match retCall returnExpression with
      | some c =>
        resolveHookWriteBindingFromCallExpressionF fuel prog index c cache
          resolvingKeys
      | none =>
        resolveHookReturnNonCall returnExpression localValueBindings
          localSetterByName cache
    match r.1 with
    | some binding => (some binding, r.2)
    | none =>
      resolveHookReturnsLoopF fuel prog index rest localValueBindings
        localSetterByName r.2 resolvingKeys
termination_by (fuel, 7, es.length)

end

/-- The fueled `resolveHookWriteBindingFromReturnExpression`. -/
def resolveHookWriteBindingFromReturnExpressionF (fuel : Nat) (prog : Program)
    (index : SymbolIndex) (returnExpression : Expr)
    (localValueBindings : JsMap HookWriteBinding)
    (localSetterByName : JsMap String) (cache : HookCache)
    (resolvingKeys : JsSet) : Option HookWriteBinding × HookCache :=
  match returnExpression with
  | .callE callee args fp ln col anc =>
    resolveHookWriteBindingFromCallExpressionF fuel prog index
      (.callE callee args fp ln col anc) cache resolvingKeys
  | .identE t _ => (jget localValueBindings t, cache)
  | .objectE props =>
    let objectSetterStateByProp := buildObjectSetterStateByProp props localSetterByName
    if objectSetterStateByProp.length = 0 then (none, cache)
    else
      (some { kind := .object, objectSetterStateByProp := some objectSetterStateByProp },
       cache)
  | _ => (none, cache)


/-! ### Branch-level unfolding equations for the wrapper resolution

The recursion above is well-founded, so its defining equations are not
definitional; the lemmas below restate each branch as a plain rewrite, for
the total functions and their fueled variants alike. -/

set_option maxHeartbeats 4000000

theorem resolveHookCall_direct {prog : Program} {index : SymbolIndex}
    {callExpression : Expr} {cache : HookCache} {rk : JsSet}
    {d : HookWriteBinding}
    (h : resolveDirectHookWriteBinding callExpression index = some d) :
    resolveHookWriteBindingFromCallExpression prog index callExpression cache rk =
      (some d, cache) := by
  simp only [resolveHookWriteBindingFromCallExpression]
  rw [h]

theorem resolveHookCall_wrapper {prog : Program} {index : SymbolIndex}
    {callExpression : Expr} {cache : HookCache} {rk : JsSet}
    (h : resolveDirectHookWriteBinding callExpression index = none) :
    resolveHookWriteBindingFromCallExpression prog index callExpression cache rk =
      resolveHookFnLoop prog index (callFnKeys callExpression) cache rk := by
  simp only [resolveHookWriteBindingFromCallExpression]
  rw [h]

theorem resolveHookFnLoop_nil {prog : Program} {index : SymbolIndex}
    {cache : HookCache} {rk : JsSet} :
    resolveHookFnLoop prog index [] cache rk = (none, cache) := by
  simp only [resolveHookFnLoop]

theorem resolveHookFnLoop_cons_noFn {prog : Program} {index : SymbolIndex}
    {k : String} {rest : List String} {cache : HookCache} {rk : JsSet}
    (h : lookupFn prog k = none) :
    resolveHookFnLoop prog index (k :: rest) cache rk =
      resolveHookFnLoop prog index rest cache rk := by
  simp only [resolveHookFnLoop]
  split
  · rfl
  · rename_i functionNode hfn
    rw [h] at hfn
    exact absurd hfn (by simp)

theorem resolveHookFnLoop_cons_cachedSome {prog : Program} {index : SymbolIndex}
    {k : String} {functionNode : FnNode} {rest : List String} {cache : HookCache}
    {rk : JsSet} {b : HookWriteBinding}
    (h : lookupFn prog k = some functionNode)
    (hc : jget cache (getFunctionLikeNodeKey functionNode) = some (some b)) :
    resolveHookFnLoop prog index (k :: rest) cache rk = (some b, cache) := by
  simp only [resolveHookFnLoop]
  split
  · rename_i hfn
    rw [h] at hfn
    exact absurd hfn (by simp)
  · rename_i fn2 hfn
    rw [h] at hfn
    injection hfn with hfn2
    subst hfn2
    split
    · rename_i cached hcached
      rw [hc] at hcached
      injection hcached with hcached2
      subst hcached2
      rfl
    · rename_i hcached
      rw [hc] at hcached
      exact absurd hcached (by simp)

theorem resolveHookFnLoop_cons_cachedNone {prog : Program} {index : SymbolIndex}
    {k : String} {functionNode : FnNode} {rest : List String} {cache : HookCache}
    {rk : JsSet}
    (h : lookupFn prog k = some functionNode)
    (hc : jget cache (getFunctionLikeNodeKey functionNode) = some none) :
    resolveHookFnLoop prog index (k :: rest) cache rk =
      resolveHookFnLoop prog index rest cache rk := by
  simp only [resolveHookFnLoop]
  split
  · rename_i hfn
    rw [h] at hfn
  · rename_i fn2 hfn
    rw [h] at hfn
    injection hfn with hfn2
    subst hfn2
    split
    · rename_i cached hcached
      rw [hc] at hcached
      injection hcached with hcached2
      subst hcached2
      rfl
    · rename_i hcached
      rw [hc] at hcached
      exact absurd hcached (by simp)

theorem resolveHookFnLoop_cons_inflight {prog : Program} {index : SymbolIndex}
    {k : String} {functionNode : FnNode} {rest : List String} {cache : HookCache}
    {rk : JsSet}
    (h : lookupFn prog k = some functionNode)
    (hc : jget cache (getFunctionLikeNodeKey functionNode) = none)
    (hres : shas rk (getFunctionLikeNodeKey functionNode) = true) :
    resolveHookFnLoop prog index (k :: rest) cache rk =
      resolveHookFnLoop prog index rest cache rk := by
  simp only [resolveHookFnLoop]
  split
  · rename_i hfn
    rw [h] at hfn
  · rename_i fn2 hfn
    rw [h] at hfn
    injection hfn with hfn2
    subst hfn2
    split
    · rename_i cached hcached
      rw [hc] at hcached
      exact absurd hcached (by simp)
    · split
      · rfl
      · rename_i hres2
        exact absurd hres hres2

theorem resolveHookFnLoop_cons_analyze {prog : Program} {index : SymbolIndex}
    {k : String} {functionNode : FnNode} {rest : List String} {cache : HookCache}
    {rk : JsSet}
    (h : lookupFn prog k = some functionNode)
    (hc : jget cache (getFunctionLikeNodeKey functionNode) = none)
    (hres : shas rk (getFunctionLikeNodeKey functionNode) = false) :
    resolveHookFnLoop prog index (k :: rest) cache rk =
      (let res := analyzeHookWrapperFunction prog index functionNode cache
        (sadd rk (getFunctionLikeNodeKey functionNode))
       let cache₂ := jset res.2 (getFunctionLikeNodeKey functionNode) res.1
       match res.1 with
       | some b => (some b, cache₂)
       | none => resolveHookFnLoop prog index rest cache₂ rk) := by
  simp only [resolveHookFnLoop]
  split
  · rename_i hfn
    rw [h] at hfn
    exact absurd hfn (by simp)
  · rename_i fn2 hfn
    rw [h] at hfn
    injection hfn with hfn2
    subst hfn2
    split
    · rename_i cached hcached
      rw [hc] at hcached
      exact absurd hcached (by simp)
    · split
      · rename_i hres2
        rw [hres] at hres2
        exact absurd hres2 (by simp)
      · rfl

theorem analyzeHookWrapperFunction_eq {prog : Program} {index : SymbolIndex}
    {functionNode : FnNode} {cache : HookCache} {rk : JsSet} :
    analyzeHookWrapperFunction prog index functionNode cache rk =
      (let d := analyzeHookDeclsLoop prog index functionNode
        functionNode.descendantVarDecls [] [] cache rk
       resolveHookReturnsLoop prog index (getReturnExpressions functionNode)
        d.1 d.2.1 d.2.2 rk) := by
  simp only [analyzeHookWrapperFunction]

theorem analyzeHookDeclsLoop_nil {prog : Program} {index : SymbolIndex}
    {functionNode : FnNode} {lvb : JsMap HookWriteBinding} {lsn : JsMap String}
    {cache : HookCache} {rk : JsSet} :
    analyzeHookDeclsLoop prog index functionNode [] lvb lsn cache rk =
      (lvb, lsn, cache) := by
  simp only [analyzeHookDeclsLoop]

theorem analyzeHookDeclsLoop_cons_notOwn {prog : Program} {index : SymbolIndex}
    {functionNode : FnNode} {declaration : VarDecl} {rest : List VarDecl}
    {lvb : JsMap HookWriteBinding} {lsn : JsMap String} {cache : HookCache}
    {rk : JsSet}
    (h : isInFunctionOwnScope declaration.ownerFnKey functionNode = false) :
    analyzeHookDeclsLoop prog index functionNode (declaration :: rest)
        lvb lsn cache rk =
      analyzeHookDeclsLoop prog index functionNode rest lvb lsn cache rk := by
  simp only [analyzeHookDeclsLoop]
  rw [h]
  rfl

theorem analyzeHookDeclsLoop_cons_noInit {prog : Program} {index : SymbolIndex}
    {functionNode : FnNode} {declaration : VarDecl} {rest : List VarDecl}
    {lvb : JsMap HookWriteBinding} {lsn : JsMap String} {cache : HookCache}
    {rk : JsSet}
    (h : isInFunctionOwnScope declaration.ownerFnKey functionNode = true)
    (hic : declaration.initCall = none) :
    analyzeHookDeclsLoop prog index functionNode (declaration :: rest)
        lvb lsn cache rk =
      analyzeHookDeclsLoop prog index functionNode rest lvb lsn cache rk := by
  simp only [analyzeHookDeclsLoop]
  rw [h, hic]
  rfl

theorem analyzeHookDeclsLoop_cons_init {prog : Program} {index : SymbolIndex}
    {functionNode : FnNode} {declaration : VarDecl} {rest : List VarDecl}
    {lvb : JsMap HookWriteBinding} {lsn : JsMap String} {cache : HookCache}
    {rk : JsSet} {initializerCall : Expr}
    (h : isInFunctionOwnScope declaration.ownerFnKey functionNode = true)
    (hic : declaration.initCall = some initializerCall) :
    analyzeHookDeclsLoop prog index functionNode (declaration :: rest)
        lvb lsn cache rk =
      (let r := resolveHookWriteBindingFromCallExpression prog index
        initializerCall cache rk
       match r.1 with
       | none => analyzeHookDeclsLoop prog index functionNode rest lvb lsn r.2 rk
       | some binding =>
         let reg := registerLocalHookBindingFromDeclaration declaration binding
           lvb lsn
         analyzeHookDeclsLoop prog index functionNode rest reg.1 reg.2 r.2 rk) := by
  simp only [analyzeHookDeclsLoop]
  rw [h, hic]
  rfl

theorem resolveHookReturnsLoop_nil {prog : Program} {index : SymbolIndex}
    {lvb : JsMap HookWriteBinding} {lsn : JsMap String} {cache : HookCache}
    {rk : JsSet} :
    resolveHookReturnsLoop prog index [] lvb lsn cache rk = (none, cache) := by
  simp only [resolveHookReturnsLoop]

theorem resolveHookReturnsLoop_cons {prog : Program} {index : SymbolIndex}
    {returnExpression : Expr} {rest : List Expr}
    {lvb : JsMap HookWriteBinding} {lsn : JsMap String} {cache : HookCache}
    {rk : JsSet} :
    resolveHookReturnsLoop prog index (returnExpression :: rest)
        lvb lsn cache rk =
      (let r := resolveHookWriteBindingFromReturnExpression prog index
        returnExpression lvb lsn cache rk
       match r.1 with
       | some binding => (some binding, r.2)
       | none => resolveHookReturnsLoop prog index rest lvb lsn r.2 rk) := by
  simp only [resolveHookReturnsLoop]
  rcases returnExpression with _ | _ | _ | _ | _ | _ <;> rfl

theorem resolveHookCallF_direct {fuel : Nat} {prog : Program}
    {index : SymbolIndex} {callExpression : Expr} {cache : HookCache}
    {rk : JsSet} {d : HookWriteBinding}
    (h : resolveDirectHookWriteBinding callExpression index = some d) :
    resolveHookWriteBindingFromCallExpressionF fuel prog index callExpression
        cache rk = (some d, cache) := by
  simp only [resolveHookWriteBindingFromCallExpressionF]
  rw [h]

theorem resolveHookCallF_wrapper {fuel : Nat} {prog : Program}
    {index : SymbolIndex} {callExpression : Expr} {cache : HookCache}
    {rk : JsSet}
    (h : resolveDirectHookWriteBinding callExpression index = none) :
    resolveHookWriteBindingFromCallExpressionF fuel prog index callExpression
        cache rk =
      resolveHookFnLoopF fuel prog index (callFnKeys callExpression) cache rk := by
  simp only [resolveHookWriteBindingFromCallExpressionF]
  rw [h]

theorem resolveHookFnLoopF_nil {fuel : Nat} {prog : Program}
    {index : SymbolIndex} {cache : HookCache} {rk : JsSet} :
    resolveHookFnLoopF fuel prog index [] cache rk = (none, cache) := by
  simp only [resolveHookFnLoopF]

theorem resolveHookFnLoopF_cons_noFn {fuel : Nat} {prog : Program}
    {index : SymbolIndex} {k : String} {rest : List String} {cache : HookCache}
    {rk : JsSet} (h : lookupFn prog k = none) :
    resolveHookFnLoopF fuel prog index (k :: rest) cache rk =
      resolveHookFnLoopF fuel prog index rest cache rk := by
  simp only [resolveHookFnLoopF]
  split
  · rfl
  · rename_i functionNode hfn
    rw [h] at hfn
    exact absurd hfn (by simp)

theorem resolveHookFnLoopF_cons_cachedSome {fuel : Nat} {prog : Program}
    {index : SymbolIndex} {k : String} {functionNode : FnNode}
    {rest : List String} {cache : HookCache} {rk : JsSet} {b : HookWriteBinding}
    (h : lookupFn prog k = some functionNode)
    (hc : jget cache (getFunctionLikeNodeKey functionNode) = some (some b)) :
    resolveHookFnLoopF fuel prog index (k :: rest) cache rk = (some b, cache) := by
  simp only [resolveHookFnLoopF]
  split
  · rename_i hfn
    rw [h] at hfn
    exact absurd hfn (by simp)
  · rename_i fn2 hfn
    rw [h] at hfn
    injection hfn with hfn2
    subst hfn2
    split
    · rename_i cached hcached
      rw [hc] at hcached
      injection hcached with hcached2
      subst hcached2
      rfl
    · rename_i hcached
      rw [hc] at hcached
      exact absurd hcached (by simp)

theorem resolveHookFnLoopF_cons_cachedNone {fuel : Nat} {prog : Program}
    {index : SymbolIndex} {k : String} {functionNode : FnNode}
    {rest : List String} {cache : HookCache} {rk : JsSet}
    (h : lookupFn prog k = some functionNode)
    (hc : jget cache (getFunctionLikeNodeKey functionNode) = some none) :
    resolveHookFnLoopF fuel prog index (k :: rest) cache rk =
      resolveHookFnLoopF fuel prog index rest cache rk := by
  simp only [resolveHookFnLoopF]
  split
  · rename_i hfn
    rw [h] at hfn
  · rename_i fn2 hfn
    rw [h] at hfn
    injection hfn with hfn2
    subst hfn2
    split
    · rename_i cached hcached
      rw [hc] at hcached
      injection hcached with hcached2
      subst hcached2
      rfl
    · rename_i hcached
      rw [hc] at hcached
      exact absurd hcached (by simp)

theorem resolveHookFnLoopF_cons_inflight {fuel : Nat} {prog : Program}
    {index : SymbolIndex} {k : String} {functionNode : FnNode}
    {rest : List String} {cache : HookCache} {rk : JsSet}
    (h : lookupFn prog k = some functionNode)
    (hc : jget cache (getFunctionLikeNodeKey functionNode) = none)
    (hres : shas rk (getFunctionLikeNodeKey functionNode) = true) :
    resolveHookFnLoopF fuel prog index (k :: rest) cache rk =
      resolveHookFnLoopF fuel prog index rest cache rk := by
  simp only [resolveHookFnLoopF]
  split
  · rename_i hfn
    rw [h] at hfn
  · rename_i fn2 hfn
    rw [h] at hfn
    injection hfn with hfn2
    subst hfn2
    split
    · rename_i cached hcached
      rw [hc] at hcached
      exact absurd hcached (by simp)
    · rw [hres]
      rfl

theorem resolveHookFnLoopF_cons_analyze_zero {prog : Program}
    {index : SymbolIndex} {k : String} {functionNode : FnNode}
    {rest : List String} {cache : HookCache} {rk : JsSet}
    (h : lookupFn prog k = some functionNode)
    (hc : jget cache (getFunctionLikeNodeKey functionNode) = none)
    (hres : shas rk (getFunctionLikeNodeKey functionNode) = false) :
    resolveHookFnLoopF 0 prog index (k :: rest) cache rk = (none, cache) := by
  simp only [resolveHookFnLoopF]
  split
  · rename_i hfn
    rw [h] at hfn
    exact absurd hfn (by simp)
  · rename_i fn2 hfn
    rw [h] at hfn
    injection hfn with hfn2
    subst hfn2
    split
    · rename_i cached hcached
      rw [hc] at hcached
      exact absurd hcached (by simp)
    · rw [hres]
      rfl

theorem resolveHookFnLoopF_cons_analyze_succ {f : Nat} {prog : Program}
    {index : SymbolIndex} {k : String} {functionNode : FnNode}
    {rest : List String} {cache : HookCache} {rk : JsSet}
    (h : lookupFn prog k = some functionNode)
    (hc : jget cache (getFunctionLikeNodeKey functionNode) = none)
    (hres : shas rk (getFunctionLikeNodeKey functionNode) = false) :
    resolveHookFnLoopF (f + 1) prog index (k :: rest) cache rk =
      (let res := analyzeHookWrapperFunctionF f prog index functionNode cache
        (sadd rk (getFunctionLikeNodeKey functionNode))
       let cache₂ := jset res.2 (getFunctionLikeNodeKey functionNode) res.1
       match res.1 with
       | some b => (some b, cache₂)
       | none => resolveHookFnLoopF (f + 1) prog index rest cache₂ rk) := by
  simp only [resolveHookFnLoopF]
  split
  · rename_i hfn
    rw [h] at hfn
    exact absurd hfn (by simp)
  · rename_i fn2 hfn
    rw [h] at hfn
    injection hfn with hfn2
    subst hfn2
    split
    · rename_i cached hcached
      rw [hc] at hcached
      exact absurd hcached (by simp)
    · rw [hres]
      rfl

theorem analyzeHookWrapperFunctionF_eq {fuel : Nat} {prog : Program}
    {index : SymbolIndex} {functionNode : FnNode} {cache : HookCache}
    {rk : JsSet} :
    analyzeHookWrapperFunctionF fuel prog index functionNode cache rk =
      (let d := analyzeHookDeclsLoopF fuel prog index functionNode
        functionNode.descendantVarDecls [] [] cache rk
       resolveHookReturnsLoopF fuel prog index (getReturnExpressions functionNode)
        d.1 d.2.1 d.2.2 rk) := by
  simp only [analyzeHookWrapperFunctionF]

theorem analyzeHookDeclsLoopF_nil {fuel : Nat} {prog : Program}
    {index : SymbolIndex} {functionNode : FnNode}
    {lvb : JsMap HookWriteBinding} {lsn : JsMap String} {cache : HookCache}
    {rk : JsSet} :
    analyzeHookDeclsLoopF fuel prog index functionNode [] lvb lsn cache rk =
      (lvb, lsn, cache) := by
  simp only [analyzeHookDeclsLoopF]

theorem analyzeHookDeclsLoopF_cons_notOwn {fuel : Nat} {prog : Program}
    {index : SymbolIndex} {functionNode : FnNode} {declaration : VarDecl}
    {rest : List VarDecl} {lvb : JsMap HookWriteBinding} {lsn : JsMap String}
    {cache : HookCache} {rk : JsSet}
    (h : isInFunctionOwnScope declaration.ownerFnKey functionNode = false) :
    analyzeHookDeclsLoopF fuel prog index functionNode (declaration :: rest)
        lvb lsn cache rk =
      analyzeHookDeclsLoopF fuel prog index functionNode rest lvb lsn cache rk := by
  simp only [analyzeHookDeclsLoopF]
  rw [h]
  rfl

theorem analyzeHookDeclsLoopF_cons_noInit {fuel : Nat} {prog : Program}
    {index : SymbolIndex} {functionNode : FnNode} {declaration : VarDecl}
    {rest : List VarDecl} {lvb : JsMap HookWriteBinding} {lsn : JsMap String}
    {cache : HookCache} {rk : JsSet}
    (h : isInFunctionOwnScope declaration.ownerFnKey functionNode = true)
    (hic : declaration.initCall = none) :
    analyzeHookDeclsLoopF fuel prog index functionNode (declaration :: rest)
        lvb lsn cache rk =
      analyzeHookDeclsLoopF fuel prog index functionNode rest lvb lsn cache rk := by
  simp only [analyzeHookDeclsLoopF]
  rw [h, hic]
  rfl

theorem analyzeHookDeclsLoopF_cons_init {fuel : Nat} {prog : Program}
    {index : SymbolIndex} {functionNode : FnNode} {declaration : VarDecl}
    {rest : List VarDecl} {lvb : JsMap HookWriteBinding} {lsn : JsMap String}
    {cache : HookCache} {rk : JsSet} {initializerCall : Expr}
    (h : isInFunctionOwnScope declaration.ownerFnKey functionNode = true)
    (hic : declaration.initCall = some initializerCall) :
    analyzeHookDeclsLoopF fuel prog index functionNode (declaration :: rest)
        lvb lsn cache rk =
      (let r := resolveHookWriteBindingFromCallExpressionF fuel prog index
        initializerCall cache rk
       match r.1 with
       | none => analyzeHookDeclsLoopF fuel prog index functionNode rest
           lvb lsn r.2 rk
       | some binding =>
         let reg := registerLocalHookBindingFromDeclaration declaration binding
           lvb lsn
         analyzeHookDeclsLoopF fuel prog index functionNode rest
           reg.1 reg.2 r.2 rk) := by
  simp only [analyzeHookDeclsLoopF]
  rw [h, hic]
  rfl

theorem resolveHookReturnsLoopF_nil {fuel : Nat} {prog : Program}
    {index : SymbolIndex} {lvb : JsMap HookWriteBinding} {lsn : JsMap String}
    {cache : HookCache} {rk : JsSet} :
    resolveHookReturnsLoopF fuel prog index [] lvb lsn cache rk =
      (none, cache) := by
  simp only [resolveHookReturnsLoopF]

theorem resolveHookReturnsLoopF_cons {fuel : Nat} {prog : Program}
    {index : SymbolIndex} {returnExpression : Expr} {rest : List Expr}
    {lvb : JsMap HookWriteBinding} {lsn : JsMap String} {cache : HookCache}
    {rk : JsSet} :
    resolveHookReturnsLoopF fuel prog index (returnExpression :: rest)
        lvb lsn cache rk =
      (let r := resolveHookWriteBindingFromReturnExpressionF fuel prog index
        returnExpression lvb lsn cache rk
       match r.1 with
       | some binding => (some binding, r.2)
       | none => resolveHookReturnsLoopF fuel prog index rest lvb lsn r.2 rk) := by
  simp only [resolveHookReturnsLoopF]
  rcases returnExpression with _ | _ | _ | _ | _ | _ <;> rfl

/-! ### Fueled and total wrapper resolution agree

`remainingKeys` fuel always suffices: this is the formal content of the
source's cycle-guard termination argument. -/

/-- All six resolver functions agree with their fueled variants at any
fuel at least `remainingKeys prog rk`. -/
def HookEqAt (fuel : Nat) : Prop :=
  ∀ (prog : Program) (index : SymbolIndex) (rk : JsSet),
    remainingKeys prog rk ≤ fuel →
    (∀ (callExpression : Expr) (cache : HookCache),
      resolveHookWriteBindingFromCallExpressionF fuel prog index callExpression
          cache rk =
        resolveHookWriteBindingFromCallExpression prog index callExpression
          cache rk) ∧
    (∀ (fnKeys : List String) (cache : HookCache),
      resolveHookFnLoopF fuel prog index fnKeys cache rk =
        resolveHookFnLoop prog index fnKeys cache rk) ∧
    (∀ (functionNode : FnNode) (cache : HookCache),
      analyzeHookWrapperFunctionF fuel prog index functionNode cache rk =
        analyzeHookWrapperFunction prog index functionNode cache rk) ∧
    (∀ (functionNode : FnNode) (ds : List VarDecl)
        (lvb : JsMap HookWriteBinding) (lsn : JsMap String) (cache : HookCache),
      analyzeHookDeclsLoopF fuel prog index functionNode ds lvb lsn cache rk =
        analyzeHookDeclsLoop prog index functionNode ds lvb lsn cache rk) ∧
    (∀ (es : List Expr) (lvb : JsMap HookWriteBinding) (lsn : JsMap String)
        (cache : HookCache),
      resolveHookReturnsLoopF fuel prog index es lvb lsn cache rk =
        resolveHookReturnsLoop prog index es lvb lsn cache rk) ∧
    (∀ (returnExpression : Expr) (lvb : JsMap HookWriteBinding)
        (lsn : JsMap String) (cache : HookCache),
      resolveHookWriteBindingFromReturnExpressionF fuel prog index
          returnExpression lvb lsn cache rk =
        resolveHookWriteBindingFromReturnExpression prog index
          returnExpression lvb lsn cache rk)

theorem hookEqAt : ∀ fuel : Nat, HookEqAt fuel := by
  intro fuel
  induction fuel using Nat.strong_induction_on with
  | _ fuel IH =>
    intro prog index rk hk
    have hFnLoop : ∀ (fnKeys : List String) (cache : HookCache),
        resolveHookFnLoopF fuel prog index fnKeys cache rk =
          resolveHookFnLoop prog index fnKeys cache rk := by
      intro fnKeys
      induction fnKeys with
      | nil =>
        intro cache
        rw [resolveHookFnLoopF_nil, resolveHookFnLoop_nil]
      | cons k rest ih =>
        intro cache
        rcases hfn : lookupFn prog k with _ | functionNode
        · rw [resolveHookFnLoopF_cons_noFn hfn, resolveHookFnLoop_cons_noFn hfn]
          exact ih cache
        · rcases hc : jget cache (getFunctionLikeNodeKey functionNode)
            with _ | cached
          · rcases hres : shas rk (getFunctionLikeNodeKey functionNode) with _ | _
            · have hmem : getFunctionLikeNodeKey functionNode ∈ tableKeys prog :=
                List.mem_map_of_mem _ (List.mem_of_find?_eq_some hfn)
              have hlt : remainingKeys prog
                  (sadd rk (getFunctionLikeNodeKey functionNode)) <
                  remainingKeys prog rk :=
                remainingKeys_sadd_lt hmem hres
              rcases fuel with _ | f
              · omega
              · rw [resolveHookFnLoopF_cons_analyze_succ hfn hc hres,
                  resolveHookFnLoop_cons_analyze hfn hc hres]
                have ha : analyzeHookWrapperFunctionF f prog index functionNode
                    cache (sadd rk (getFunctionLikeNodeKey functionNode)) =
                    analyzeHookWrapperFunction prog index functionNode
                      cache (sadd rk (getFunctionLikeNodeKey functionNode)) :=
                  (IH f (by omega) prog index
                    (sadd rk (getFunctionLikeNodeKey functionNode))
                    (by omega)).2.2.1 functionNode cache
                simp only [ha]
                rcases hr : (analyzeHookWrapperFunction prog index functionNode
                    cache (sadd rk (getFunctionLikeNodeKey functionNode))).1
                  with _ | b
                · simp only [hr]
                  exact ih _
                · simp only [hr]
            · rw [resolveHookFnLoopF_cons_inflight hfn hc hres,
                resolveHookFnLoop_cons_inflight hfn hc hres]
              exact ih cache
          · rcases cached with _ | b
            · rw [resolveHookFnLoopF_cons_cachedNone hfn hc,
                resolveHookFnLoop_cons_cachedNone hfn hc]
              exact ih cache
            · rw [resolveHookFnLoopF_cons_cachedSome hfn hc,
                resolveHookFnLoop_cons_cachedSome hfn hc]
    have hCall : ∀ (callExpression : Expr) (cache : HookCache),
        resolveHookWriteBindingFromCallExpressionF fuel prog index
            callExpression cache rk =
          resolveHookWriteBindingFromCallExpression prog index
            callExpression cache rk := by
      intro c cache
      rcases hd : resolveDirectHookWriteBinding c index with _ | d
      · rw [resolveHookCallF_wrapper hd, resolveHookCall_wrapper hd]
        exact hFnLoop _ cache
      · rw [resolveHookCallF_direct hd, resolveHookCall_direct hd]
    have hRet : ∀ (returnExpression : Expr) (lvb : JsMap HookWriteBinding)
        (lsn : JsMap String) (cache : HookCache),
        resolveHookWriteBindingFromReturnExpressionF fuel prog index
            returnExpression lvb lsn cache rk =
          resolveHookWriteBindingFromReturnExpression prog index
            returnExpression lvb lsn cache rk := by
      intro re lvb lsn cache
      rcases re with _ | _ | _ | _ | _ | _ <;>
        first
        | rfl
        | exact hCall _ cache
    have hDecls : ∀ (functionNode : FnNode) (ds : List VarDecl)
        (lvb : JsMap HookWriteBinding) (lsn : JsMap String) (cache : HookCache),
        analyzeHookDeclsLoopF fuel prog index functionNode ds lvb lsn cache rk =
          analyzeHookDeclsLoop prog index functionNode ds lvb lsn cache rk := by
      intro functionNode ds
      induction ds with
      | nil =>
        intro lvb lsn cache
        rw [analyzeHookDeclsLoopF_nil, analyzeHookDeclsLoop_nil]
      | cons declaration rest ih =>
        intro lvb lsn cache
        rcases hsc : isInFunctionOwnScope declaration.ownerFnKey functionNode
          with _ | _
        · rw [analyzeHookDeclsLoopF_cons_notOwn hsc,
            analyzeHookDeclsLoop_cons_notOwn hsc]
          exact ih lvb lsn cache
        · rcases hic : declaration.initCall with _ | initializerCall
          · rw [analyzeHookDeclsLoopF_cons_noInit hsc hic,
              analyzeHookDeclsLoop_cons_noInit hsc hic]
            exact ih lvb lsn cache
          · rw [analyzeHookDeclsLoopF_cons_init hsc hic,
              analyzeHookDeclsLoop_cons_init hsc hic]
            have hr := hCall initializerCall cache
            simp only [hr]
            rcases hb : (resolveHookWriteBindingFromCallExpression prog index
                initializerCall cache rk).1 with _ | binding
            · simp only [hb]
              exact ih lvb lsn _
            · simp only [hb]
              exact ih _ _ _
    have hReturns : ∀ (es : List Expr) (lvb : JsMap HookWriteBinding)
        (lsn : JsMap String) (cache : HookCache),
        resolveHookReturnsLoopF fuel prog index es lvb lsn cache rk =
          resolveHookReturnsLoop prog index es lvb lsn cache rk := by
      intro es
      induction es with
      | nil =>
        intro lvb lsn cache
        rw [resolveHookReturnsLoopF_nil, resolveHookReturnsLoop_nil]
      | cons returnExpression rest ih =>
        intro lvb lsn cache
        rw [resolveHookReturnsLoopF_cons, resolveHookReturnsLoop_cons]
        have hr := hRet returnExpression lvb lsn cache
        simp only [hr]
        rcases hb : (resolveHookWriteBindingFromReturnExpression prog index
            returnExpression lvb lsn cache rk).1 with _ | binding
        · simp only [hb]
          exact ih lvb lsn _
        · simp only [hb]
    have hAnalyze : ∀ (functionNode : FnNode) (cache : HookCache),
        analyzeHookWrapperFunctionF fuel prog index functionNode cache rk =
          analyzeHookWrapperFunction prog index functionNode cache rk := by
      intro functionNode cache
      rw [analyzeHookWrapperFunctionF_eq, analyzeHookWrapperFunction_eq]
      have hd := hDecls functionNode functionNode.descendantVarDecls [] [] cache
      simp only [hd]
      exact hReturns (getReturnExpressions functionNode) _ _ _
    exact ⟨hCall, hFnLoop, hAnalyze, hDecls, hReturns, hRet⟩

/-- `bindSetterIdentifier`; the identifier node is its text and symbol. -/
def bindSetterIdentifier (text : String) (sym : Option SymRef)
    (filePath stateId : String) (setterSymbolToStateId : JsMap String) :
    JsMap String :=
  let m :=
    match getSymbolKey sym with
    | some symbolKey => jset setterSymbolToStateId ("sym|" ++ symbolKey) stateId
    | none => setterSymbolToStateId
  jset m (getFallbackSetterKey filePath text) stateId

/-- `bindSetterIdentifierByName`. -/
def bindSetterIdentifierByName (localName filePath stateId : String)
    (setterSymbolToStateId : JsMap String) (fallbackNode : BindingName) :
    JsMap String :=
  let m := jset setterSymbolToStateId (getFallbackSetterKey filePath localName) stateId
  match fallbackNode with
  | .identB _ sym =>
    match sym with
    | none => m
    | some symbol =>
      symbol.declarations.foldl (fun acc declaration =>
        match declaration.kind with
        | .bindingElem nameText nameSymKey =>
          if nameText = localName then
            match nameSymKey with
            | some symbolKey => jset acc ("sym|" ++ symbolKey) stateId
            | none => acc
          else acc
        | _ => acc) m
  | _ => m

/-- `bindSetterIdentifiersFromDeclaration`. -/
def bindSetterIdentifiersFromDeclaration (declaration : VarDecl)
    (binding : HookWriteBinding) (setterSymbolToStateId : JsMap String) :
    JsMap String :=
  let sourceFilePath := declaration.filePath
  match declaration.nameNode with
  | .identB t sym =>
    match binding.stateId with
    | some sid =>
      if binding.kind = .setter then
        bindSetterIdentifier t sym sourceFilePath sid setterSymbolToStateId
      else setterSymbolToStateId
    | none => setterSymbolToStateId
  | .arrayB elements =>
    match binding.stateId with
    | some sid =>
      if binding.kind = .tuple then
        match elements[1]? with
        | some (some (BindingElem.mk _ (BindingName.identB t sym))) =>
          bindSetterIdentifier t sym sourceFilePath sid setterSymbolToStateId
        | _ => setterSymbolToStateId
      else setterSymbolToStateId
    | none => setterSymbolToStateId
  | .objectB elements =>
    match binding.objectSetterStateByProp with
    | some objMap =>
      if binding.kind = .object then
        elements.foldl (fun m elem =>
          let propertyName := elem.propertyName.getD elem.name.nameText
          match jget objMap propertyName with
          | none => m
          | some stateId =>
            (collectIdentifiersFromBindingName elem.name).foldl
              (fun acc localName =>
                bindSetterIdentifierByName localName sourceFilePath stateId acc
                  elem.name) m) setterSymbolToStateId
      else setterSymbolToStateId
    | none => setterSymbolToStateId

/-- `buildSetterBindings` (wrapper-aware): one cache and one in-flight key
set for the whole build; the in-flight set is empty at every top-level
call because each analysis removes on exit what it added on entry. -/
def buildSetterBindings (prog : Program) (index : SymbolIndex) : JsMap String :=
  (prog.files.foldl (fun acc sourceFile =>
    sourceFile.allVarDecls.foldl (fun acc2 declaration =>
      match declaration.initCall with
      | none => acc2
      | some initCall =>
        let r := resolveHookWriteBindingFromCallExpression prog index initCall
          acc2.2 []
        match r.1 with
        | none => (acc2.1, r.2)
        | some hookBinding =>
          (bindSetterIdentifiersFromDeclaration declaration hookBinding acc2.1,
           r.2)) acc) (([] : JsMap String), ([] : HookCache))).1

/-- `buildDirectSetterBindings` (core profile: no wrapper resolution). -/
def buildDirectSetterBindings (prog : Program) (index : SymbolIndex) :
    JsMap String :=
  prog.files.foldl (fun acc sourceFile =>
    sourceFile.allVarDecls.foldl (fun m declaration =>
      match declaration.initCall with
      | none => m
      | some initCall =>
        match resolveDirectHookWriteBinding initCall index with
        | none => m
        | some binding =>
          bindSetterIdentifiersFromDeclaration declaration binding m) acc) []

/-- `resolveStateIdFromIdentifier`; the identifier is its text, symbol and
source-file path. -/
def resolveStateIdFromIdentifier (text : String) (sym : Option SymRef)
    (filePath : String) (setterBindings : JsMap String) : Option String :=
  match getSymbolKey sym with
  | some symbolKey =>
    match jget setterBindings ("sym|" ++ symbolKey) with
    | some bySymbol => some bySymbol
    | none => jget setterBindings (getFallbackSetterKey filePath text)
  | none => jget setterBindings (getFallbackSetterKey filePath text)

/-- `buildJotaiStoreSymbolKeys` (extensions/store-api). -/
def buildJotaiStoreSymbolKeys (prog : Program) (index : SymbolIndex) : JsSet :=
  prog.files.foldl (fun keys sourceFile =>
    match jget index.importMapByFilePath sourceFile.filePath with
    | none => keys
    | some importMap =>
      sourceFile.allVarDecls.foldl (fun keys2 declaration =>
        match declaration.initCall with
        | none => keys2
        | some initCall =>
          match resolveCalledFactory initCall importMap with
          | some factory =>
            if factory.module = "jotai" ∧ factory.imported = "createStore" then
              match declaration.nameNode with
              | .identB t sym =>
                let keys3 :=
                  match getSymbolKey sym with
                  | some symbolKey => sadd keys2 ("sym|" ++ symbolKey)
                  | none => keys2
                sadd keys3 (getFallbackSetterKey sourceFile.filePath t)
              | _ => keys2
            else keys2
          | none => keys2) keys) []

def isKnownJotaiStoreIdentifier (text : String) (sym : Option SymRef)
    (filePath : String) (jotaiStoreSymbolKeys : JsSet) : Bool :=
  match getSymbolKey sym with
  | some symbolKey =>
    shas jotaiStoreSymbolKeys ("sym|" ++ symbolKey) ||
      shas jotaiStoreSymbolKeys (getFallbackSetterKey filePath text)
  | none => shas jotaiStoreSymbolKeys (getFallbackSetterKey filePath text)

def isJotaiStoreGetCall (callExpression : Expr) (jotaiStoreSymbolKeys : JsSet) :
    Bool :=
  match callExpression with
  | .callE (.propE (.identE text sym) name _) _ fp _ _ _ =>
    name = "get" && isKnownJotaiStoreIdentifier text sym fp jotaiStoreSymbolKeys
  | _ => false

def isJotaiStoreSetCall (callExpression : Expr) (jotaiStoreSymbolKeys : JsSet) :
    Bool :=
  match callExpression with
  | .callE (.propE (.identE text sym) name _) _ fp _ _ _ =>
    name = "set" && isKnownJotaiStoreIdentifier text sym fp jotaiStoreSymbolKeys
  | _ => false

/-! ## `src/core/events/extensions/forwarding/index.ts` -/

/-- The function-argument half of `propagateSetterBindingsOneHop`, for one
call expression.  Sources are resolved against `baseSetterBindings` only. -/
def propagateCallSite (prog : Program) (baseSetterBindings : JsMap String)
    (propagated : JsMap String) (callExpression : Expr) : JsMap String :=
  match callExpression with
  | .callE callee args _ _ _ _ =>
    let targetFunctions := resolveFunctionLikeNodesFromExpression prog callee
    if targetFunctions.length = 0 then propagated
    else
      (List.range args.length).foldl (fun acc i =>
        match args[i]? with
        | some (Expr.identE text sym) =>
          match resolveStateIdFromIdentifier text sym
              (callFilePath callExpression) baseSetterBindings with
          | none => acc
          | some stateId =>
            targetFunctions.foldl (fun acc2 targetFunction =>
              match targetFunction.params[i]? with
              | none => acc2
              | some (BindingName.identB t psym) =>
                bindSetterIdentifier t psym targetFunction.filePath stateId acc2
              | some _ => acc2) acc
        | _ => acc) propagated
  | _ => propagated

/-- The JSX-prop half of `propagateSetterBindingsOneHop`, for one JSX
attribute. -/
def propagateJsxSite (prog : Program) (baseSetterBindings : JsMap String)
    (propagated : JsMap String) (sourceFile : SourceFileModel)
    (jsxAttribute : JsxAttr) : JsMap String :=
  match jsxAttribute.valueExpr with
  | some (Expr.identE text sym) =>
    match resolveStateIdFromIdentifier text sym sourceFile.filePath
        baseSetterBindings with
    | none => propagated
    | some stateId =>
      match jsxAttribute.tagNode with
      | some (Expr.identE tagText tagSym) =>
        let targetFunctions :=
          resolveFunctionLikeNodesFromExpression prog (.identE tagText tagSym)
        if targetFunctions.length = 0 then propagated
        else
          let propName := jsxAttribute.name
          targetFunctions.foldl (fun acc targetFunction =>
            match targetFunction.params.head? with
            | none => acc
            | some (BindingName.objectB elements) =>
              elements.foldl (fun acc2 element =>
                let propertyName := element.propertyName.getD element.name.nameText
                if propertyName = propName then
                  (collectIdentifiersFromBindingName element.name).foldl
                    (fun p localName =>
                      bindSetterIdentifierByName localName
                        targetFunction.filePath stateId p element.name) acc2
                else acc2) acc
            | some (BindingName.identB propsText _) =>
              targetFunction.descendantVarDecls.foldl (fun acc2 declaration =>
                if isInFunctionOwnScope declaration.ownerFnKey targetFunction then
                  match declaration.nameNode with
                  | .objectB elements =>
                    match declaration.init with
                    | some (Expr.identE initText _) =>
                      if initText = propsText then
                        elements.foldl (fun acc3 element =>
                          let propertyName :=
                            element.propertyName.getD element.name.nameText
                          if propertyName = propName then
                            (collectIdentifiersFromBindingName element.name).foldl
                              (fun p localName =>
                                bindSetterIdentifierByName localName
                                  targetFunction.filePath stateId p element.name)
                              acc3
                          else acc3) acc2
                      else acc2
                    | _ => acc2
                  | _ => acc2
                else acc2) acc
            | some _ => acc) propagated
      | _ => propagated
  | _ => propagated

/-- `propagateSetterBindingsOneHop`: starts from a copy of the base map and
adds one forwarding hop; every source lookup goes through
`baseSetterBindings`, never through `propagated`. -/
def propagateSetterBindingsOneHop (prog : Program)
    (baseSetterBindings : JsMap String) : JsMap String :=
  prog.files.foldl (fun propagated sourceFile =>
    let afterCalls := sourceFile.calls.foldl
      (fun acc c => propagateCallSite prog baseSetterBindings acc c) propagated
    sourceFile.jsxAttrs.foldl
      (fun acc a => propagateJsxSite prog baseSetterBindings acc sourceFile a)
      afterCalls) baseSetterBindings

/-! ## `src/core/events/core/direct-hooks.ts` -/

def pushIfDefined {α : Type _} (items : List α) (item : Option α) : List α :=
  match item with
  | some i => items ++ [i]
  | none => items

def classifyRuntimeRead (callExpression : Expr) (importMap : ImportMap)
    (index : SymbolIndex) : Option UsageEvent :=
  match resolveCalledFactory callExpression importMap with
  | none => none
  | some factory =>
    if (factory.module = "recoil" ∧ factory.imported ∈ RECOIL_READ_FACTORIES) ∨
        (factory.module = "jotai" ∧ factory.imported ∈ JOTAI_READ_FACTORIES) then
      match resolveStateFromExpression (callArguments callExpression).head? index with
      | none => none
      | some targetState =>
        some (createRuntimeReadEvent (callFilePath callExpression)
          (callLine callExpression) (callColumn callExpression)
          (callAncestors callExpression) targetState.id
          (factory.module ++ ":" ++ factory.imported))
    else none

def classifySetterWriteCall (callExpression : Expr)
    (setterSymbolToStateId : JsMap String) : Option UsageEvent :=
  match callExpression with
  | .callE (Expr.identE text sym) _ fp ln col anc =>
    match resolveStateIdFromIdentifier text sym fp setterSymbolToStateId with
    | none => none
    | some targetStateId =>
      some (createWriteEvent fp ln col anc targetStateId "hook-setter-call"
        "initializeState:hook-setter-call")
  | _ => none

def extractSetterReferenceWriteEvents (sourceFile : SourceFileModel)
    (setterSymbolToStateId : JsMap String) : List UsageEvent :=
  sourceFile.identSites.foldl (fun events identifier =>
    if isSetterReferenceWriteSite identifier then
      match resolveStateIdFromIdentifier identifier.text identifier.sym
          identifier.filePath setterSymbolToStateId with
      | none => events
      | some targetStateId =>
        events ++ [createWriteEvent identifier.filePath identifier.line
          identifier.column identifier.ancestors targetStateId
          "hook-setter-reference" "initializeState:hook-setter-reference"]
    else events) []

def classifyDirectMutationWrite (callExpression : Expr)
    (jotaiStoreSymbolKeys : JsSet) (index : SymbolIndex) : Option UsageEvent :=
  match callExpression with
  | .callE callee _ fp ln col anc =>
    if isJotaiStoreSetCall callExpression jotaiStoreSymbolKeys then none
    else
      match resolveMutationKind callee with
      | none => none
      | some mutationKind =>
        match resolveStateFromExpression (callArguments callExpression).head? index with
        | none => none
        | some targetState =>
          let vias := getMutationVias mutationKind
          some (createWriteEvent fp ln col anc targetState.id vias.1 vias.2)
  | _ => none

/-! ## `src/core/events/extensions/store-api/index.ts` -/

def classifyJotaiStoreSetWrite (callExpression : Expr)
    (jotaiStoreSymbolKeys : JsSet) (index : SymbolIndex) : Option UsageEvent :=
  if isJotaiStoreSetCall callExpression jotaiStoreSymbolKeys then
    match resolveStateFromExpression (callArguments callExpression).head? index with
    | none => none
    | some targetState =>
      some (createWriteEvent (callFilePath callExpression)
        (callLine callExpression) (callColumn callExpression)
        (callAncestors callExpression) targetState.id "jotai:store.set"
        "initializeState:jotai:store.set")
  else none

/-! ## `src/core/events/core/dependencies.ts`

`pushDependencyRead` pushes one edge and one usage event built from the same
call site; we model its two pushes as a `DependencyRead` pair, which the
extractor projects into the two output arrays. -/

structure RecoilReadScope where
  scopeNode : FnNode
  getNames : List String
  contextNames : List String

structure DependencyRead where
  edge : DependencyEdge
  event : UsageEvent
deriving DecidableEq, Repr

def pushDependencyRead (ownerStateId ownerStateName targetStateId : String)
    (callExpression : Expr) (edgeVia eventVia : String) : DependencyRead := {
  edge := {
    fromStateId := ownerStateId
    toStateId := targetStateId
    filePath := callFilePath callExpression
    line := callLine callExpression
    column := callColumn callExpression
    via := edgeVia }
  event := {
    type := .read
    phase := .dependency
    stateId := targetStateId
    actorType := .state
    actorName := ownerStateName
    actorStateId := some ownerStateId
    filePath := callFilePath callExpression
    line := callLine callExpression
    column := callColumn callExpression
    via := eventVia } }

def extractRecoilGetBinding (functionNode : FnNode) :
    Option (List String × List String) :=
  match functionNode.params.head? with
  | none => none
  | some parameterNameNode =>
    let contextNames : List String :=
      match parameterNameNode with
      | .identB t _ => [t]
      | _ => []
    let getNames : List String :=
      match parameterNameNode with
      | .objectB elements =>
        elements.foldl (fun acc element =>
          let propertyName := element.propertyName.getD element.name.nameText
          if propertyName = "get" then
            acc ++ collectIdentifiersFromBindingName element.name
          else acc) []
      | _ => []
    if getNames.length = 0 ∧ contextNames.length = 0 then none
    else some (getNames, contextNames)

def getNestedFunctionNodes (prog : Program) (rootFunction : FnNode) : List FnNode :=
  rootFunction :: rootFunction.descendantFnKeys.flatMap
    (fun k => (lookupFn prog k).toList)

def getRecoilReadScopes (prog : Program) (callExpression : Expr) :
    List RecoilReadScope :=
  match (callArguments callExpression).head? with
  | some (Expr.objectE props) =>
    match props.find? (fun p => match p with
        | .assignP n _ => n = "get"
        | .methodP n _ => n = "get"
        | _ => false) with
    | none => []
    | some getProperty =>
      let rootFunctions : List FnNode :=
        match getProperty with
        | .methodP _ k => (lookupFn prog k).toList
        | .assignP _ init =>
          match init with
          | .arrowE k => (lookupFn prog k).toList
          | _ => []
        | _ => []
      rootFunctions.foldl (fun scopes rootFunction =>
        (getNestedFunctionNodes prog rootFunction).foldl (fun scopes2 functionNode =>
          match extractRecoilGetBinding functionNode with
          | none =>
            if getFunctionLikeNodeKey functionNode =
                getFunctionLikeNodeKey rootFunction then
              scopes2 ++ [⟨functionNode, [], []⟩]
            else scopes2
          | some binding =>
            scopes2 ++ [⟨functionNode, binding.1, binding.2⟩]) scopes) []
  | _ => []

/-- `isRecoilGetCall` (core/dependencies.ts): a bare identifier among the
destructured get-names, or `<contextName>.get`. -/
def isRecoilGetCall (callExpression : Expr) (getNames contextNames : List String) :
    Bool :=
  match callExpression with
  | .callE (Expr.identE text _) _ _ _ _ _ => getNames.contains text
  | .callE (Expr.propE base name _) _ _ _ _ _ =>
    if name ≠ "get" then false
    else
      match base with
      | .identE baseText _ => contextNames.contains baseText
      | _ => false
  | _ => false

def collectRecoilDependencyReads (ownerStateId ownerStateName : String)
    (readScopes : List RecoilReadScope) (jotaiStoreSymbolKeys : JsSet)
    (index : SymbolIndex) : List DependencyRead :=
  readScopes.foldl (fun acc readScope =>
    readScope.scopeNode.descendantCalls.foldl (fun acc2 callExpression =>
      match resolveStateFromExpression (callArguments callExpression).head? index with
      | none => acc2
      | some targetState =>
        if isRecoilGetCall callExpression readScope.getNames readScope.contextNames then
          acc2 ++ [pushDependencyRead ownerStateId ownerStateName targetState.id
            callExpression "recoil:get" "recoil:get"]
        else if isJotaiStoreGetCall callExpression jotaiStoreSymbolKeys then
          acc2 ++ [pushDependencyRead ownerStateId ownerStateName targetState.id
            callExpression "jotai:get" "jotai:store.get"]
        else acc2) acc) []

def getJotaiReadFunction (prog : Program) (callExpression : Expr) : Option FnNode :=
  match (callArguments callExpression).head? with
  | some (Expr.arrowE k) => lookupFn prog k
  | _ => none

def getJotaiGetParameterName (functionNode : FnNode) : String :=
  if functionNode.isDeclOrMethod then "get"
  else
    match functionNode.params.head? with
    | some (BindingName.identB t _) => t
    | _ => "get"

def isJotaiGetCall (callExpression : Expr) (getParamName : String) : Bool :=
  match callExpression with
  | .callE (Expr.identE text _) _ _ _ _ _ => text = getParamName
  | _ => false

def collectJotaiDependencyReads (ownerStateId ownerStateName : String)
    (readFunction : FnNode) (index : SymbolIndex) : List DependencyRead :=
  let getParamName := getJotaiGetParameterName readFunction
  readFunction.descendantCalls.foldl (fun acc getCall =>
    if isJotaiGetCall getCall getParamName then
      match resolveStateFromExpression (callArguments getCall).head? index with
      | none => acc
      | some targetState =>
        acc ++ [pushDependencyRead ownerStateId ownerStateName targetState.id
          getCall "jotai:get" "jotai:get"]
    else acc) []

def isRecoilSelectorFactoryCall (callExpression : Expr) (index : SymbolIndex) :
    Bool :=
  match jget index.importMapByFilePath (callFilePath callExpression) with
  | none => false
  | some importMap =>
    match resolveCalledFactory callExpression importMap with
    | none => false
    | some factory =>
      factory.module = "recoil" &&
        (factory.imported = "selector" || factory.imported = "selectorFamily")

def getRecoilAtomDefaultSelectorCall (atomCallExpression : Expr)
    (index : SymbolIndex) : Option Expr :=
  match (callArguments atomCallExpression).head? with
  | some (Expr.objectE props) =>
    match props.find? (fun p => match p with
        | .assignP n _ => n = "default"
        | _ => false) with
    | some (ObjProp.assignP _ initializer) =>
      if (match initializer with
          | .callE _ _ _ _ _ _ => true
          | _ => false) && isRecoilSelectorFactoryCall initializer index then
        some initializer
      else
        match resolveStateFromExpression (some initializer) index with
        | some referencedState =>
          if referencedState.store = .recoil ∧
              (referencedState.kind = .selector ∨
               referencedState.kind = .selectorFamily) then
            jget index.initCallByStateId referencedState.id
          else none
        | none => none
    | _ => none
  | _ => none

def resolveFunctionNodesFromExpression (prog : Program)
    (expression : Option Expr) : List FnNode :=
  match expression with
  | none => []
  | some e =>
    match e with
    | .arrowE k => (lookupFn prog k).toList
    | _ => resolveFunctionLikeNodesFromExpression prog e

def getReturnedCallExpressions (functionNode : FnNode) : List Expr :=
  match functionNode.body with
  | .exprBody e =>
    if functionNode.isDeclOrMethod then []
    else
      match e with
      | .callE callee args fp ln col anc => [.callE callee args fp ln col anc]
      | _ => []
  | .noBody => []
  | .block =>
    functionNode.descendantReturns.filterMap (fun r =>
      if isInFunctionOwnScope r.ownerFnKey functionNode then
        match r.expr with
        | some e =>
          match e with
          | .callE callee args fp ln col anc =>
            some (.callE callee args fp ln col anc)
          | _ => none
        | none => none
      else none)

def isJotaiDerivedFactoryCall (callExpression : Expr) (index : SymbolIndex) :
    Bool :=
  match jget index.importMapByFilePath (callFilePath callExpression) with
  | none => false
  | some importMap =>
    match resolveCalledFactory callExpression importMap with
    | none => false
    | some factory =>
      (factory.module = "jotai" && factory.imported = "atom") ||
        (factory.module = "jotai/utils" && factory.imported = "atomWithDefault")

def getJotaiAtomFamilyReadFunctions (prog : Program) (atomFamilyCall : Expr)
    (index : SymbolIndex) : List FnNode :=
  let familyFactoryFunctions :=
    resolveFunctionNodesFromExpression prog (callArguments atomFamilyCall).head?
  if familyFactoryFunctions.length = 0 then []
  else
    familyFactoryFunctions.foldl (fun acc familyFactoryFunction =>
      (getReturnedCallExpressions familyFactoryFunction).foldl
        (fun acc2 returnedCallExpression =>
          if isJotaiDerivedFactoryCall returnedCallExpression index then
            match getJotaiReadFunction prog returnedCallExpression with
            | some readFunction => acc2 ++ [readFunction]
            | none => acc2
          else acc2) acc) []

/-- Owner shape 1 of `buildDependencyEvents`: a recoil selector or selector
family reads inside its `get`. -/
def dependencyHitsSelectorBlock (prog : Program) (index : SymbolIndex)
    (jotaiStoreSymbolKeys : JsSet) (acc : List DependencyRead)
    (ownerState : StateSymbol) : List DependencyRead :=
  if ownerState.store = .recoil ∧
      (ownerState.kind = .selector ∨ ownerState.kind = .selectorFamily) then
    match jget index.initCallByStateId ownerState.id with
    | none => acc
    | some initCall =>
      acc ++ collectRecoilDependencyReads ownerState.id ownerState.name
        (getRecoilReadScopes prog initCall) jotaiStoreSymbolKeys index
  else acc

/-- Owner shape 2: a recoil atom (family) whose `default` is a selector. -/
def dependencyHitsAtomDefaultBlock (prog : Program) (index : SymbolIndex)
    (jotaiStoreSymbolKeys : JsSet) (acc : List DependencyRead)
    (ownerState : StateSymbol) : List DependencyRead :=
  if ownerState.store = .recoil ∧
      (ownerState.kind = .atomFamily ∨
       (ownerState.kind = .atom ∧ ¬ ownerState.isRecoilPlainAtom)) then
    match jget index.initCallByStateId ownerState.id with
    | none => acc
    | some initCall =>
      match getRecoilAtomDefaultSelectorCall initCall index with
      | none => acc
      | some defaultSelectorCall =>
        acc ++ collectRecoilDependencyReads ownerState.id ownerState.name
          (getRecoilReadScopes prog defaultSelectorCall)
          jotaiStoreSymbolKeys index
  else acc

/-- Owner shape 3: a jotai derived atom's read function. -/
def dependencyHitsJotaiDerivedBlock (prog : Program) (index : SymbolIndex)
    (acc : List DependencyRead) (ownerState : StateSymbol) :
    List DependencyRead :=
  if ownerState.store = .jotai ∧
      (ownerState.kind = .derivedAtom ∨ ownerState.kind = .atomWithDefault) then
    match jget index.initCallByStateId ownerState.id with
    | none => acc
    | some initCall =>
      match getJotaiReadFunction prog initCall with
      | none => acc
      | some readFunction =>
        acc ++ collectJotaiDependencyReads ownerState.id ownerState.name
          readFunction index
  else acc

/-- Owner shape 4: a jotai atom family whose factory returns derived atoms. -/
def dependencyHitsJotaiFamilyBlock (prog : Program) (index : SymbolIndex)
    (acc : List DependencyRead) (ownerState : StateSymbol) :
    List DependencyRead :=
  if ownerState.store = .jotai ∧ ownerState.kind = .atomFamily then
    match jget index.initCallByStateId ownerState.id with
    | none => acc
    | some initCall =>
      (getJotaiAtomFamilyReadFunctions prog initCall index).foldl
        (fun a readFunction =>
          a ++ collectJotaiDependencyReads ownerState.id ownerState.name
            readFunction index) acc
  else acc

/-- The owner loop of `buildDependencyEvents`: the four owner-shape blocks
in source order.  The shapes are mutually exclusive on (store, kind), so the
source's `continue` statements never skip a matching later block. -/
def buildDependencyHits (prog : Program) (index : SymbolIndex)
    (jotaiStoreSymbolKeys : JsSet) : List DependencyRead :=
  index.states.foldl (fun acc0 ownerState =>
    let acc1 := dependencyHitsSelectorBlock prog index jotaiStoreSymbolKeys
      acc0 ownerState
    let acc2 := dependencyHitsAtomDefaultBlock prog index jotaiStoreSymbolKeys
      acc1 ownerState
    let acc3 := dependencyHitsJotaiDerivedBlock prog index acc2 ownerState
    dependencyHitsJotaiFamilyBlock prog index acc3 ownerState) []

def buildDependencyEvents (prog : Program) (index : SymbolIndex)
    (jotaiStoreSymbolKeys : JsSet) : List UsageEvent × List DependencyEdge :=
  let hits := buildDependencyHits prog index jotaiStoreSymbolKeys
  (hits.map (·.event), hits.map (·.edge))

/-! ## `src/core/events/extensions/callbacks/index.ts` -/

structure RecoilCallbackBindings where
  contextNames : List String
  snapshotNames : List String
  getNames : List String
  setNames : List String
  resetNames : List String

structure JotaiAtomCallbackBindings where
  getName : String
  setName : String
deriving DecidableEq, Repr

def resolveFnFromDeclarations (prog : Program) : List SymDecl → Option FnNode
  | [] => none
  | d :: rest =>
    match d.kind with
    | .funcDecl k => lookupFn prog k
    | .varDecl (some k) => lookupFn prog k
    | _ => resolveFnFromDeclarations prog rest

def resolveFunctionFromNode (prog : Program) (node : Option Expr) : Option FnNode :=
  match node with
  | none => none
  | some n =>
    match n with
    | .arrowE k => lookupFn prog k
    | .identE _ sym =>
      match sym with
      | none => none
      | some symbol => resolveFnFromDeclarations prog symbol.declarations
    | _ => none

def resolveCallbackFactoryFunction (prog : Program) (callbackArgument : Option Expr)
    (importMap : ImportMap) : Option FnNode :=
  match callbackArgument with
  | none => none
  | some arg =>
    match resolveFunctionFromNode prog (some arg) with
    | some directFunction => some directFunction
    | none =>
      match arg with
      | .callE _ _ _ _ _ _ =>
        match resolveCalledFactory arg importMap with
        | some callbackFactory =>
          if callbackFactory.module = "react" ∧
              callbackFactory.imported = "useCallback" then
            resolveFunctionFromNode prog (callArguments arg).head?
          else none
        | none => none
      | _ => none

def parseRecoilCallbackBindings (callbackFactory : FnNode) :
    RecoilCallbackBindings :=
  match callbackFactory.params.head? with
  | none => ⟨[], [], [], [], []⟩
  | some parameterNameNode =>
    match parameterNameNode with
    | .identB t _ => ⟨[t], [], [], [], []⟩
    | .objectB elements =>
      elements.foldl (fun b element =>
        let propertyName := element.propertyName.getD element.name.nameText
        if propertyName = "set" then
          { b with setNames := b.setNames ++ collectIdentifiersFromBindingName element.name }
        else if propertyName = "reset" then
          { b with resetNames := b.resetNames ++ collectIdentifiersFromBindingName element.name }
        else if propertyName = "snapshot" then
          match element.name with
          | .identB t _ => { b with snapshotNames := b.snapshotNames ++ [t] }
          | .objectB snapshotElements =>
            { b with getNames := b.getNames ++ snapshotElements.foldl (fun acc se =>
                let snapshotPropertyName := se.propertyName.getD se.name.nameText
                if RECOIL_SNAPSHOT_READ_METHODS.contains snapshotPropertyName then
                  acc ++ collectIdentifiersFromBindingName se.name
                else acc) [] }
          | _ => b
        else b) ⟨[], [], [], [], []⟩
    | _ => ⟨[], [], [], [], []⟩

def getParameterNameOrDefault (parameter : Option BindingName)
    (fallbackName : String) : String :=
  match parameter with
  | some (BindingName.identB t _) => t
  | _ => fallbackName

def parseJotaiAtomCallbackBindings (callbackFactory : FnNode) :
    JotaiAtomCallbackBindings := {
  getName := getParameterNameOrDefault callbackFactory.params[0]? "get"
  setName := getParameterNameOrDefault callbackFactory.params[1]? "set" }

def isRecoilSnapshotBase (baseExpression : Expr)
    (bindings : RecoilCallbackBindings) : Bool :=
  match baseExpression with
  | .identE t _ => bindings.snapshotNames.contains t
  | .propE objectExpression propertyName _ =>
    propertyName = "snapshot" &&
      (match objectExpression with
       | .identE objText _ => bindings.contextNames.contains objText
       | _ => false)
  | _ => false

def classifyRecoilCallbackRead (callExpression : Expr)
    (bindings : RecoilCallbackBindings) (index : SymbolIndex) :
    Option UsageEvent :=
  match resolveStateFromExpression (callArguments callExpression).head? index with
  | none => none
  | some targetState =>
    let via? : Option String :=
      match callExpression with
      | .callE (Expr.identE t _) _ _ _ _ _ =>
        if bindings.getNames.contains t then some ("recoil:snapshot." ++ t)
        else none
      | .callE (Expr.propE base methodName _) _ _ _ _ _ =>
        if RECOIL_SNAPSHOT_READ_METHODS.contains methodName ∧
            isRecoilSnapshotBase base bindings then
          some ("recoil:snapshot." ++ methodName)
        else none
      | _ => none
    match via? with
    | none => none
    | some via_ =>
      some (createRuntimeReadEvent (callFilePath callExpression)
        (callLine callExpression) (callColumn callExpression)
        (callAncestors callExpression) targetState.id via_)

def resolveRecoilCallbackMutationKind (callee : Expr)
    (bindings : RecoilCallbackBindings) : Option MutationKind :=
  match callee with
  | .identE calleeName _ =>
    if bindings.setNames.contains calleeName then some .set
    else if bindings.resetNames.contains calleeName then some .reset
    else none
  | .propE base methodName _ =>
    if methodName ≠ "set" ∧ methodName ≠ "reset" then none
    else
      match base with
      | .identE baseText _ =>
        if bindings.contextNames.contains baseText then
          if methodName = "set" then some .set else some .reset
        else none
      | _ => none
  | _ => none

def classifyRecoilCallbackWrite (callExpression : Expr)
    (bindings : RecoilCallbackBindings) (index : SymbolIndex) :
    Option UsageEvent :=
  match resolveStateFromExpression (callArguments callExpression).head? index with
  | none => none
  | some targetState =>
    match callExpression with
    | .callE callee _ fp ln col anc =>
      match resolveRecoilCallbackMutationKind callee bindings with
      | none => none
      | some mutationKind =>
        let vias := getMutationVias mutationKind
        some (createWriteEvent fp ln col anc targetState.id vias.1 vias.2)
    | _ => none

def classifyJotaiAtomCallbackRead (callExpression : Expr)
    (bindings : JotaiAtomCallbackBindings) (index : SymbolIndex) :
    Option UsageEvent :=
  match callExpression with
  | .callE (Expr.identE t _) _ fp ln col anc =>
    if t = bindings.getName then
      match resolveStateFromExpression (callArguments callExpression).head? index with
      | none => none
      | some targetState =>
        some (createRuntimeReadEvent fp ln col anc targetState.id
          "jotai:useAtomCallback:get")
    else none
  | _ => none

def classifyJotaiAtomCallbackWrite (callExpression : Expr)
    (bindings : JotaiAtomCallbackBindings) (index : SymbolIndex) :
    Option UsageEvent :=
  match callExpression with
  | .callE (Expr.identE t _) _ fp ln col anc =>
    if t = bindings.setName then
      match resolveStateFromExpression (callArguments callExpression).head? index with
      | none => none
      | some targetState =>
        some (createWriteEvent fp ln col anc targetState.id "set-call"
          "initializeState:set")
    else none
  | _ => none

def extractCallbackEvents {TBindings : Type} (prog : Program)
    (sourceFile : SourceFileModel) (importMap : ImportMap)
    (hookModule hookImported : String) (parseBindings : FnNode → TBindings)
    (classifyRead classifyWrite : Expr → TBindings → SymbolIndex → Option UsageEvent)
    (index : SymbolIndex) : List UsageEvent :=
  sourceFile.calls.foldl (fun events callExpression =>
    match resolveCalledFactory callExpression importMap with
    | none => events
    | some factory =>
      if factory.module = hookModule ∧ factory.imported = hookImported then
        match resolveCallbackFactoryFunction prog
            (callArguments callExpression).head? importMap with
        | none => events
        | some callbackFactory =>
          let bindings := parseBindings callbackFactory
          callbackFactory.descendantCalls.foldl (fun evs innerCall =>
            let evs2 := pushIfDefined evs (classifyRead innerCall bindings index)
            pushIfDefined evs2 (classifyWrite innerCall bindings index)) events
      else events) []

def extractRecoilCallbackEvents (prog : Program) (sourceFile : SourceFileModel)
    (importMap : ImportMap) (index : SymbolIndex) : List UsageEvent :=
  extractCallbackEvents prog sourceFile importMap "recoil" "useRecoilCallback"
    parseRecoilCallbackBindings classifyRecoilCallbackRead
    classifyRecoilCallbackWrite index

def extractJotaiAtomCallbackEvents (prog : Program) (sourceFile : SourceFileModel)
    (importMap : ImportMap) (index : SymbolIndex) : List UsageEvent :=
  extractCallbackEvents prog sourceFile importMap "jotai/utils" "useAtomCallback"
    parseJotaiAtomCallbackBindings classifyJotaiAtomCallbackRead
    classifyJotaiAtomCallbackWrite index

/-! ## `src/core/events/pipeline.ts` -/

structure CapabilityFlags where
  callbacks : Bool
  wrappers : Bool
  forwarding : Bool
  storeApi : Bool
deriving DecidableEq, Repr

structure EventPipelineContext where
  prog : Program
  index : SymbolIndex
  setterBindings : JsMap String
  jotaiStoreSymbolKeys : JsSet

def runCoreDirectHooksExtractor (ctx : EventPipelineContext) : List UsageEvent :=
  ctx.prog.files.foldl (fun usageEvents sourceFile =>
    let importMap := jget ctx.index.importMapByFilePath sourceFile.filePath
    let afterCalls := sourceFile.calls.foldl (fun evs callExpression =>
      let evs1 :=
        match importMap with
        | some im => pushIfDefined evs (classifyRuntimeRead callExpression im ctx.index)
        | none => evs
      let evs2 := pushIfDefined evs1
        (classifySetterWriteCall callExpression ctx.setterBindings)
      pushIfDefined evs2
        (classifyDirectMutationWrite callExpression ctx.jotaiStoreSymbolKeys
          ctx.index)) usageEvents
    afterCalls ++ extractSetterReferenceWriteEvents sourceFile ctx.setterBindings) []

def runCallbacksExtractor (ctx : EventPipelineContext) : List UsageEvent :=
  ctx.prog.files.foldl (fun usageEvents sourceFile =>
    match jget ctx.index.importMapByFilePath sourceFile.filePath with
    | none => usageEvents
    | some importMap =>
      usageEvents ++
        extractRecoilCallbackEvents ctx.prog sourceFile importMap ctx.index ++
        extractJotaiAtomCallbackEvents ctx.prog sourceFile importMap ctx.index) []

def runStoreApiExtractor (ctx : EventPipelineContext) : List UsageEvent :=
  ctx.prog.files.foldl (fun usageEvents sourceFile =>
    sourceFile.calls.foldl (fun evs callExpression =>
      pushIfDefined evs (classifyJotaiStoreSetWrite callExpression
        ctx.jotaiStoreSymbolKeys ctx.index)) usageEvents) []

/-- Phase 3 of the pipeline: the raw concatenated extractor outputs, in the
extractor order `[core:direct-hooks, core:dependencies]`, then `ext:callbacks`
and `ext:store-api` when their capabilities are on.  Only the dependencies
extractor contributes edges. -/
def rawExtractorOutput (ctx : EventPipelineContext) (capabilities : CapabilityFlags) :
    List UsageEvent × List DependencyEdge :=
  let dep := buildDependencyEvents ctx.prog ctx.index ctx.jotaiStoreSymbolKeys
  (runCoreDirectHooksExtractor ctx ++ dep.1 ++
     (if capabilities.callbacks then runCallbacksExtractor ctx else []) ++
     (if capabilities.storeApi then runStoreApiExtractor ctx else []),
   dep.2)

/-- Phases 3–4 of the pipeline: run the extractors, then dedupe and sort. -/
def runEventExtractors (ctx : EventPipelineContext)
    (capabilities : CapabilityFlags) : List UsageEvent × List DependencyEdge :=
  let raw := rawExtractorOutput ctx capabilities
  (dedupeUsageEvents raw.1, dedupeDependencyEdges raw.2)

/-- `buildUsageEvents` (pipeline.ts), with the capability flags already
resolved by the caller (the source defaults every flag to true when the
config carries none). -/
def buildUsageEvents (prog : Program) (index : SymbolIndex)
    (capabilities : CapabilityFlags) : List UsageEvent × List DependencyEdge :=
  let jotaiStoreSymbolKeys :=
    if capabilities.storeApi then buildJotaiStoreSymbolKeys prog index
    else ([] : JsSet)
  let directSetterBindings :=
    if capabilities.wrappers then buildSetterBindings prog index
    else buildDirectSetterBindings prog index
  let setterBindings :=
    if capabilities.forwarding then
      propagateSetterBindingsOneHop prog directSetterBindings
    else directSetterBindings
  runEventExtractors
    { prog := prog, index := index, setterBindings := setterBindings,
      jotaiStoreSymbolKeys := jotaiStoreSymbolKeys } capabilities

/-! ## `src/core/profiles.ts` -/

inductive AnalyzerProfile where
  | core
  | pressRelease
deriving DecidableEq, Repr

def FLAGS : AnalyzerProfile → CapabilityFlags
  | .core =>
    { callbacks := false, wrappers := false, forwarding := false, storeApi := false }
  | .pressRelease =>
    { callbacks := true, wrappers := true, forwarding := true, storeApi := true }

/-- `resolveProfile`; a missing or empty `input` is falsy in the source and
defaults to the `press-release` profile, any other unknown name throws. -/
def resolveProfile (input : Option String) : Except String AnalyzerProfile :=
  match input with
  | none => .ok .pressRelease
  | some s =>
    if s = "" ∨ s = "press-release" then .ok .pressRelease
    else if s = "core" then .ok .core
    else .error ("Unsupported profile: " ++ s)

def getCapabilityFlags (profile : AnalyzerProfile) : CapabilityFlags :=
  FLAGS profile

/-! ## `src/core/rules/r004-stale-readonly-recoil-atom.ts` -/

structure ViolationMetrics where
  runtimeReads : Nat
  runtimeWrites : Nat
  initWrites : Nat
deriving DecidableEq, Repr

structure Violation where
  rule : String
  state : String
  file : String
  line : Nat
  message : String
  metrics : Option ViolationMetrics := none
deriving DecidableEq, Repr

structure RuleContext where
  states : List StateSymbol
  usageEvents : List UsageEvent

/-- The per-state counting loop of `evaluateR004`. -/
def r004Counts (usageEvents : List UsageEvent) (stateId : String) :
    Nat × Nat × Nat :=
  usageEvents.foldl (fun c event =>
    if event.stateId ≠ stateId then c
    else
      let c1 := if event.type = .read ∧ event.phase = .runtime then
          (c.1 + 1, c.2.1, c.2.2) else c
      let c2 := if event.type = .runtimeWrite then
          (c1.1, c1.2.1 + 1, c1.2.2) else c1
      if event.type = .initWrite then (c2.1, c2.2.1, c2.2.2 + 1) else c2)
    (0, 0, 0)

def evaluateR004 (context : RuleContext) : List Violation :=
  context.states.foldl (fun violations state =>
    if state.store = .recoil ∧ state.kind = .atom ∧ state.isRecoilPlainAtom then
      let counts := r004Counts context.usageEvents state.id
      if counts.1 > 0 ∧ counts.2.1 = 0 then
        violations ++ [{
          rule := "R004"
          state := state.name
          file := state.filePath
          line := state.line
          message := "Recoil atom is read at runtime but has no runtime writes"
          metrics := some ⟨counts.1, counts.2.1, counts.2.2⟩ }]
      else violations
    else violations) []

/-! ## Properties of the dedupe-and-sort pass -/

theorem mem_of_mem_firstOccurrences {α : Type _} {key : α → String}
    {l : List α} {seen : List String} {x : α}
    (h : x ∈ firstOccurrences key l seen) : x ∈ l := by
  induction l generalizing seen with
  | nil => simp [firstOccurrences] at h
  | cons e rest ih =>
    rw [firstOccurrences] at h
    by_cases hs : key e ∈ seen
    · rw [if_pos hs] at h
      exact List.mem_cons_of_mem _ (ih h)
    · rw [if_neg hs] at h
      rcases List.mem_cons.1 h with rfl | h2
      · exact List.mem_cons_self _ _
      · exact List.mem_cons_of_mem _ (ih h2)

theorem exists_key_firstOccurrences {α : Type _} {key : α → String}
    {l : List α} {seen : List String} {x : α} (hx : x ∈ l)
    (hseen : key x ∉ seen) :
    ∃ y ∈ firstOccurrences key l seen, key y = key x := by
  induction l generalizing seen with
  | nil => cases hx
  | cons e rest ih =>
    rw [firstOccurrences]
    rcases List.mem_cons.1 hx with rfl | h2
    · rw [if_neg hseen]
      exact ⟨x, List.mem_cons_self _ _, rfl⟩
    · by_cases hs : key e ∈ seen
      · rw [if_pos hs]
        exact ih h2 hseen
      · by_cases hke : key x = key e
        · rw [if_neg hs]
          exact ⟨e, List.mem_cons_self _ _, hke.symm⟩
        · rw [if_neg hs]
          have hnot : key x ∉ (key e :: seen) := by
            intro hc
            rcases List.mem_cons.1 hc with h' | h'
            · exact hke h'
            · exact hseen h'
          rcases ih h2 hnot with ⟨y, hy, hk⟩
          exact ⟨y, List.mem_cons_of_mem _ hy, hk⟩

theorem key_notin_seen_firstOccurrences {α : Type _} {key : α → String}
    {l : List α} {seen : List String} :
    ∀ y ∈ firstOccurrences key l seen, key y ∉ seen := by
  induction l generalizing seen with
  | nil => intro y hy; simp [firstOccurrences] at hy
  | cons e rest ih =>
    intro y hy
    rw [firstOccurrences] at hy
    by_cases hs : key e ∈ seen
    · rw [if_pos hs] at hy
      exact ih y hy
    · rw [if_neg hs] at hy
      rcases List.mem_cons.1 hy with rfl | h2
      · exact hs
      · intro hc
        exact ih y h2 (List.mem_cons_of_mem _ hc)

theorem pairwise_key_firstOccurrences {α : Type _} (key : α → String)
    (l : List α) (seen : List String) :
    (firstOccurrences key l seen).Pairwise (fun a b => key a ≠ key b) := by
  induction l generalizing seen with
  | nil => simp [firstOccurrences]
  | cons e rest ih =>
    rw [firstOccurrences]
    by_cases hs : key e ∈ seen
    · rw [if_pos hs]
      exact ih seen
    · rw [if_neg hs]
      refine List.pairwise_cons.2 ⟨?_, ih _⟩
      intro b hb hc
      exact key_notin_seen_firstOccurrences b hb
        (hc ▸ List.mem_cons_self _ _)

theorem mem_dedupeUsageEvents {x : UsageEvent} {events : List UsageEvent} :
    x ∈ dedupeUsageEvents events ↔
      x ∈ firstOccurrences usageEventKey events [] :=
  (stableSortByCmp_perm _ _).mem_iff

theorem dedupeUsageEvents_sub {x : UsageEvent} {events : List UsageEvent}
    (h : x ∈ dedupeUsageEvents events) : x ∈ events :=
  mem_of_mem_firstOccurrences (mem_dedupeUsageEvents.1 h)

theorem dedupeUsageEvents_covers {x : UsageEvent} {events : List UsageEvent}
    (hx : x ∈ events) :
    ∃ y ∈ dedupeUsageEvents events, usageEventKey y = usageEventKey x := by
  rcases exists_key_firstOccurrences hx (List.not_mem_nil _) with ⟨y, hy, hk⟩
  exact ⟨y, mem_dedupeUsageEvents.2 hy, hk⟩

theorem pairwise_key_dedupeUsageEvents (events : List UsageEvent) :
    (dedupeUsageEvents events).Pairwise
      (fun a b => usageEventKey a ≠ usageEventKey b) := by
  have hsym : ∀ x y : UsageEvent, usageEventKey x ≠ usageEventKey y →
      usageEventKey y ≠ usageEventKey x := fun x y h hc => h hc.symm
  exact ((stableSortByCmp_perm compareUsageEvents _).pairwise_iff
    (fun hxy => hsym _ _ hxy)).2
    (pairwise_key_firstOccurrences usageEventKey events [])

theorem mem_dedupeDependencyEdges {x : DependencyEdge}
    {edges : List DependencyEdge} :
    x ∈ dedupeDependencyEdges edges ↔
      x ∈ firstOccurrences dependencyEdgeKey edges [] :=
  (stableSortByCmp_perm _ _).mem_iff

theorem dedupeDependencyEdges_sub {x : DependencyEdge}
    {edges : List DependencyEdge} (h : x ∈ dedupeDependencyEdges edges) :
    x ∈ edges :=
  mem_of_mem_firstOccurrences (mem_dedupeDependencyEdges.1 h)

theorem dedupeDependencyEdges_covers {x : DependencyEdge}
    {edges : List DependencyEdge} (hx : x ∈ edges) :
    ∃ y ∈ dedupeDependencyEdges edges,
      dependencyEdgeKey y = dependencyEdgeKey x := by
  rcases exists_key_firstOccurrences hx (List.not_mem_nil _) with ⟨y, hy, hk⟩
  exact ⟨y, mem_dedupeDependencyEdges.2 hy, hk⟩

theorem pairwise_key_dedupeDependencyEdges (edges : List DependencyEdge) :
    (dedupeDependencyEdges edges).Pairwise
      (fun a b => dependencyEdgeKey a ≠ dependencyEdgeKey b) := by
  have hsym : ∀ x y : DependencyEdge, dependencyEdgeKey x ≠ dependencyEdgeKey y →
      dependencyEdgeKey y ≠ dependencyEdgeKey x := fun x y h hc => h hc.symm
  exact ((stableSortByCmp_perm compareDependencyEdges _).pairwise_iff
    (fun hxy => hsym _ _ hxy)).2
    (pairwise_key_firstOccurrences dependencyEdgeKey edges [])

theorem then_of_ne {o x : Ordering} (h : o ≠ .eq) : o.then x = o := by
  rcases o with _ | _ | _ <;> simp_all [Ordering.then]

theorem compareUsageEvents_then (l r : UsageEvent) :
    compareUsageEvents l r =
      (strCmp l.filePath r.filePath).then ((natCmp l.line r.line).then
        ((natCmp l.column r.column).then
          ((strCmp l.type.toStr r.type.toStr).then
            (strCmp l.stateId r.stateId)))) := by
  unfold compareUsageEvents
  by_cases h1 : l.filePath = r.filePath
  · rw [if_neg (not_not_intro h1), (strCmp_eq_iff _ _).2 h1]
    show _ = Ordering.then .eq _
    rw [show ∀ x : Ordering, Ordering.then .eq x = x from fun x => rfl]
    by_cases h2 : l.line = r.line
    · rw [if_neg (not_not_intro h2), (natCmp_eq_iff _ _).2 h2]
      rw [show ∀ x : Ordering, Ordering.then .eq x = x from fun x => rfl]
      by_cases h3 : l.column = r.column
      · rw [if_neg (not_not_intro h3), (natCmp_eq_iff _ _).2 h3]
        rw [show ∀ x : Ordering, Ordering.then .eq x = x from fun x => rfl]
        by_cases h4 : l.type.toStr = r.type.toStr
        · rw [if_neg (not_not_intro h4), (strCmp_eq_iff _ _).2 h4]
          rw [show ∀ x : Ordering, Ordering.then .eq x = x from fun x => rfl]
        · rw [if_pos h4,
            then_of_ne (fun hc => h4 ((strCmp_eq_iff _ _).1 hc))]
      · rw [if_pos h3, then_of_ne (fun hc => h3 ((natCmp_eq_iff _ _).1 hc))]
    · rw [if_pos h2, then_of_ne (fun hc => h2 ((natCmp_eq_iff _ _).1 hc))]
  · rw [if_pos h1, then_of_ne (fun hc => h1 ((strCmp_eq_iff _ _).1 hc))]

theorem compareDependencyEdges_then (l r : DependencyEdge) :
    compareDependencyEdges l r =
      (strCmp l.filePath r.filePath).then ((natCmp l.line r.line).then
        ((natCmp l.column r.column).then
          ((strCmp l.fromStateId r.fromStateId).then
            (strCmp l.toStateId r.toStateId)))) := by
  unfold compareDependencyEdges
  by_cases h1 : l.filePath = r.filePath
  · rw [if_neg (not_not_intro h1), (strCmp_eq_iff _ _).2 h1]
    rw [show ∀ x : Ordering, Ordering.then .eq x = x from fun x => rfl]
    by_cases h2 : l.line = r.line
    · rw [if_neg (not_not_intro h2), (natCmp_eq_iff _ _).2 h2]
      rw [show ∀ x : Ordering, Ordering.then .eq x = x from fun x => rfl]
      by_cases h3 : l.column = r.column
      · rw [if_neg (not_not_intro h3), (natCmp_eq_iff _ _).2 h3]
        rw [show ∀ x : Ordering, Ordering.then .eq x = x from fun x => rfl]
        by_cases h4 : l.fromStateId = r.fromStateId
        · rw [if_neg (not_not_intro h4), (strCmp_eq_iff _ _).2 h4]
          rw [show ∀ x : Ordering, Ordering.then .eq x = x from fun x => rfl]
        · rw [if_pos h4,
            then_of_ne (fun hc => h4 ((strCmp_eq_iff _ _).1 hc))]
      · rw [if_pos h3, then_of_ne (fun hc => h3 ((natCmp_eq_iff _ _).1 hc))]
    · rw [if_pos h2, then_of_ne (fun hc => h2 ((natCmp_eq_iff _ _).1 hc))]
  · rw [if_pos h1, then_of_ne (fun hc => h1 ((strCmp_eq_iff _ _).1 hc))]

theorem compareUsageEventsLaws : CmpLaws compareUsageEvents := by
  have h : compareUsageEvents = fun l r : UsageEvent =>
      (strCmp l.filePath r.filePath).then ((natCmp l.line r.line).then
        ((natCmp l.column r.column).then
          ((strCmp l.type.toStr r.type.toStr).then
            (strCmp l.stateId r.stateId)))) :=
    funext fun l => funext fun r => compareUsageEvents_then l r
  rw [h]
  exact (strCmpLaws.comap (fun e : UsageEvent => e.filePath)).lex
    ((natCmpLaws.comap (fun e : UsageEvent => e.line)).lex
      ((natCmpLaws.comap (fun e : UsageEvent => e.column)).lex
        ((strCmpLaws.comap (fun e : UsageEvent => e.type.toStr)).lex
          (strCmpLaws.comap (fun e : UsageEvent => e.stateId)))))

theorem compareDependencyEdgesLaws : CmpLaws compareDependencyEdges := by
  have h : compareDependencyEdges = fun l r : DependencyEdge =>
      (strCmp l.filePath r.filePath).then ((natCmp l.line r.line).then
        ((natCmp l.column r.column).then
          ((strCmp l.fromStateId r.fromStateId).then
            (strCmp l.toStateId r.toStateId)))) :=
    funext fun l => funext fun r => compareDependencyEdges_then l r
  rw [h]
  exact (strCmpLaws.comap (fun e : DependencyEdge => e.filePath)).lex
    ((natCmpLaws.comap (fun e : DependencyEdge => e.line)).lex
      ((natCmpLaws.comap (fun e : DependencyEdge => e.column)).lex
        ((strCmpLaws.comap (fun e : DependencyEdge => e.fromStateId)).lex
          (strCmpLaws.comap (fun e : DependencyEdge => e.toStateId)))))

theorem sorted_dedupeUsageEvents (events : List UsageEvent) :
    (dedupeUsageEvents events).Pairwise
      (fun a b => compareUsageEvents a b ≠ .gt) :=
  pairwise_stableSortByCmp compareUsageEventsLaws _

theorem sorted_dedupeDependencyEdges (edges : List DependencyEdge) :
    (dedupeDependencyEdges edges).Pairwise
      (fun a b => compareDependencyEdges a b ≠ .gt) :=
  pairwise_stableSortByCmp compareDependencyEdgesLaws _

/-! ## Every emitted stateId comes from the symbol index -/

/-- A state id that belongs to the index (claim C7's notion of "produced by
the index"). -/
def stateIdInIndex (index : SymbolIndex) (sid : String) : Prop :=
  ∃ st ∈ index.states, st.id = sid

/-- The only index map the state resolver consults is
`stateByDeclarationKey`; a good index keeps its values among `states`. -/
def GoodIndex (index : SymbolIndex) : Prop :=
  ∀ k st, jget index.stateByDeclarationKey k = some st → st ∈ index.states

theorem jsetValues_jset {β : Type _} (m : JsMap β) (k : String) (v : β) :
    jsetValues (jset m k v) = jsetValues m ++ [v] := by
  simp [jsetValues, jset]

theorem jsetValues_foldl {α β : Type _} (l : List α) (key : α → String)
    (val : α → β) (m0 : JsMap β) :
    jsetValues (l.foldl (fun m i => jset m (key i) (val i)) m0) =
      jsetValues m0 ++ l.map val := by
  induction l generalizing m0 with
  | nil => simp
  | cons a l ih =>
    rw [List.foldl_cons, ih, jsetValues_jset]
    simp

/-- The second pass of `buildSymbolIndex`, named for the proofs. -/
def updatedInternals (sourceFiles : List SourceFileModel) : List StateInternal :=
  let scan := buildSymbolIndexScan sourceFiles
  let temporaryIndex := indexOfInternals scan.2.1 scan.2.2 scan.1
  scan.2.1.map (fun internal =>
    if internal.state.store = .recoil ∧ internal.state.kind = .atom then
      { internal with state :=
          { internal.state with
              isRecoilPlainAtom := !hasSelectorDefault internal.initCall temporaryIndex } }
    else internal)

theorem buildSymbolIndex_stateByDeclarationKey (sourceFiles : List SourceFileModel) :
    (buildSymbolIndex sourceFiles).stateByDeclarationKey =
      (updatedInternals sourceFiles).foldl
        (fun m i => jset m i.declaration.declKey i.state) [] := rfl

theorem buildSymbolIndex_states (sourceFiles : List SourceFileModel) :
    (buildSymbolIndex sourceFiles).states =
      stableSortByCmp stateSortCmp
        ((updatedInternals sourceFiles).map (·.state)) := rfl

theorem buildSymbolIndex_goodIndex (sourceFiles : List SourceFileModel) :
    GoodIndex (buildSymbolIndex sourceFiles) := by
  intro k st h
  rw [buildSymbolIndex_stateByDeclarationKey] at h
  have hv := jget_mem_values h
  rw [jsetValues_foldl (updatedInternals sourceFiles)
    (fun i => i.declaration.declKey) (fun i => i.state) []] at hv
  simp only [jsetValues, List.map_nil, List.nil_append] at hv
  rw [buildSymbolIndex_states]
  exact (stableSortByCmp_perm stateSortCmp _).mem_iff.2 hv

theorem resolveStateFromDeclarations_sub {decls : List SymDecl}
    {m : JsMap StateSymbol} {st : StateSymbol}
    (h : resolveStateFromDeclarations decls m = some st) :
    ∃ k, jget m k = some st := by
  induction decls with
  | nil => simp [resolveStateFromDeclarations] at h
  | cons d rest ih =>
    rw [resolveStateFromDeclarations] at h
    split at h
    · split at h
      · rename_i m1 hm
        injection h with h2
        subst h2
        exact ⟨_, hm⟩
      · exact ih h
    · split at h
      · rename_i f s hav
        split at h
        · rename_i m1 hm
          injection h with h2
          subst h2
          exact ⟨_, hm⟩
        · exact ih h
      · exact ih h

theorem resolveStateFromExpression_good {index : SymbolIndex}
    {node : Option Expr} {st : StateSymbol} (hg : GoodIndex index)
    (h : resolveStateFromExpression node index = some st) :
    st ∈ index.states := by
  unfold resolveStateFromExpression at h
  split at h
  · exact absurd h (by simp)
  · split at h
    · exact absurd h (by simp)
    · rcases resolveStateFromDeclarations_sub h with ⟨k, hk⟩
      exact hg k st hk

theorem resolveStateFromExpression_goodId {index : SymbolIndex}
    {node : Option Expr} {st : StateSymbol} (hg : GoodIndex index)
    (h : resolveStateFromExpression node index = some st) :
    stateIdInIndex index st.id :=
  ⟨st, resolveStateFromExpression_good hg h, rfl⟩

/-- A hook-write binding whose state ids all come from the index. -/
def GoodBinding (index : SymbolIndex) (b : HookWriteBinding) : Prop :=
  (∀ sid, b.stateId = some sid → stateIdInIndex index sid) ∧
  (∀ m, b.objectSetterStateByProp = some m →
    ∀ sid ∈ jsetValues m, stateIdInIndex index sid)

def GoodCacheP (index : SymbolIndex) (cache : HookCache) : Prop :=
  ∀ k b, jget cache k = some (some b) → GoodBinding index b

def GoodBindingMap (index : SymbolIndex) (lvb : JsMap HookWriteBinding) : Prop :=
  ∀ b ∈ jsetValues lvb, GoodBinding index b

def GoodIdMap (index : SymbolIndex) (m : JsMap String) : Prop :=
  ∀ sid ∈ jsetValues m, stateIdInIndex index sid

theorem goodIdMap_nil {index : SymbolIndex} : GoodIdMap index [] := by
  intro sid h
  simp [jsetValues] at h

theorem goodBindingMap_nil {index : SymbolIndex} : GoodBindingMap index [] := by
  intro b h
  simp [jsetValues] at h

theorem goodCacheP_nil {index : SymbolIndex} : GoodCacheP index [] := by
  intro k b h
  simp [jget] at h

theorem goodIdMap_jset {index : SymbolIndex} {m : JsMap String} {k : String}
    {sid : String} (hm : GoodIdMap index m) (hs : stateIdInIndex index sid) :
    GoodIdMap index (jset m k sid) := by
  intro x hx
  rw [jsetValues_jset] at hx
  rcases List.mem_append.1 hx with h | h
  · exact hm x h
  · rw [List.mem_singleton.1 h]
    exact hs

theorem goodBindingMap_jset {index : SymbolIndex} {m : JsMap HookWriteBinding}
    {k : String} {b : HookWriteBinding} (hm : GoodBindingMap index m)
    (hb : GoodBinding index b) : GoodBindingMap index (jset m k b) := by
  intro x hx
  rw [jsetValues_jset] at hx
  rcases List.mem_append.1 hx with h | h
  · exact hm x h
  · rw [List.mem_singleton.1 h]
    exact hb

theorem goodCacheP_jset {index : SymbolIndex} {cache : HookCache} {k : String}
    {v : Option HookWriteBinding} (hc : GoodCacheP index cache)
    (hv : ∀ b, v = some b → GoodBinding index b) :
    GoodCacheP index (jset cache k v) := by
  intro k' b h
  rw [jget_jset] at h
  split at h
  · injection h with h2
    exact hv b h2
  · exact hc k' b h

theorem goodIdMap_jget {index : SymbolIndex} {m : JsMap String} {k sid : String}
    (hm : GoodIdMap index m) (h : jget m k = some sid) :
    stateIdInIndex index sid :=
  hm sid (jget_mem_values h)

theorem goodBindingMap_jget {index : SymbolIndex} {m : JsMap HookWriteBinding}
    {k : String} {b : HookWriteBinding} (hm : GoodBindingMap index m)
    (h : jget m k = some b) : GoodBinding index b :=
  hm b (jget_mem_values h)

theorem foldl_preserves {α σ : Type _} {P : σ → Prop} {f : σ → α → σ}
    (h : ∀ s a, P s → P (f s a)) :
    ∀ (l : List α) (s : σ), P s → P (l.foldl f s) := by
  intro l
  induction l with
  | nil => intro s hs; exact hs
  | cons a l ih => intro s hs; exact ih (f s a) (h s a hs)

theorem resolveDirectHookWriteBinding_good {index : SymbolIndex}
    {callExpression : Expr} {b : HookWriteBinding} (hgi : GoodIndex index)
    (h : resolveDirectHookWriteBinding callExpression index = some b) :
    GoodBinding index b := by
  unfold resolveDirectHookWriteBinding at h
  split at h
  · exact absurd h (by simp)
  · split at h
    · exact absurd h (by simp)
    · split at h
      · split at h
        · exact absurd h (by simp)
        · rename_i targetState hst
          injection h with h2
          subst h2
          refine ⟨?_, ?_⟩
          · intro sid hsid
            injection hsid with h3
            subst h3
            exact resolveStateFromExpression_goodId hgi hst
          · intro m hm
            exact absurd hm (by simp)
      · split at h
        · split at h
          · exact absurd h (by simp)
          · rename_i targetState hst
            injection h with h2
            subst h2
            refine ⟨?_, ?_⟩
            · intro sid hsid
              injection hsid with h3
              subst h3
              exact resolveStateFromExpression_goodId hgi hst
            · intro m hm
              exact absurd hm (by simp)
        · split at h
          · split at h
            · exact absurd h (by simp)
            · rename_i targetState hst
              injection h with h2
              subst h2
              refine ⟨?_, ?_⟩
              · intro sid hsid
                injection hsid with h3
                subst h3
                exact resolveStateFromExpression_goodId hgi hst
              · intro m hm
                exact absurd hm (by simp)
          · split at h
            · split at h
              · exact absurd h (by simp)
              · rename_i targetState hst
                injection h with h2
                subst h2
                refine ⟨?_, ?_⟩
                · intro sid hsid
                  injection hsid with h3
                  subst h3
                  exact resolveStateFromExpression_goodId hgi hst
                · intro m hm
                  exact absurd hm (by simp)
            · exact absurd h (by simp)

theorem buildObjectSetterStateByProp_good {index : SymbolIndex}
    {props : List ObjProp} {lsn : JsMap String} (hl : GoodIdMap index lsn) :
    GoodIdMap index (buildObjectSetterStateByProp props lsn) := by
  unfold buildObjectSetterStateByProp
  refine foldl_preserves ?_ props [] goodIdMap_nil
  intro m property hm
  rcases property with pn | ⟨pn, initializer⟩ | _ | _
  · simp only
    rcases hj : jget lsn pn with _ | sid
    · exact hm
    · exact goodIdMap_jset hm (goodIdMap_jget hl hj)
  · simp only
    rcases initializer with ⟨t, sym⟩ | _ | _ | _ | _ | _ <;> try exact hm
    rcases hj : jget lsn t with _ | sid
    · simp only [hj]
      exact hm
    · simp only [hj]
      exact goodIdMap_jset hm (goodIdMap_jget hl hj)
  · exact hm
  · exact hm

theorem registerLocalHookBindingFromDeclaration_good {index : SymbolIndex}
    {declaration : VarDecl} {b : HookWriteBinding}
    {lvb : JsMap HookWriteBinding} {lsn : JsMap String}
    (hb : GoodBinding index b) (hlv : GoodBindingMap index lvb)
    (hls : GoodIdMap index lsn) :
    GoodBindingMap index
        (registerLocalHookBindingFromDeclaration declaration b lvb lsn).1 ∧
      GoodIdMap index
        (registerLocalHookBindingFromDeclaration declaration b lvb lsn).2 := by
  unfold registerLocalHookBindingFromDeclaration
  rcases declaration.nameNode with ⟨t, sym⟩ | elements | elements
  · refine ⟨goodBindingMap_jset hlv hb, ?_⟩
    rcases hsid : b.stateId with _ | sid
    · exact hls
    · simp only
      split
      · exact goodIdMap_jset hls (hb.1 sid hsid)
      · exact hls
  · rcases hsid : b.stateId with _ | sid
    · exact ⟨hlv, hls⟩
    · simp only
      split
      · split
        · exact ⟨hlv, goodIdMap_jset hls (hb.1 sid hsid)⟩
        · exact ⟨hlv, hls⟩
      · exact ⟨hlv, hls⟩
  · rcases hobj : b.objectSetterStateByProp with _ | objMap
    · exact ⟨hlv, hls⟩
    · simp only
      split
      · refine ⟨hlv, ?_⟩
        refine foldl_preserves ?_ elements lsn hls
        intro ls elem hls2
        rcases hj : jget objMap (elem.propertyName.getD elem.name.nameText)
          with _ | stateId
        · exact hls2
        · refine foldl_preserves ?_ _ ls hls2
          intro ls2 localName hls3
          exact goodIdMap_jset hls3 (hb.2 objMap hobj stateId (jget_mem_values hj))
      · exact ⟨hlv, hls⟩

/-- Through the whole wrapper resolution, every binding and cache entry
keeps its state ids inside the index. -/
def HookGoodAt (n : Nat) : Prop :=
  ∀ (prog : Program) (index : SymbolIndex) (rk : JsSet),
    GoodIndex index → remainingKeys prog rk ≤ n →
    (∀ (c : Expr) (cache : HookCache), GoodCacheP index cache →
      (∀ b, (resolveHookWriteBindingFromCallExpression prog index c cache rk).1 =
          some b → GoodBinding index b) ∧
      GoodCacheP index
        (resolveHookWriteBindingFromCallExpression prog index c cache rk).2) ∧
    (∀ (fnKeys : List String) (cache : HookCache), GoodCacheP index cache →
      (∀ b, (resolveHookFnLoop prog index fnKeys cache rk).1 = some b →
        GoodBinding index b) ∧
      GoodCacheP index (resolveHookFnLoop prog index fnKeys cache rk).2) ∧
    (∀ (functionNode : FnNode) (cache : HookCache), GoodCacheP index cache →
      (∀ b, (analyzeHookWrapperFunction prog index functionNode cache rk).1 =
          some b → GoodBinding index b) ∧
      GoodCacheP index
        (analyzeHookWrapperFunction prog index functionNode cache rk).2) ∧
    (∀ (functionNode : FnNode) (ds : List VarDecl)
        (lvb : JsMap HookWriteBinding) (lsn : JsMap String) (cache : HookCache),
      GoodCacheP index cache → GoodBindingMap index lvb → GoodIdMap index lsn →
      GoodBindingMap index
          (analyzeHookDeclsLoop prog index functionNode ds lvb lsn cache rk).1 ∧
        GoodIdMap index
          (analyzeHookDeclsLoop prog index functionNode ds lvb lsn cache rk).2.1 ∧
        GoodCacheP index
          (analyzeHookDeclsLoop prog index functionNode ds lvb lsn cache rk).2.2) ∧
    (∀ (es : List Expr) (lvb : JsMap HookWriteBinding) (lsn : JsMap String)
        (cache : HookCache),
      GoodCacheP index cache → GoodBindingMap index lvb → GoodIdMap index lsn →
      (∀ b, (resolveHookReturnsLoop prog index es lvb lsn cache rk).1 = some b →
        GoodBinding index b) ∧
      GoodCacheP index (resolveHookReturnsLoop prog index es lvb lsn cache rk).2) ∧
    (∀ (re : Expr) (lvb : JsMap HookWriteBinding) (lsn : JsMap String)
        (cache : HookCache),
      GoodCacheP index cache → GoodBindingMap index lvb → GoodIdMap index lsn →
      (∀ b, (resolveHookWriteBindingFromReturnExpression prog index re lvb lsn
          cache rk).1 = some b → GoodBinding index b) ∧
      GoodCacheP index (resolveHookWriteBindingFromReturnExpression prog index
        re lvb lsn cache rk).2)

theorem hookGoodAt : ∀ n : Nat, HookGoodAt n := by
  intro n
  induction n using Nat.strong_induction_on with
  | _ n IH =>
    intro prog index rk hgi hk
    have hFnLoop : ∀ (fnKeys : List String) (cache : HookCache),
        GoodCacheP index cache →
        (∀ b, (resolveHookFnLoop prog index fnKeys cache rk).1 = some b →
          GoodBinding index b) ∧
        GoodCacheP index (resolveHookFnLoop prog index fnKeys cache rk).2 := by
      intro fnKeys
      induction fnKeys with
      | nil =>
        intro cache hcache
        rw [resolveHookFnLoop_nil]
        exact ⟨fun b hb => absurd hb (by simp), hcache⟩
      | cons k rest ih =>
        intro cache hcache
        rcases hfn : lookupFn prog k with _ | functionNode
        · rw [resolveHookFnLoop_cons_noFn hfn]
          exact ih cache hcache
        · rcases hc : jget cache (getFunctionLikeNodeKey functionNode)
            with _ | cached
          · rcases hres : shas rk (getFunctionLikeNodeKey functionNode) with _ | _
            · have hmem : getFunctionLikeNodeKey functionNode ∈ tableKeys prog :=
                List.mem_map_of_mem _ (List.mem_of_find?_eq_some hfn)
              have hlt : remainingKeys prog
                  (sadd rk (getFunctionLikeNodeKey functionNode)) <
                  remainingKeys prog rk :=
                remainingKeys_sadd_lt hmem hres
              rw [resolveHookFnLoop_cons_analyze hfn hc hres]
              have hana := (IH (remainingKeys prog
                  (sadd rk (getFunctionLikeNodeKey functionNode))) (by omega)
                prog index (sadd rk (getFunctionLikeNodeKey functionNode)) hgi
                (le_refl _)).2.2.1 functionNode cache hcache
              have hcache₂ : GoodCacheP index
                  (jset (analyzeHookWrapperFunction prog index functionNode cache
                      (sadd rk (getFunctionLikeNodeKey functionNode))).2
                    (getFunctionLikeNodeKey functionNode)
                    (analyzeHookWrapperFunction prog index functionNode cache
                      (sadd rk (getFunctionLikeNodeKey functionNode))).1) :=
                goodCacheP_jset hana.2 (fun b hb => hana.1 b hb)
              rcases hr : (analyzeHookWrapperFunction prog index functionNode
                  cache (sadd rk (getFunctionLikeNodeKey functionNode))).1
                with _ | b
              · have hcache₂' : GoodCacheP index
                    (jset (analyzeHookWrapperFunction prog index functionNode
                        cache (sadd rk (getFunctionLikeNodeKey functionNode))).2
                      (getFunctionLikeNodeKey functionNode) none) := by
                  rw [hr] at hcache₂
                  exact hcache₂
                simp only [hr]
                exact ih _ hcache₂'
              · simp only [hr]
                refine ⟨?_, ?_⟩
                · intro b' hb'
                  injection hb' with e
                  subst e
                  exact hana.1 _ hr
                · rw [hr] at hcache₂
                  exact hcache₂
            · rw [resolveHookFnLoop_cons_inflight hfn hc hres]
              exact ih cache hcache
          · rcases cached with _ | b
            · rw [resolveHookFnLoop_cons_cachedNone hfn hc]
              exact ih cache hcache
            · rw [resolveHookFnLoop_cons_cachedSome hfn hc]
              exact ⟨fun b' hb' => by
                injection hb' with e
                subst e
                exact hcache _ _ hc, hcache⟩
    have hCall : ∀ (c : Expr) (cache : HookCache), GoodCacheP index cache →
        (∀ b, (resolveHookWriteBindingFromCallExpression prog index c cache rk).1 =
          some b → GoodBinding index b) ∧
        GoodCacheP index
          (resolveHookWriteBindingFromCallExpression prog index c cache rk).2 := by
      intro c cache hcache
      rcases hd : resolveDirectHookWriteBinding c index with _ | d
      · rw [resolveHookCall_wrapper hd]
        exact hFnLoop _ cache hcache
      · rw [resolveHookCall_direct hd]
        refine ⟨?_, hcache⟩
        intro b hb
        injection hb with e
        subst e
        exact resolveDirectHookWriteBinding_good hgi hd
    have hRet : ∀ (re : Expr) (lvb : JsMap HookWriteBinding)
        (lsn : JsMap String) (cache : HookCache),
        GoodCacheP index cache → GoodBindingMap index lvb → GoodIdMap index lsn →
        (∀ b, (resolveHookWriteBindingFromReturnExpression prog index re lvb lsn
            cache rk).1 = some b → GoodBinding index b) ∧
        GoodCacheP index (resolveHookWriteBindingFromReturnExpression prog index
          re lvb lsn cache rk).2 := by
      intro re lvb lsn cache hcache hlv hls
      rcases re with ⟨t, sym⟩ | ⟨base, pn, psym⟩ | ⟨callee, args, fp, ln, col, anc⟩ |
        props | fk | _
      · refine ⟨?_, hcache⟩
        intro b hb
        exact goodBindingMap_jget hlv hb
      · exact ⟨fun b hb => Option.noConfusion hb, hcache⟩
      · exact hCall _ cache hcache
      · by_cases hlen : (buildObjectSetterStateByProp props lsn).length = 0
        · have hre : resolveHookWriteBindingFromReturnExpression prog index
              (.objectE props) lvb lsn cache rk = (none, cache) := by
            simp only [resolveHookWriteBindingFromReturnExpression]
            rw [if_pos hlen]
          rw [hre]
          exact ⟨fun b hb => Option.noConfusion hb, hcache⟩
        · have hre : resolveHookWriteBindingFromReturnExpression prog index
              (.objectE props) lvb lsn cache rk =
              (some ⟨.object, none,
                some (buildObjectSetterStateByProp props lsn)⟩, cache) := by
            simp only [resolveHookWriteBindingFromReturnExpression]
            rw [if_neg hlen]
          rw [hre]
          refine ⟨?_, hcache⟩
          intro b hb
          injection hb with e
          subst e
          refine ⟨?_, ?_⟩
          · intro sid hsid
            exact Option.noConfusion hsid
          · intro m hm
            injection hm with e2
            subst e2
            exact buildObjectSetterStateByProp_good hls
      · exact ⟨fun b hb => Option.noConfusion hb, hcache⟩
      · exact ⟨fun b hb => Option.noConfusion hb, hcache⟩
    have hDecls : ∀ (functionNode : FnNode) (ds : List VarDecl)
        (lvb : JsMap HookWriteBinding) (lsn : JsMap String) (cache : HookCache),
        GoodCacheP index cache → GoodBindingMap index lvb → GoodIdMap index lsn →
        GoodBindingMap index
            (analyzeHookDeclsLoop prog index functionNode ds lvb lsn cache rk).1 ∧
          GoodIdMap index
            (analyzeHookDeclsLoop prog index functionNode ds lvb lsn cache rk).2.1 ∧
          GoodCacheP index
            (analyzeHookDeclsLoop prog index functionNode ds lvb lsn cache rk).2.2 := by
      intro functionNode ds
      induction ds with
      | nil =>
        intro lvb lsn cache hcache hlv hls
        rw [analyzeHookDeclsLoop_nil]
        exact ⟨hlv, hls, hcache⟩
      | cons declaration rest ih =>
        intro lvb lsn cache hcache hlv hls
        rcases hsc : isInFunctionOwnScope declaration.ownerFnKey functionNode
          with _ | _
        · rw [analyzeHookDeclsLoop_cons_notOwn hsc]
          exact ih lvb lsn cache hcache hlv hls
        · rcases hic : declaration.initCall with _ | initializerCall
          · rw [analyzeHookDeclsLoop_cons_noInit hsc hic]
            exact ih lvb lsn cache hcache hlv hls
          · rw [analyzeHookDeclsLoop_cons_init hsc hic]
            have hr := hCall initializerCall cache hcache
            rcases hb : (resolveHookWriteBindingFromCallExpression prog index
                initializerCall cache rk).1 with _ | binding
            · simp only [hb]
              exact ih lvb lsn _ hr.2 hlv hls
            · simp only [hb]
              have hbind : GoodBinding index binding := hr.1 binding hb
              have hreg := @registerLocalHookBindingFromDeclaration_good
                index declaration binding lvb lsn hbind hlv hls
              exact ih _ _ _ hr.2 hreg.1 hreg.2
    have hReturns : ∀ (es : List Expr) (lvb : JsMap HookWriteBinding)
        (lsn : JsMap String) (cache : HookCache),
        GoodCacheP index cache → GoodBindingMap index lvb → GoodIdMap index lsn →
        (∀ b, (resolveHookReturnsLoop prog index es lvb lsn cache rk).1 = some b →
          GoodBinding index b) ∧
        GoodCacheP index
          (resolveHookReturnsLoop prog index es lvb lsn cache rk).2 := by
      intro es
      induction es with
      | nil =>
        intro lvb lsn cache hcache hlv hls
        rw [resolveHookReturnsLoop_nil]
        exact ⟨fun b hb => absurd hb (by simp), hcache⟩
      | cons returnExpression rest ih =>
        intro lvb lsn cache hcache hlv hls
        rw [resolveHookReturnsLoop_cons]
        have hr := hRet returnExpression lvb lsn cache hcache hlv hls
        rcases hb : (resolveHookWriteBindingFromReturnExpression prog index
            returnExpression lvb lsn cache rk).1 with _ | binding
        · simp only [hb]
          exact ih lvb lsn _ hr.2 hlv hls
        · simp only [hb]
          refine ⟨?_, hr.2⟩
          intro b hb'
          injection hb' with e
          subst e
          exact hr.1 _ hb
    have hAnalyze : ∀ (functionNode : FnNode) (cache : HookCache),
        GoodCacheP index cache →
        (∀ b, (analyzeHookWrapperFunction prog index functionNode cache rk).1 =
          some b → GoodBinding index b) ∧
        GoodCacheP index
          (analyzeHookWrapperFunction prog index functionNode cache rk).2 := by
      intro functionNode cache hcache
      rw [analyzeHookWrapperFunction_eq]
      have hd := hDecls functionNode functionNode.descendantVarDecls [] [] cache
        hcache goodBindingMap_nil goodIdMap_nil
      exact hReturns (getReturnExpressions functionNode) _ _ _ hd.2.2 hd.1 hd.2.1
    exact ⟨hCall, hFnLoop, hAnalyze, hDecls, hReturns, hRet⟩

theorem resolveStateIdFromIdentifier_good {index : SymbolIndex} {text : String}
    {sym : Option SymRef} {filePath : String} {m : JsMap String} {sid : String}
    (hm : GoodIdMap index m)
    (h : resolveStateIdFromIdentifier text sym filePath m = some sid) :
    stateIdInIndex index sid := by
  unfold resolveStateIdFromIdentifier at h
  split at h
  · split at h
    · rename_i bySymbol hj
      injection h with e
      subst e
      exact goodIdMap_jget hm hj
    · exact goodIdMap_jget hm h
  · exact goodIdMap_jget hm h

theorem bindSetterIdentifier_good {index : SymbolIndex} {text : String}
    {sym : Option SymRef} {filePath sid : String} {m : JsMap String}
    (hm : GoodIdMap index m) (hs : stateIdInIndex index sid) :
    GoodIdMap index (bindSetterIdentifier text sym filePath sid m) := by
  unfold bindSetterIdentifier
  rcases hgk : getSymbolKey sym with _ | symbolKey
  · exact goodIdMap_jset hm hs
  · exact goodIdMap_jset (goodIdMap_jset hm hs) hs

theorem bindSetterIdentifierByName_good {index : SymbolIndex}
    {localName filePath sid : String} {m : JsMap String}
    {fallbackNode : BindingName} (hm : GoodIdMap index m)
    (hs : stateIdInIndex index sid) :
    GoodIdMap index
      (bindSetterIdentifierByName localName filePath sid m fallbackNode) := by
  unfold bindSetterIdentifierByName
  have hm1 : GoodIdMap index (jset m (getFallbackSetterKey filePath localName) sid) :=
    goodIdMap_jset hm hs
  rcases fallbackNode with ⟨t, sym⟩ | _ | _
  · rcases sym with _ | symbol
    · exact hm1
    · refine foldl_preserves ?_ symbol.declarations _ hm1
      intro acc declaration hacc
      rcases declaration.kind with _ | _ | _ | ⟨nameText, nameSymKey⟩ | _
      · exact hacc
      · exact hacc
      · exact hacc
      · simp only
        split
        · rcases nameSymKey with _ | symbolKey
          · exact hacc
          · exact goodIdMap_jset hacc hs
        · exact hacc
      · exact hacc
  · exact hm1
  · exact hm1

theorem bindSetterIdentifiersFromDeclaration_good {index : SymbolIndex}
    {declaration : VarDecl} {b : HookWriteBinding} {m : JsMap String}
    (hb : GoodBinding index b) (hm : GoodIdMap index m) :
    GoodIdMap index (bindSetterIdentifiersFromDeclaration declaration b m) := by
  unfold bindSetterIdentifiersFromDeclaration
  rcases declaration.nameNode with ⟨t, sym⟩ | elements | elements
  · rcases hsid : b.stateId with _ | sid
    · exact hm
    · simp only
      split
      · exact bindSetterIdentifier_good hm (hb.1 sid hsid)
      · exact hm
  · rcases hsid : b.stateId with _ | sid
    · exact hm
    · simp only
      split
      · split
        · exact bindSetterIdentifier_good hm (hb.1 sid hsid)
        · exact hm
      · exact hm
  · rcases hobj : b.objectSetterStateByProp with _ | objMap
    · exact hm
    · simp only
      split
      · refine foldl_preserves ?_ elements m hm
        intro acc elem hacc
        rcases hj : jget objMap (elem.propertyName.getD elem.name.nameText)
          with _ | stateId
        · exact hacc
        · refine foldl_preserves ?_ _ acc hacc
          intro acc2 localName hacc2
          exact bindSetterIdentifierByName_good hacc2
            (hb.2 objMap hobj stateId (jget_mem_values hj))
      · exact hm

theorem buildSetterBindings_good (prog : Program) (index : SymbolIndex)
    (hgi : GoodIndex index) :
    GoodIdMap index (buildSetterBindings prog index) := by
  unfold buildSetterBindings
  refine (@foldl_preserves SourceFileModel (JsMap String × HookCache)
    (fun acc => GoodIdMap index acc.1 ∧ GoodCacheP index acc.2) _ ?_ prog.files
    ([], []) ⟨goodIdMap_nil, goodCacheP_nil⟩).1
  intro acc sourceFile hacc
  refine @foldl_preserves VarDecl (JsMap String × HookCache)
    (fun acc2 => GoodIdMap index acc2.1 ∧ GoodCacheP index acc2.2) _ ?_
    sourceFile.allVarDecls acc hacc
  intro acc2 declaration hacc2
  split
  · exact hacc2
  · rename_i initCall hic
    have hres := (hookGoodAt (remainingKeys prog []) prog index [] hgi
      (le_refl _)).1 initCall acc2.2 hacc2.2
    rcases hr : (resolveHookWriteBindingFromCallExpression prog index initCall
        acc2.2 []).1 with _ | hookBinding
    · simp only [hr]
      exact ⟨hacc2.1, hres.2⟩
    · simp only [hr]
      exact ⟨bindSetterIdentifiersFromDeclaration_good (hres.1 hookBinding hr)
        hacc2.1, hres.2⟩

theorem buildDirectSetterBindings_good (prog : Program) (index : SymbolIndex)
    (hgi : GoodIndex index) :
    GoodIdMap index (buildDirectSetterBindings prog index) := by
  unfold buildDirectSetterBindings
  refine foldl_preserves ?_ prog.files [] goodIdMap_nil
  intro acc sourceFile hacc
  refine foldl_preserves ?_ sourceFile.allVarDecls acc hacc
  intro m declaration hm
  split
  · exact hm
  · split
    · exact hm
    · rename_i binding hd
      exact bindSetterIdentifiersFromDeclaration_good
        (resolveDirectHookWriteBinding_good hgi hd) hm

theorem propagateCallSite_good {index : SymbolIndex} {prog : Program}
    {base propagated : JsMap String} {callExpression : Expr}
    (hbase : GoodIdMap index base) (hp : GoodIdMap index propagated) :
    GoodIdMap index (propagateCallSite prog base propagated callExpression) := by
  unfold propagateCallSite
  rcases callExpression with _ | _ | ⟨callee, args, fp, ln, col, anc⟩ | _ | _ | _
  · exact hp
  · exact hp
  · simp only
    split
    · exact hp
    · refine foldl_preserves ?_ _ propagated hp
      intro acc i hacc
      rcases ha : args[i]? with _ | arg
      · exact hacc
      · rcases arg with ⟨text, sym⟩ | _ | _ | _ | _ | _
        · simp only
          rcases hi : resolveStateIdFromIdentifier text sym
              (callFilePath (.callE callee args fp ln col anc)) base
            with _ | stateId
          · exact hacc
          · refine foldl_preserves ?_ _ acc hacc
            intro acc2 targetFunction hacc2
            rcases hpar : targetFunction.params[i]? with _ | par
            · exact hacc2
            · rcases par with ⟨t, psym⟩ | _ | _
              · exact bindSetterIdentifier_good hacc2
                  (resolveStateIdFromIdentifier_good hbase hi)
              · exact hacc2
              · exact hacc2
        · exact hacc
        · exact hacc
        · exact hacc
        · exact hacc
        · exact hacc
  · exact hp
  · exact hp
  · exact hp

theorem propagateJsxSite_good {index : SymbolIndex} {prog : Program}
    {base propagated : JsMap String} {sourceFile : SourceFileModel}
    {jsxAttribute : JsxAttr} (hbase : GoodIdMap index base)
    (hp : GoodIdMap index propagated) :
    GoodIdMap index
      (propagateJsxSite prog base propagated sourceFile jsxAttribute) := by
  unfold propagateJsxSite
  rcases hv : jsxAttribute.valueExpr with _ | ve
  · exact hp
  · rcases ve with ⟨text, sym⟩ | _ | _ | _ | _ | _
    · simp only
      rcases hi : resolveStateIdFromIdentifier text sym sourceFile.filePath base
        with _ | stateId
      · exact hp
      · have hsid : stateIdInIndex index stateId :=
          resolveStateIdFromIdentifier_good hbase hi
        rcases ht : jsxAttribute.tagNode with _ | tag
        · exact hp
        · rcases tag with ⟨tagText, tagSym⟩ | _ | _ | _ | _ | _
          · simp only
            split
            · exact hp
            · refine foldl_preserves ?_ _ propagated hp
              intro acc targetFunction hacc
              rcases hpar : targetFunction.params.head? with _ | par
              · exact hacc
              · rcases par with ⟨propsText, _⟩ | _ | elements
                · refine foldl_preserves ?_ _ acc hacc
                  intro acc2 declaration hacc2
                  split
                  · rcases hnn : declaration.nameNode with _ | _ | elements2
                    · exact hacc2
                    · exact hacc2
                    · rcases hin : declaration.init with _ | initE
                      · exact hacc2
                      · rcases initE with ⟨initText, _⟩ | _ | _ | _ | _ | _
                        · simp only
                          split
                          · refine foldl_preserves ?_ _ acc2 hacc2
                            intro acc3 element hacc3
                            split
                            · refine foldl_preserves ?_ _ acc3 hacc3
                              intro p localName hpm
                              exact bindSetterIdentifierByName_good hpm hsid
                            · exact hacc3
                          · exact hacc2
                        · exact hacc2
                        · exact hacc2
                        · exact hacc2
                        · exact hacc2
                        · exact hacc2
                  · exact hacc2
                · exact hacc
                · refine foldl_preserves ?_ _ acc hacc
                  intro acc2 element hacc2
                  split
                  · refine foldl_preserves ?_ _ acc2 hacc2
                    intro p localName hpm
                    exact bindSetterIdentifierByName_good hpm hsid
                  · exact hacc2
          · exact hp
          · exact hp
          · exact hp
          · exact hp
          · exact hp
    · exact hp
    · exact hp
    · exact hp
    · exact hp
    · exact hp

theorem propagateSetterBindingsOneHop_good {index : SymbolIndex} {prog : Program}
    {base : JsMap String} (hbase : GoodIdMap index base) :
    GoodIdMap index (propagateSetterBindingsOneHop prog base) := by
  unfold propagateSetterBindingsOneHop
  refine foldl_preserves ?_ prog.files base hbase
  intro propagated sourceFile hp
  refine foldl_preserves ?_ sourceFile.jsxAttrs _ ?_
  · intro acc a hacc
    exact propagateJsxSite_good hbase hacc
  · refine foldl_preserves ?_ sourceFile.calls propagated hp
    intro acc c hacc
    exact propagateCallSite_good hbase hacc

theorem createRuntimeReadEvent_stateId (fp : String) (ln col : Nat)
    (anc : List AncestorInfo) (sid via_ : String) :
    (createRuntimeReadEvent fp ln col anc sid via_).stateId = sid := rfl

theorem createWriteEvent_stateId (fp : String) (ln col : Nat)
    (anc : List AncestorInfo) (sid rv iv : String) :
    (createWriteEvent fp ln col anc sid rv iv).stateId = sid := rfl

/-- Every event of the list draws its state id from the index. -/
def GoodEvents (index : SymbolIndex) (events : List UsageEvent) : Prop :=
  ∀ ev ∈ events, stateIdInIndex index ev.stateId

theorem goodEvents_nil {index : SymbolIndex} : GoodEvents index [] :=
  fun _ h => absurd h (List.not_mem_nil _)

theorem goodEvents_append {index : SymbolIndex} {a b : List UsageEvent}
    (ha : GoodEvents index a) (hb : GoodEvents index b) :
    GoodEvents index (a ++ b) := by
  intro ev h
  rcases List.mem_append.1 h with h' | h'
  · exact ha ev h'
  · exact hb ev h'

theorem pushIfDefined_good {index : SymbolIndex} {evs : List UsageEvent}
    {item : Option UsageEvent} (he : GoodEvents index evs)
    (hi : ∀ ev, item = some ev → stateIdInIndex index ev.stateId) :
    GoodEvents index (pushIfDefined evs item) := by
  rcases item with _ | ev
  · exact he
  · exact goodEvents_append he (fun e h => by
      rw [List.mem_singleton.1 h]
      exact hi ev rfl)

theorem classifyRuntimeRead_good {index : SymbolIndex} {c : Expr}
    {im : ImportMap} {ev : UsageEvent} (hgi : GoodIndex index)
    (h : classifyRuntimeRead c im index = some ev) :
    stateIdInIndex index ev.stateId := by
  unfold classifyRuntimeRead at h
  split at h
  · exact Option.noConfusion h
  · split at h
    · split at h
      · exact Option.noConfusion h
      · rename_i targetState hst
        injection h with e
        subst e
        exact resolveStateFromExpression_goodId hgi hst
    · exact Option.noConfusion h

theorem classifySetterWriteCall_good {index : SymbolIndex} {c : Expr}
    {bindings : JsMap String} {ev : UsageEvent} (hb : GoodIdMap index bindings)
    (h : classifySetterWriteCall c bindings = some ev) :
    stateIdInIndex index ev.stateId := by
  unfold classifySetterWriteCall at h
  split at h
  · split at h
    · exact Option.noConfusion h
    · rename_i targetStateId hres
      injection h with e
      subst e
      exact resolveStateIdFromIdentifier_good hb hres
  · exact Option.noConfusion h

theorem classifyDirectMutationWrite_good {index : SymbolIndex} {c : Expr}
    {keys : JsSet} {ev : UsageEvent} (hgi : GoodIndex index)
    (h : classifyDirectMutationWrite c keys index = some ev) :
    stateIdInIndex index ev.stateId := by
  unfold classifyDirectMutationWrite at h
  split at h
  · split at h
    · exact Option.noConfusion h
    · split at h
      · exact Option.noConfusion h
      · split at h
        · exact Option.noConfusion h
        · rename_i targetState hst
          injection h with e
          subst e
          exact resolveStateFromExpression_goodId hgi hst
  · exact Option.noConfusion h

theorem classifyJotaiStoreSetWrite_good {index : SymbolIndex} {c : Expr}
    {keys : JsSet} {ev : UsageEvent} (hgi : GoodIndex index)
    (h : classifyJotaiStoreSetWrite c keys index = some ev) :
    stateIdInIndex index ev.stateId := by
  unfold classifyJotaiStoreSetWrite at h
  split at h
  · split at h
    · exact Option.noConfusion h
    · rename_i targetState hst
      injection h with e
      subst e
      exact resolveStateFromExpression_goodId hgi hst
  · exact Option.noConfusion h

theorem classifyRecoilCallbackRead_good {index : SymbolIndex} {c : Expr}
    {bindings : RecoilCallbackBindings} {ev : UsageEvent} (hgi : GoodIndex index)
    (h : classifyRecoilCallbackRead c bindings index = some ev) :
    stateIdInIndex index ev.stateId := by
  unfold classifyRecoilCallbackRead at h
  split at h
  · exact Option.noConfusion h
  · rename_i targetState hst
    split at h
    · split at h
      · injection h with e
        subst e
        exact resolveStateFromExpression_goodId hgi hst
      · exact Option.noConfusion h
    · split at h
      · injection h with e
        subst e
        exact resolveStateFromExpression_goodId hgi hst
      · exact Option.noConfusion h
    · exact Option.noConfusion h

theorem classifyRecoilCallbackWrite_good {index : SymbolIndex} {c : Expr}
    {bindings : RecoilCallbackBindings} {ev : UsageEvent} (hgi : GoodIndex index)
    (h : classifyRecoilCallbackWrite c bindings index = some ev) :
    stateIdInIndex index ev.stateId := by
  unfold classifyRecoilCallbackWrite at h
  split at h
  · exact Option.noConfusion h
  · rename_i targetState hst
    split at h
    · split at h
      · exact Option.noConfusion h
      · injection h with e
        subst e
        exact resolveStateFromExpression_goodId hgi hst
    · exact Option.noConfusion h

theorem classifyJotaiAtomCallbackRead_good {index : SymbolIndex} {c : Expr}
    {bindings : JotaiAtomCallbackBindings} {ev : UsageEvent}
    (hgi : GoodIndex index)
    (h : classifyJotaiAtomCallbackRead c bindings index = some ev) :
    stateIdInIndex index ev.stateId := by
  unfold classifyJotaiAtomCallbackRead at h
  split at h
  · split at h
    · split at h
      · exact Option.noConfusion h
      · rename_i targetState hst
        injection h with e
        subst e
        exact resolveStateFromExpression_goodId hgi hst
    · exact Option.noConfusion h
  · exact Option.noConfusion h

theorem classifyJotaiAtomCallbackWrite_good {index : SymbolIndex} {c : Expr}
    {bindings : JotaiAtomCallbackBindings} {ev : UsageEvent}
    (hgi : GoodIndex index)
    (h : classifyJotaiAtomCallbackWrite c bindings index = some ev) :
    stateIdInIndex index ev.stateId := by
  unfold classifyJotaiAtomCallbackWrite at h
  split at h
  · split at h
    · split at h
      · exact Option.noConfusion h
      · rename_i targetState hst
        injection h with e
        subst e
        exact resolveStateFromExpression_goodId hgi hst
    · exact Option.noConfusion h
  · exact Option.noConfusion h

theorem extractSetterReferenceWriteEvents_good {index : SymbolIndex}
    {sourceFile : SourceFileModel} {bindings : JsMap String}
    (hb : GoodIdMap index bindings) :
    GoodEvents index (extractSetterReferenceWriteEvents sourceFile bindings) := by
  unfold extractSetterReferenceWriteEvents
  refine foldl_preserves ?_ sourceFile.identSites [] goodEvents_nil
  intro evs identifier hevs
  split
  · split
    · exact hevs
    · rename_i targetStateId hres
      refine goodEvents_append hevs ?_
      intro e he
      rw [List.mem_singleton.1 he]
      exact resolveStateIdFromIdentifier_good hb hres
  · exact hevs

theorem runCoreDirectHooksExtractor_good (ctx : EventPipelineContext)
    (hgi : GoodIndex ctx.index) (hsb : GoodIdMap ctx.index ctx.setterBindings) :
    GoodEvents ctx.index (runCoreDirectHooksExtractor ctx) := by
  unfold runCoreDirectHooksExtractor
  refine foldl_preserves ?_ ctx.prog.files [] goodEvents_nil
  intro usageEvents sourceFile hue
  refine goodEvents_append ?_ (extractSetterReferenceWriteEvents_good hsb)
  refine foldl_preserves ?_ sourceFile.calls usageEvents hue
  intro evs callExpression hevs
  refine pushIfDefined_good (pushIfDefined_good ?_ ?_) ?_
  · split
    · exact pushIfDefined_good hevs (fun ev h => classifyRuntimeRead_good hgi h)
    · exact hevs
  · intro ev h
    exact classifySetterWriteCall_good hsb h
  · intro ev h
    exact classifyDirectMutationWrite_good hgi h

theorem runStoreApiExtractor_good (ctx : EventPipelineContext)
    (hgi : GoodIndex ctx.index) :
    GoodEvents ctx.index (runStoreApiExtractor ctx) := by
  unfold runStoreApiExtractor
  refine foldl_preserves ?_ ctx.prog.files [] goodEvents_nil
  intro usageEvents sourceFile hue
  refine foldl_preserves ?_ sourceFile.calls usageEvents hue
  intro evs callExpression hevs
  exact pushIfDefined_good hevs (fun ev h => classifyJotaiStoreSetWrite_good hgi h)

theorem extractCallbackEvents_good {TBindings : Type} {index : SymbolIndex}
    {prog : Program} {sourceFile : SourceFileModel} {importMap : ImportMap}
    {hookModule hookImported : String} {parseBindings : FnNode → TBindings}
    {classifyRead classifyWrite : Expr → TBindings → SymbolIndex → Option UsageEvent}
    (hr : ∀ c bindings ev, classifyRead c bindings index = some ev →
      stateIdInIndex index ev.stateId)
    (hw : ∀ c bindings ev, classifyWrite c bindings index = some ev →
      stateIdInIndex index ev.stateId) :
    GoodEvents index (extractCallbackEvents prog sourceFile importMap
      hookModule hookImported parseBindings classifyRead classifyWrite index) := by
  unfold extractCallbackEvents
  refine foldl_preserves ?_ sourceFile.calls [] goodEvents_nil
  intro events callExpression hevents
  split
  · exact hevents
  · split
    · split
      · exact hevents
      · rename_i callbackFactory hcb
        refine foldl_preserves ?_ callbackFactory.descendantCalls events hevents
        intro evs innerCall hevs
        exact pushIfDefined_good
          (pushIfDefined_good hevs (fun ev h => hr _ _ _ h))
          (fun ev h => hw _ _ _ h)
    · exact hevents

theorem runCallbacksExtractor_good (ctx : EventPipelineContext)
    (hgi : GoodIndex ctx.index) :
    GoodEvents ctx.index (runCallbacksExtractor ctx) := by
  unfold runCallbacksExtractor
  refine foldl_preserves ?_ ctx.prog.files [] goodEvents_nil
  intro usageEvents sourceFile hue
  split
  · exact hue
  · refine goodEvents_append (goodEvents_append hue ?_) ?_
    · exact extractCallbackEvents_good
        (fun c b ev h => classifyRecoilCallbackRead_good hgi h)
        (fun c b ev h => classifyRecoilCallbackWrite_good hgi h)
    · exact extractCallbackEvents_good
        (fun c b ev h => classifyJotaiAtomCallbackRead_good hgi h)
        (fun c b ev h => classifyJotaiAtomCallbackWrite_good hgi h)

/-- Every dependency hit reads a target state resolved through the index. -/
def GoodHits (index : SymbolIndex) (l : List DependencyRead) : Prop :=
  ∀ hit ∈ l, stateIdInIndex index hit.event.stateId

theorem goodHits_nil {index : SymbolIndex} : GoodHits index [] :=
  fun _ h => absurd h (List.not_mem_nil _)

theorem goodHits_append {index : SymbolIndex} {a b : List DependencyRead}
    (ha : GoodHits index a) (hb : GoodHits index b) : GoodHits index (a ++ b) := by
  intro hit h
  rcases List.mem_append.1 h with h' | h'
  · exact ha hit h'
  · exact hb hit h'

theorem collectRecoilDependencyReads_good {index : SymbolIndex}
    {oid oname : String} {scopes : List RecoilReadScope} {keys : JsSet}
    (hgi : GoodIndex index) :
    GoodHits index (collectRecoilDependencyReads oid oname scopes keys index) := by
  unfold collectRecoilDependencyReads
  refine foldl_preserves ?_ scopes [] goodHits_nil
  intro acc readScope hacc
  refine foldl_preserves ?_ readScope.scopeNode.descendantCalls acc hacc
  intro acc2 callExpression hacc2
  split
  · exact hacc2
  · rename_i targetState hst
    split
    · refine goodHits_append hacc2 ?_
      intro hit hh
      rw [List.mem_singleton.1 hh]
      exact resolveStateFromExpression_goodId hgi hst
    · split
      · refine goodHits_append hacc2 ?_
        intro hit hh
        rw [List.mem_singleton.1 hh]
        exact resolveStateFromExpression_goodId hgi hst
      · exact hacc2

theorem collectJotaiDependencyReads_good {index : SymbolIndex}
    {oid oname : String} {readFunction : FnNode} (hgi : GoodIndex index) :
    GoodHits index (collectJotaiDependencyReads oid oname readFunction index) := by
  unfold collectJotaiDependencyReads
  refine foldl_preserves ?_ readFunction.descendantCalls [] goodHits_nil
  intro acc getCall hacc
  split
  · split
    · exact hacc
    · rename_i targetState hst
      refine goodHits_append hacc ?_
      intro hit hh
      rw [List.mem_singleton.1 hh]
      exact resolveStateFromExpression_goodId hgi hst
  · exact hacc

theorem dependencyHitsSelectorBlock_good {prog : Program} {index : SymbolIndex}
    {keys : JsSet} {acc : List DependencyRead} {ownerState : StateSymbol}
    (hgi : GoodIndex index) (hacc : GoodHits index acc) :
    GoodHits index
      (dependencyHitsSelectorBlock prog index keys acc ownerState) := by
  unfold dependencyHitsSelectorBlock
  split
  · split
    · exact hacc
    · exact goodHits_append hacc (collectRecoilDependencyReads_good hgi)
  · exact hacc

theorem dependencyHitsAtomDefaultBlock_good {prog : Program}
    {index : SymbolIndex} {keys : JsSet} {acc : List DependencyRead}
    {ownerState : StateSymbol} (hgi : GoodIndex index)
    (hacc : GoodHits index acc) :
    GoodHits index
      (dependencyHitsAtomDefaultBlock prog index keys acc ownerState) := by
  unfold dependencyHitsAtomDefaultBlock
  split
  · split
    · exact hacc
    · split
      · exact hacc
      · exact goodHits_append hacc (collectRecoilDependencyReads_good hgi)
  · exact hacc

theorem dependencyHitsJotaiDerivedBlock_good {prog : Program}
    {index : SymbolIndex} {acc : List DependencyRead}
    {ownerState : StateSymbol} (hgi : GoodIndex index)
    (hacc : GoodHits index acc) :
    GoodHits index (dependencyHitsJotaiDerivedBlock prog index acc ownerState) := by
  unfold dependencyHitsJotaiDerivedBlock
  split
  · split
    · exact hacc
    · split
      · exact hacc
      · exact goodHits_append hacc (collectJotaiDependencyReads_good hgi)
  · exact hacc

theorem dependencyHitsJotaiFamilyBlock_good {prog : Program}
    {index : SymbolIndex} {acc : List DependencyRead}
    {ownerState : StateSymbol} (hgi : GoodIndex index)
    (hacc : GoodHits index acc) :
    GoodHits index (dependencyHitsJotaiFamilyBlock prog index acc ownerState) := by
  unfold dependencyHitsJotaiFamilyBlock
  split
  · split
    · exact hacc
    · refine foldl_preserves ?_ _ acc hacc
      intro a readFunction ha
      exact goodHits_append ha (collectJotaiDependencyReads_good hgi)
  · exact hacc

theorem buildDependencyHits_good {prog : Program} {index : SymbolIndex}
    {keys : JsSet} (hgi : GoodIndex index) :
    GoodHits index (buildDependencyHits prog index keys) := by
  unfold buildDependencyHits
  refine foldl_preserves ?_ index.states [] goodHits_nil
  intro acc0 ownerState hacc
  exact dependencyHitsJotaiFamilyBlock_good hgi
    (dependencyHitsJotaiDerivedBlock_good hgi
      (dependencyHitsAtomDefaultBlock_good hgi
        (dependencyHitsSelectorBlock_good hgi hacc)))

theorem buildDependencyEvents_good {prog : Program} {index : SymbolIndex}
    {keys : JsSet} (hgi : GoodIndex index) :
    GoodEvents index (buildDependencyEvents prog index keys).1 := by
  intro ev h
  rcases List.mem_map.1 h with ⟨hit, hmem, he⟩
  rw [← he]
  exact buildDependencyHits_good hgi hit hmem

theorem rawExtractorOutput_good (ctx : EventPipelineContext)
    (capabilities : CapabilityFlags) (hgi : GoodIndex ctx.index)
    (hsb : GoodIdMap ctx.index ctx.setterBindings) :
    GoodEvents ctx.index (rawExtractorOutput ctx capabilities).1 := by
  unfold rawExtractorOutput
  refine goodEvents_append (goodEvents_append (goodEvents_append
    (runCoreDirectHooksExtractor_good ctx hgi hsb)
    (buildDependencyEvents_good hgi)) ?_) ?_
  · split
    · exact runCallbacksExtractor_good ctx hgi
    · exact goodEvents_nil
  · split
    · exact runStoreApiExtractor_good ctx hgi
    · exact goodEvents_nil

theorem runEventExtractors_good (ctx : EventPipelineContext)
    (capabilities : CapabilityFlags) (hgi : GoodIndex ctx.index)
    (hsb : GoodIdMap ctx.index ctx.setterBindings) :
    GoodEvents ctx.index (runEventExtractors ctx capabilities).1 := by
  intro ev h
  exact rawExtractorOutput_good ctx capabilities hgi hsb ev
    (dedupeUsageEvents_sub h)

theorem buildUsageEvents_good (prog : Program) (index : SymbolIndex)
    (capabilities : CapabilityFlags) (hgi : GoodIndex index) :
    GoodEvents index (buildUsageEvents prog index capabilities).1 := by
  unfold buildUsageEvents
  have hdirect : GoodIdMap index
      (if capabilities.wrappers then buildSetterBindings prog index
       else buildDirectSetterBindings prog index) := by
    split
    · exact buildSetterBindings_good prog index hgi
    · exact buildDirectSetterBindings_good prog index hgi
  have hsb : GoodIdMap index
      (if capabilities.forwarding then
        propagateSetterBindingsOneHop prog
          (if capabilities.wrappers then buildSetterBindings prog index
           else buildDirectSetterBindings prog index)
       else
        (if capabilities.wrappers then buildSetterBindings prog index
         else buildDirectSetterBindings prog index)) := by
    split
    · exact propagateSetterBindingsOneHop_good hdirect
    · exact hdirect
  exact runEventExtractors_good _ capabilities hgi hsb

/-! ## Injectivity of the rendered dedupe keys -/

def digitsVal (l : List Nat) : Nat := l.foldr (fun d acc => d + 10 * acc) 0

theorem natDigitsAux_lt : ∀ (fuel n : Nat), ∀ d ∈ natDigitsAux fuel n, d < 10 := by
  intro fuel
  induction fuel with
  | zero => intro n d hd; simp [natDigitsAux] at hd
  | succ f ih =>
    intro n d hd
    rw [natDigitsAux] at hd
    split at hd
    · simp at hd
    · rcases List.mem_cons.1 hd with rfl | hd'
      · exact Nat.mod_lt _ (by omega)
      · exact ih _ d hd'

theorem natDigitsAux_val : ∀ (fuel n : Nat), n ≤ fuel →
    digitsVal (natDigitsAux fuel n) = n := by
  intro fuel
  induction fuel with
  | zero =>
    intro n h
    have h0 : n = 0 := by omega
    subst h0
    rfl
  | succ f ih =>
    intro n h
    rw [natDigitsAux]
    split
    · rename_i h0
      rw [h0]
      rfl
    · rename_i h0
      have hlt : n / 10 < n := Nat.div_lt_self (by omega) (by omega)
      have hle : n / 10 ≤ f := by omega
      show (n % 10) + 10 * digitsVal (natDigitsAux f (n / 10)) = n
      rw [ih _ hle]
      omega

theorem digitChar_inj {d₁ d₂ : Nat} (h₁ : d₁ < 10) (h₂ : d₂ < 10)
    (h : digitChar d₁ = digitChar d₂) : d₁ = d₂ := by
  interval_cases d₁ <;> interval_cases d₂ <;>
    first
    | rfl
    | exact absurd h (by decide)

theorem map_digitChar_inj : ∀ (l₁ l₂ : List Nat), (∀ d ∈ l₁, d < 10) →
    (∀ d ∈ l₂, d < 10) → l₁.map digitChar = l₂.map digitChar → l₁ = l₂ := by
  intro l₁
  induction l₁ with
  | nil =>
    intro l₂ _ _ h
    cases l₂ with
    | nil => rfl
    | cons b l₂ => simp at h
  | cons a l₁ ih =>
    intro l₂ h₁ h₂ h
    cases l₂ with
    | nil => simp at h
    | cons b l₂ =>
      simp only [List.map_cons, List.cons.injEq] at h
      have ha : a = b := digitChar_inj (h₁ a (by simp)) (h₂ b (by simp)) h.1
      rw [ha, ih l₂ (fun d hd => h₁ d (by simp [hd]))
        (fun d hd => h₂ d (by simp [hd])) h.2]

theorem natToStr_inj {m n : Nat} (h : natToStr m = natToStr n) : m = n := by
  unfold natToStr at h
  by_cases hm : m = 0 <;> by_cases hn : n = 0
  · omega
  · rw [if_pos hm, if_neg hn] at h
    have hdata := congrArg String.data h
    simp only [String.data] at hdata
    have hmap : (natDigitsLE n).reverse.map digitChar = [digitChar 0] := by
      rw [← hdata]
      rfl
    have hrev : (natDigitsLE n).reverse = [0] :=
      map_digitChar_inj _ _
        (fun d hd => natDigitsAux_lt n n d (List.mem_reverse.1 hd))
        (fun d hd => by rw [List.mem_singleton.1 hd]; omega) hmap
    have hdig : natDigitsLE n = [0] := by
      have := congrArg List.reverse hrev
      simpa using this
    have hval := natDigitsAux_val n n (le_refl n)
    rw [show natDigitsAux n n = natDigitsLE n from rfl, hdig] at hval
    simp [digitsVal] at hval
    omega
  · rw [if_neg hm, if_pos hn] at h
    have hdata := congrArg String.data h
    simp only [String.data] at hdata
    have hmap : (natDigitsLE m).reverse.map digitChar = [digitChar 0] := by
      rw [hdata]
      rfl
    have hrev : (natDigitsLE m).reverse = [0] :=
      map_digitChar_inj _ _
        (fun d hd => natDigitsAux_lt m m d (List.mem_reverse.1 hd))
        (fun d hd => by rw [List.mem_singleton.1 hd]; omega) hmap
    have hdig : natDigitsLE m = [0] := by
      have := congrArg List.reverse hrev
      simpa using this
    have hval := natDigitsAux_val m m (le_refl m)
    rw [show natDigitsAux m m = natDigitsLE m from rfl, hdig] at hval
    simp [digitsVal] at hval
    omega
  · rw [if_neg hm, if_neg hn] at h
    have hdata := congrArg String.data h
    simp only [String.data] at hdata
    have hrev := map_digitChar_inj _ _
      (fun d hd => natDigitsAux_lt m m d (List.mem_reverse.1 hd))
      (fun d hd => natDigitsAux_lt n n d (List.mem_reverse.1 hd)) hdata
    have hdig : natDigitsLE m = natDigitsLE n := by
      have := congrArg List.reverse hrev
      simpa using this
    have hvm := natDigitsAux_val m m (le_refl m)
    have hvn := natDigitsAux_val n n (le_refl n)
    rw [show natDigitsAux m m = natDigitsLE m from rfl, hdig] at hvm
    rw [show natDigitsAux n n = natDigitsLE n from rfl] at hvn
    omega

theorem natToStr_barFree (n : Nat) : barFree (natToStr n) = true := by
  simp only [barFree, decide_eq_true_eq]
  intro hmem
  unfold natToStr at hmem
  split at hmem
  · exact absurd (List.mem_singleton.1 hmem) (by decide)
  · have : ∀ c ∈ (natDigitsLE n).reverse.map digitChar, c ≠ '|' := by
      intro c hc
      rcases List.mem_map.1 hc with ⟨d, hd, he⟩
      have hdlt : d < 10 := natDigitsAux_lt n n d (List.mem_reverse.1 hd)
      rw [← he]
      interval_cases d <;> decide
    exact this _ hmem rfl

theorem eventTypeToStr_inj {a b : EventType} (h : a.toStr = b.toStr) : a = b := by
  cases a <;> cases b <;>
    first
    | rfl
    | exact absurd h (by decide)

theorem eventPhaseToStr_inj {a b : EventPhase} (h : a.toStr = b.toStr) : a = b := by
  cases a <;> cases b <;>
    first
    | rfl
    | exact absurd h (by decide)

/-- The bar-freedom hypothesis claim C1 needs: no key field of the event
contains the join separator. -/
def eventKeyBarFree (ev : UsageEvent) : Prop :=
  ∀ s ∈ usageEventKeyParts ev, barFree s

theorem usageEventKey_fields {x y : UsageEvent} (hx : eventKeyBarFree x)
    (hy : eventKeyBarFree y) (h : usageEventKey x = usageEventKey y) :
    x.type = y.type ∧ x.phase = y.phase ∧ x.stateId = y.stateId ∧
      x.filePath = y.filePath ∧ x.line = y.line ∧ x.column = y.column := by
  have hp := joinBar_inj (usageEventKeyParts x) (usageEventKeyParts y)
    (by simp [usageEventKeyParts]) hx hy h
  simp only [usageEventKeyParts, List.cons.injEq, and_true] at hp
  exact ⟨eventTypeToStr_inj hp.1, eventPhaseToStr_inj hp.2.1, hp.2.2.1,
    hp.2.2.2.2.2.1, natToStr_inj hp.2.2.2.2.2.2.1,
    natToStr_inj hp.2.2.2.2.2.2.2.1⟩

/-! ## Dependency edges are paired with dependency-phase read events -/

/-- What `pushDependencyRead` guarantees structurally: edge and event are
built from the same call site and the same pair of states. -/
def HitPaired (hit : DependencyRead) : Prop :=
  hit.event.filePath = hit.edge.filePath ∧ hit.event.line = hit.edge.line ∧
    hit.event.column = hit.edge.column ∧ hit.event.phase = .dependency ∧
    hit.event.type = .read ∧ hit.event.stateId = hit.edge.toStateId ∧
    hit.event.actorStateId = some hit.edge.fromStateId

theorem pushDependencyRead_paired (o n t : String) (c : Expr) (ev iv : String) :
    HitPaired (pushDependencyRead o n t c ev iv) :=
  ⟨rfl, rfl, rfl, rfl, rfl, rfl, rfl⟩

/-- Every hit of the list satisfies `P`. -/
def AllHits (P : DependencyRead → Prop) (l : List DependencyRead) : Prop :=
  ∀ hit ∈ l, P hit

theorem allHits_nil {P : DependencyRead → Prop} : AllHits P [] :=
  fun _ h => absurd h (List.not_mem_nil _)

theorem allHits_append {P : DependencyRead → Prop} {a b : List DependencyRead}
    (ha : AllHits P a) (hb : AllHits P b) : AllHits P (a ++ b) := by
  intro hit h
  rcases List.mem_append.1 h with h' | h'
  · exact ha hit h'
  · exact hb hit h'

theorem collectRecoilDependencyReads_all {P : DependencyRead → Prop}
    {index : SymbolIndex} {oid oname : String} {scopes : List RecoilReadScope}
    {keys : JsSet}
    (hP : ∀ o n t c ev iv, P (pushDependencyRead o n t c ev iv)) :
    AllHits P (collectRecoilDependencyReads oid oname scopes keys index) := by
  unfold collectRecoilDependencyReads
  refine foldl_preserves ?_ scopes [] allHits_nil
  intro acc readScope hacc
  refine foldl_preserves ?_ readScope.scopeNode.descendantCalls acc hacc
  intro acc2 callExpression hacc2
  split
  · exact hacc2
  · split
    · refine allHits_append hacc2 ?_
      intro hit hh
      rw [List.mem_singleton.1 hh]
      exact hP _ _ _ _ _ _
    · split
      · refine allHits_append hacc2 ?_
        intro hit hh
        rw [List.mem_singleton.1 hh]
        exact hP _ _ _ _ _ _
      · exact hacc2

theorem collectJotaiDependencyReads_all {P : DependencyRead → Prop}
    {index : SymbolIndex} {oid oname : String} {readFunction : FnNode}
    (hP : ∀ o n t c ev iv, P (pushDependencyRead o n t c ev iv)) :
    AllHits P (collectJotaiDependencyReads oid oname readFunction index) := by
  unfold collectJotaiDependencyReads
  refine foldl_preserves ?_ readFunction.descendantCalls [] allHits_nil
  intro acc getCall hacc
  split
  · split
    · exact hacc
    · refine allHits_append hacc ?_
      intro hit hh
      rw [List.mem_singleton.1 hh]
      exact hP _ _ _ _ _ _
  · exact hacc

theorem buildDependencyHits_all {P : DependencyRead → Prop} {prog : Program}
    {index : SymbolIndex} {keys : JsSet}
    (hP : ∀ o n t c ev iv, P (pushDependencyRead o n t c ev iv)) :
    AllHits P (buildDependencyHits prog index keys) := by
  unfold buildDependencyHits
  refine foldl_preserves ?_ index.states [] allHits_nil
  intro acc0 ownerState hacc
  have h1 : AllHits P (dependencyHitsSelectorBlock prog index keys acc0
      ownerState) := by
    unfold dependencyHitsSelectorBlock
    split
    · split
      · exact hacc
      · exact allHits_append hacc (collectRecoilDependencyReads_all hP)
    · exact hacc
  have h2 : AllHits P (dependencyHitsAtomDefaultBlock prog index keys
      (dependencyHitsSelectorBlock prog index keys acc0 ownerState)
      ownerState) := by
    unfold dependencyHitsAtomDefaultBlock
    split
    · split
      · exact h1
      · split
        · exact h1
        · exact allHits_append h1 (collectRecoilDependencyReads_all hP)
    · exact h1
  have h3 : AllHits P (dependencyHitsJotaiDerivedBlock prog index
      (dependencyHitsAtomDefaultBlock prog index keys
        (dependencyHitsSelectorBlock prog index keys acc0 ownerState)
        ownerState) ownerState) := by
    unfold dependencyHitsJotaiDerivedBlock
    split
    · split
      · exact h2
      · split
        · exact h2
        · exact allHits_append h2 (collectJotaiDependencyReads_all hP)
    · exact h2
  unfold dependencyHitsJotaiFamilyBlock
  split
  · split
    · exact h3
    · refine foldl_preserves ?_ _ _ h3
      intro a readFunction ha
      exact allHits_append ha (collectJotaiDependencyReads_all hP)
  · exact h3

theorem buildDependencyHits_paired (prog : Program) (index : SymbolIndex)
    (keys : JsSet) :
    AllHits HitPaired (buildDependencyHits prog index keys) :=
  buildDependencyHits_all (fun o n t c ev iv => pushDependencyRead_paired o n t c ev iv)

/-- The pipeline context, as `buildUsageEvents` assembles it. -/
def pipelineCtx (prog : Program) (index : SymbolIndex)
    (capabilities : CapabilityFlags) : EventPipelineContext :=
  let jotaiStoreSymbolKeys :=
    if capabilities.storeApi then buildJotaiStoreSymbolKeys prog index
    else ([] : JsSet)
  let directSetterBindings :=
    if capabilities.wrappers then buildSetterBindings prog index
    else buildDirectSetterBindings prog index
  let setterBindings :=
    if capabilities.forwarding then
      propagateSetterBindingsOneHop prog directSetterBindings
    else directSetterBindings
  { prog := prog, index := index, setterBindings := setterBindings,
    jotaiStoreSymbolKeys := jotaiStoreSymbolKeys }

theorem buildUsageEvents_eq_run (prog : Program) (index : SymbolIndex)
    (capabilities : CapabilityFlags) :
    buildUsageEvents prog index capabilities =
      runEventExtractors (pipelineCtx prog index capabilities) capabilities := rfl

/-- The concatenated pre-dedupe extractor outputs of the pipeline. -/
def buildUsageEventsRaw (prog : Program) (index : SymbolIndex)
    (capabilities : CapabilityFlags) : List UsageEvent × List DependencyEdge :=
  rawExtractorOutput (pipelineCtx prog index capabilities) capabilities

theorem buildUsageEvents_eq_dedupe (prog : Program) (index : SymbolIndex)
    (capabilities : CapabilityFlags) :
    buildUsageEvents prog index capabilities =
      (dedupeUsageEvents (buildUsageEventsRaw prog index capabilities).1,
       dedupeDependencyEdges (buildUsageEventsRaw prog index capabilities).2) := rfl

theorem rawExtractorOutput_edges (ctx : EventPipelineContext)
    (capabilities : CapabilityFlags) :
    (rawExtractorOutput ctx capabilities).2 =
      (buildDependencyHits ctx.prog ctx.index ctx.jotaiStoreSymbolKeys).map
        (·.edge) := rfl

theorem hit_event_mem_raw {ctx : EventPipelineContext}
    {capabilities : CapabilityFlags} {hit : DependencyRead}
    (h : hit ∈ buildDependencyHits ctx.prog ctx.index ctx.jotaiStoreSymbolKeys) :
    hit.event ∈ (rawExtractorOutput ctx capabilities).1 := by
  show hit.event ∈ runCoreDirectHooksExtractor ctx ++
    (buildDependencyEvents ctx.prog ctx.index ctx.jotaiStoreSymbolKeys).1 ++ _ ++ _
  refine List.mem_append_left _ (List.mem_append_left _ ?_)
  refine List.mem_append_right _ ?_
  exact List.mem_map_of_mem _ h

/-- Edge/event pairing through dedupe: every surviving edge has a surviving
dependency-phase read event at its location for its target state (claim C1,
without the via-equality the source does not provide for the store-handle
read shape). -/
theorem edges_paired_with_events (prog : Program) (index : SymbolIndex)
    (capabilities : CapabilityFlags)
    (hbar : ∀ ev ∈ (buildUsageEventsRaw prog index capabilities).1,
      eventKeyBarFree ev) :
    ∀ e ∈ (buildUsageEvents prog index capabilities).2,
      ∃ ev ∈ (buildUsageEvents prog index capabilities).1,
        ev.filePath = e.filePath ∧ ev.line = e.line ∧ ev.column = e.column ∧
          ev.phase = .dependency ∧ ev.type = .read ∧ ev.stateId = e.toStateId := by
  intro e he
  rw [buildUsageEvents_eq_dedupe] at he
  have he' := dedupeDependencyEdges_sub he
  rw [show (buildUsageEventsRaw prog index capabilities).2 =
      (buildDependencyHits prog index
        (pipelineCtx prog index capabilities).jotaiStoreSymbolKeys).map (·.edge)
    from rfl] at he'
  rcases List.mem_map.1 he' with ⟨hit, hmem, hedge⟩
  have hpair : HitPaired hit :=
    buildDependencyHits_paired prog index _ hit hmem
  have hev : hit.event ∈ (buildUsageEventsRaw prog index capabilities).1 :=
    hit_event_mem_raw hmem
  rcases dedupeUsageEvents_covers hev with ⟨y, hy, hk⟩
  have hfields := usageEventKey_fields
    (hbar y (dedupeUsageEvents_sub hy)) (hbar hit.event hev) hk
  refine ⟨y, ?_, ?_, ?_, ?_, ?_, ?_, ?_⟩
  · rw [buildUsageEvents_eq_dedupe]
    exact hy
  · rw [hfields.2.2.2.1, hpair.1, hedge]
  · rw [hfields.2.2.2.2.1, hpair.2.1, hedge]
  · rw [hfields.2.2.2.2.2, hpair.2.2.1, hedge]
  · rw [hfields.2.1, hpair.2.2.2.1]
  · rw [hfields.1, hpair.2.2.2.2.1]
  · rw [hfields.2.2.1, hpair.2.2.2.2.2.1, hedge]

/-! ## Dependence of the pipeline on source-file presentation order -/

theorem pushIfDefined_eq_append {α : Type _} (evs : List α) (item : Option α) :
    pushIfDefined evs item = evs ++ item.toList := by
  rcases item with _ | i <;> simp [pushIfDefined]

theorem foldl_step_append {α β : Type _} (f : β → List α)
    (step : List α → β → List α) (hstep : ∀ acc x, step acc x = acc ++ f x) :
    ∀ (l : List β) (acc : List α), l.foldl step acc = acc ++ l.flatMap f := by
  intro l
  induction l with
  | nil => intro acc; simp
  | cons x l ih =>
    intro acc
    rw [List.foldl_cons, hstep, ih, List.flatMap_cons, List.append_assoc]

/-- The events the core direct-hooks extractor emits for one file. -/
def coreDirectHooksFileEvents (ctx : EventPipelineContext)
    (sourceFile : SourceFileModel) : List UsageEvent :=
  (sourceFile.calls.flatMap (fun callExpression =>
    (match jget ctx.index.importMapByFilePath sourceFile.filePath with
     | some im => (classifyRuntimeRead callExpression im ctx.index).toList
     | none => []) ++
    (classifySetterWriteCall callExpression ctx.setterBindings).toList ++
    (classifyDirectMutationWrite callExpression ctx.jotaiStoreSymbolKeys
      ctx.index).toList)) ++
  extractSetterReferenceWriteEvents sourceFile ctx.setterBindings

theorem runCoreDirectHooksExtractor_flatMap (ctx : EventPipelineContext) :
    runCoreDirectHooksExtractor ctx =
      ctx.prog.files.flatMap (coreDirectHooksFileEvents ctx) := by
  unfold runCoreDirectHooksExtractor
  refine Eq.trans (foldl_step_append (coreDirectHooksFileEvents ctx) _ ?_
    ctx.prog.files []) (List.nil_append _)
  intro acc sourceFile
  unfold coreDirectHooksFileEvents
  rcases hm : jget ctx.index.importMapByFilePath sourceFile.filePath
    with _ | im
  · simp only [hm]
    rw [foldl_step_append (fun callExpression =>
      (([] : List UsageEvent) ++
        (classifySetterWriteCall callExpression ctx.setterBindings).toList) ++
      (classifyDirectMutationWrite callExpression ctx.jotaiStoreSymbolKeys
        ctx.index).toList) _ ?hstepa sourceFile.calls acc]
    case hstepa =>
      intro evs c
      simp [pushIfDefined_eq_append]
    simp
  · simp only [hm]
    rw [foldl_step_append (fun callExpression =>
      ((classifyRuntimeRead callExpression im ctx.index).toList ++
        (classifySetterWriteCall callExpression ctx.setterBindings).toList) ++
      (classifyDirectMutationWrite callExpression ctx.jotaiStoreSymbolKeys
        ctx.index).toList) _ ?hstepb sourceFile.calls acc]
    case hstepb =>
      intro evs c
      simp [pushIfDefined_eq_append]
    simp

/-- The events the store-api extractor emits for one file. -/
def storeApiFileEvents (ctx : EventPipelineContext)
    (sourceFile : SourceFileModel) : List UsageEvent :=
  sourceFile.calls.flatMap (fun c =>
    (classifyJotaiStoreSetWrite c ctx.jotaiStoreSymbolKeys ctx.index).toList)

theorem runStoreApiExtractor_flatMap (ctx : EventPipelineContext) :
    runStoreApiExtractor ctx = ctx.prog.files.flatMap (storeApiFileEvents ctx) := by
  unfold runStoreApiExtractor
  refine Eq.trans (foldl_step_append (storeApiFileEvents ctx) _ ?_
    ctx.prog.files []) (List.nil_append _)
  intro acc sourceFile
  unfold storeApiFileEvents
  refine foldl_step_append (fun c =>
    (classifyJotaiStoreSetWrite c ctx.jotaiStoreSymbolKeys ctx.index).toList)
    _ ?_ sourceFile.calls acc
  intro evs c
  rw [pushIfDefined_eq_append]

/-- The events the callbacks extractor emits for one file. -/
def callbacksFileEvents (ctx : EventPipelineContext)
    (sourceFile : SourceFileModel) : List UsageEvent :=
  match jget ctx.index.importMapByFilePath sourceFile.filePath with
  | none => []
  | some importMap =>
    extractRecoilCallbackEvents ctx.prog sourceFile importMap ctx.index ++
      extractJotaiAtomCallbackEvents ctx.prog sourceFile importMap ctx.index

theorem runCallbacksExtractor_flatMap (ctx : EventPipelineContext) :
    runCallbacksExtractor ctx =
      ctx.prog.files.flatMap (callbacksFileEvents ctx) := by
  unfold runCallbacksExtractor
  refine Eq.trans (foldl_step_append (callbacksFileEvents ctx) _ ?_
    ctx.prog.files []) (List.nil_append _)
  intro acc sourceFile
  unfold callbacksFileEvents
  rcases hm : jget ctx.index.importMapByFilePath sourceFile.filePath
    with _ | importMap
  · simp [hm]
  · simp only [hm]
    rw [List.append_assoc]

theorem lookupFn_congr {prog₁ prog₂ : Program}
    (h : prog₁.fnTable = prog₂.fnTable) (k : String) :
    lookupFn prog₁ k = lookupFn prog₂ k := by
  unfold lookupFn
  rw [h]

theorem resolveFunctionLikeNodesFromExpression_congr {prog₁ prog₂ : Program}
    (h : prog₁.fnTable = prog₂.fnTable) (e : Expr) :
    resolveFunctionLikeNodesFromExpression prog₁ e =
      resolveFunctionLikeNodesFromExpression prog₂ e := by
  rw [resolveFunctionLikeNodes_eq_keys, resolveFunctionLikeNodes_eq_keys]
  simp only [lookupFn_congr h]

theorem getNestedFunctionNodes_congr {prog₁ prog₂ : Program}
    (h : prog₁.fnTable = prog₂.fnTable) (fn : FnNode) :
    getNestedFunctionNodes prog₁ fn = getNestedFunctionNodes prog₂ fn := by
  unfold getNestedFunctionNodes
  simp only [lookupFn_congr h]

theorem getRecoilReadScopes_congr {prog₁ prog₂ : Program}
    (h : prog₁.fnTable = prog₂.fnTable) (c : Expr) :
    getRecoilReadScopes prog₁ c = getRecoilReadScopes prog₂ c := by
  unfold getRecoilReadScopes
  simp only [lookupFn_congr h, getNestedFunctionNodes_congr h]

theorem getJotaiReadFunction_congr {prog₁ prog₂ : Program}
    (h : prog₁.fnTable = prog₂.fnTable) (c : Expr) :
    getJotaiReadFunction prog₁ c = getJotaiReadFunction prog₂ c := by
  unfold getJotaiReadFunction
  simp only [lookupFn_congr h]

theorem resolveFunctionNodesFromExpression_congr {prog₁ prog₂ : Program}
    (h : prog₁.fnTable = prog₂.fnTable) (e : Option Expr) :
    resolveFunctionNodesFromExpression prog₁ e =
      resolveFunctionNodesFromExpression prog₂ e := by
  unfold resolveFunctionNodesFromExpression
  simp only [lookupFn_congr h, resolveFunctionLikeNodesFromExpression_congr h]

theorem getJotaiAtomFamilyReadFunctions_congr {prog₁ prog₂ : Program}
    (h : prog₁.fnTable = prog₂.fnTable) (c : Expr) (index : SymbolIndex) :
    getJotaiAtomFamilyReadFunctions prog₁ c index =
      getJotaiAtomFamilyReadFunctions prog₂ c index := by
  unfold getJotaiAtomFamilyReadFunctions
  simp only [resolveFunctionNodesFromExpression_congr h,
    getJotaiReadFunction_congr h]

theorem buildDependencyHits_congr {prog₁ prog₂ : Program}
    (h : prog₁.fnTable = prog₂.fnTable) (index : SymbolIndex) (keys : JsSet) :
    buildDependencyHits prog₁ index keys = buildDependencyHits prog₂ index keys := by
  unfold buildDependencyHits
  simp only [dependencyHitsSelectorBlock, dependencyHitsAtomDefaultBlock,
    dependencyHitsJotaiDerivedBlock, dependencyHitsJotaiFamilyBlock,
    getRecoilReadScopes_congr h, getJotaiReadFunction_congr h,
    getJotaiAtomFamilyReadFunctions_congr h]

theorem resolveFnFromDeclarations_congr {prog₁ prog₂ : Program}
    (h : prog₁.fnTable = prog₂.fnTable) :
    ∀ decls : List SymDecl,
      resolveFnFromDeclarations prog₁ decls = resolveFnFromDeclarations prog₂ decls := by
  intro decls
  induction decls with
  | nil => rfl
  | cons d rest ih =>
    rw [resolveFnFromDeclarations, resolveFnFromDeclarations]
    cases d.kind with
    | varDecl k =>
      cases k with
      | none => exact ih
      | some s => exact lookupFn_congr h s
    | funcDecl k => exact lookupFn_congr h k
    | methodDecl k => exact ih
    | bindingElem n s => exact ih
    | otherDecl => exact ih

theorem resolveFunctionFromNode_congr {prog₁ prog₂ : Program}
    (h : prog₁.fnTable = prog₂.fnTable) (node : Option Expr) :
    resolveFunctionFromNode prog₁ node = resolveFunctionFromNode prog₂ node := by
  unfold resolveFunctionFromNode
  simp only [lookupFn_congr h, resolveFnFromDeclarations_congr h]

theorem resolveCallbackFactoryFunction_congr {prog₁ prog₂ : Program}
    (h : prog₁.fnTable = prog₂.fnTable) (arg : Option Expr) (im : ImportMap) :
    resolveCallbackFactoryFunction prog₁ arg im =
      resolveCallbackFactoryFunction prog₂ arg im := by
  unfold resolveCallbackFactoryFunction
  simp only [resolveFunctionFromNode_congr h]

theorem extractCallbackEvents_congr {TBindings : Type} {prog₁ prog₂ : Program}
    (h : prog₁.fnTable = prog₂.fnTable) (sourceFile : SourceFileModel)
    (im : ImportMap) (hm hi : String) (pb : FnNode → TBindings)
    (cr cw : Expr → TBindings → SymbolIndex → Option UsageEvent)
    (index : SymbolIndex) :
    extractCallbackEvents prog₁ sourceFile im hm hi pb cr cw index =
      extractCallbackEvents prog₂ sourceFile im hm hi pb cr cw index := by
  unfold extractCallbackEvents
  simp only [resolveCallbackFactoryFunction_congr h]

theorem callbacksFileEvents_congr {ctx : EventPipelineContext} {prog₂ : Program}
    (h : prog₂.fnTable = ctx.prog.fnTable) (sourceFile : SourceFileModel) :
    callbacksFileEvents { ctx with prog := prog₂ } sourceFile =
      callbacksFileEvents ctx sourceFile := by
  unfold callbacksFileEvents
  simp only [extractRecoilCallbackEvents, extractJotaiAtomCallbackEvents,
    extractCallbackEvents_congr h]

/-- The key set of the deduped list is the key set of its input. -/
theorem dedupeUsageEvents_keySet (l : List UsageEvent) (k : String) :
    (∃ y ∈ dedupeUsageEvents l, usageEventKey y = k) ↔
      (∃ y ∈ l, usageEventKey y = k) := by
  constructor
  · rintro ⟨y, hy, hk⟩
    exact ⟨y, dedupeUsageEvents_sub hy, hk⟩
  · rintro ⟨y, hy, hk⟩
    rcases dedupeUsageEvents_covers hy with ⟨z, hz, hkz⟩
    exact ⟨z, hz, by rw [hkz, hk]⟩

theorem mem_rawExtractorOutput_iff_fileOrder (ctx : EventPipelineContext)
    (prog₂ : Program) (capabilities : CapabilityFlags)
    (hfiles : ∀ f, f ∈ ctx.prog.files ↔ f ∈ prog₂.files)
    (htable : prog₂.fnTable = ctx.prog.fnTable) (ev : UsageEvent) :
    (ev ∈ (rawExtractorOutput ctx capabilities).1 ↔
      ev ∈ (rawExtractorOutput { ctx with prog := prog₂ } capabilities).1) := by
  show ev ∈ runCoreDirectHooksExtractor ctx ++ _ ++ _ ++ _ ↔
    ev ∈ runCoreDirectHooksExtractor { ctx with prog := prog₂ } ++ _ ++ _ ++ _
  have hdep : buildDependencyHits prog₂ ctx.index ctx.jotaiStoreSymbolKeys =
      buildDependencyHits ctx.prog ctx.index ctx.jotaiStoreSymbolKeys :=
    buildDependencyHits_congr htable ctx.index ctx.jotaiStoreSymbolKeys
  simp only [List.mem_append]
  constructor
  · rintro (((h | h) | h) | h)
    · refine Or.inl (Or.inl (Or.inl ?_))
      rw [runCoreDirectHooksExtractor_flatMap] at h ⊢
      rcases List.mem_flatMap.1 h with ⟨f, hf, he⟩
      exact List.mem_flatMap.2 ⟨f, (hfiles f).1 hf, he⟩
    · refine Or.inl (Or.inl (Or.inr ?_))
      show ev ∈ (buildDependencyEvents prog₂ ctx.index ctx.jotaiStoreSymbolKeys).1
      unfold buildDependencyEvents at h ⊢
      rw [hdep]
      exact h
    · refine Or.inl (Or.inr ?_)
      split at h
      · rename_i hcb
        rw [if_pos hcb]
        rw [runCallbacksExtractor_flatMap] at h ⊢
        rcases List.mem_flatMap.1 h with ⟨f, hf, he⟩
        refine List.mem_flatMap.2 ⟨f, (hfiles f).1 hf, ?_⟩
        rw [callbacksFileEvents_congr htable]
        exact he
      · rename_i hcb
        exact absurd h (List.not_mem_nil _)
    · refine Or.inr ?_
      split at h
      · rename_i hsa
        rw [if_pos hsa]
        rw [runStoreApiExtractor_flatMap] at h ⊢
        rcases List.mem_flatMap.1 h with ⟨f, hf, he⟩
        exact List.mem_flatMap.2 ⟨f, (hfiles f).1 hf, he⟩
      · exact absurd h (List.not_mem_nil _)
  · rintro (((h | h) | h) | h)
    · refine Or.inl (Or.inl (Or.inl ?_))
      rw [runCoreDirectHooksExtractor_flatMap] at h ⊢
      rcases List.mem_flatMap.1 h with ⟨f, hf, he⟩
      exact List.mem_flatMap.2 ⟨f, (hfiles f).2 hf, he⟩
    · refine Or.inl (Or.inl (Or.inr ?_))
      show ev ∈ (buildDependencyEvents ctx.prog ctx.index ctx.jotaiStoreSymbolKeys).1
      unfold buildDependencyEvents at h ⊢
      rw [← hdep]
      exact h
    · refine Or.inl (Or.inr ?_)
      split at h
      · rename_i hcb
        rw [if_pos hcb]
        rw [runCallbacksExtractor_flatMap] at h ⊢
        rcases List.mem_flatMap.1 h with ⟨f, hf, he⟩
        refine List.mem_flatMap.2 ⟨f, (hfiles f).2 hf, ?_⟩
        rw [← callbacksFileEvents_congr htable]
        exact he
      · exact absurd h (List.not_mem_nil _)
    · refine Or.inr ?_
      split at h
      · rename_i hsa
        rw [if_pos hsa]
        rw [runStoreApiExtractor_flatMap] at h ⊢
        rcases List.mem_flatMap.1 h with ⟨f, hf, he⟩
        exact List.mem_flatMap.2 ⟨f, (hfiles f).2 hf, he⟩
      · exact absurd h (List.not_mem_nil _)

/-- With the index, bindings and function table fixed, re-presenting the
source files in another order leaves the deduped event key set and the edge
list unchanged — this is as much order-independence as the pipeline itself
provides. -/
theorem runEventExtractors_fileOrder (ctx : EventPipelineContext)
    (prog₂ : Program) (capabilities : CapabilityFlags)
    (hfiles : ∀ f, f ∈ ctx.prog.files ↔ f ∈ prog₂.files)
    (htable : prog₂.fnTable = ctx.prog.fnTable) :
    (∀ k : String,
      (∃ y ∈ (runEventExtractors ctx capabilities).1, usageEventKey y = k) ↔
      (∃ y ∈ (runEventExtractors { ctx with prog := prog₂ } capabilities).1,
        usageEventKey y = k)) ∧
    (runEventExtractors ctx capabilities).2 =
      (runEventExtractors { ctx with prog := prog₂ } capabilities).2 := by
  constructor
  · intro k
    show (∃ y ∈ dedupeUsageEvents (rawExtractorOutput ctx capabilities).1,
        usageEventKey y = k) ↔
      (∃ y ∈ dedupeUsageEvents
        (rawExtractorOutput { ctx with prog := prog₂ } capabilities).1,
        usageEventKey y = k)
    rw [dedupeUsageEvents_keySet, dedupeUsageEvents_keySet]
    constructor
    · rintro ⟨y, hy, hk⟩
      exact ⟨y, (mem_rawExtractorOutput_iff_fileOrder ctx prog₂ capabilities
        hfiles htable y).1 hy, hk⟩
    · rintro ⟨y, hy, hk⟩
      exact ⟨y, (mem_rawExtractorOutput_iff_fileOrder ctx prog₂ capabilities
        hfiles htable y).2 hy, hk⟩
  · show dedupeDependencyEdges (rawExtractorOutput ctx capabilities).2 =
      dedupeDependencyEdges
        (rawExtractorOutput { ctx with prog := prog₂ } capabilities).2
    rw [rawExtractorOutput_edges, rawExtractorOutput_edges]
    show dedupeDependencyEdges ((buildDependencyHits ctx.prog ctx.index
        ctx.jotaiStoreSymbolKeys).map (·.edge)) =
      dedupeDependencyEdges ((buildDependencyHits prog₂ ctx.index
        ctx.jotaiStoreSymbolKeys).map (·.edge))
    rw [buildDependencyHits_congr htable ctx.index ctx.jotaiStoreSymbolKeys]

/-! ## Rule R004 as read/write counting -/

/-- Runtime reads of `stateId`: the count rule R004's loop accumulates in
`runtimeReads`. -/
def countRuntimeReads (usageEvents : List UsageEvent) (stateId : String) : Nat :=
  usageEvents.countP (fun event =>
    decide (event.stateId = stateId ∧ event.type = .read ∧ event.phase = .runtime))

def countRuntimeWrites (usageEvents : List UsageEvent) (stateId : String) : Nat :=
  usageEvents.countP (fun event =>
    decide (event.stateId = stateId ∧ event.type = .runtimeWrite))

def countInitWrites (usageEvents : List UsageEvent) (stateId : String) : Nat :=
  usageEvents.countP (fun event =>
    decide (event.stateId = stateId ∧ event.type = .initWrite))

theorem r004Counts_eq (usageEvents : List UsageEvent) (stateId : String) :
    r004Counts usageEvents stateId =
      (countRuntimeReads usageEvents stateId,
       countRuntimeWrites usageEvents stateId,
       countInitWrites usageEvents stateId) := by
  have key : ∀ (l : List UsageEvent) (c : Nat × Nat × Nat),
      l.foldl (fun c event =>
        if event.stateId ≠ stateId then c
        else
          let c1 := if event.type = .read ∧ event.phase = .runtime then
              (c.1 + 1, c.2.1, c.2.2) else c
          let c2 := if event.type = .runtimeWrite then
              (c1.1, c1.2.1 + 1, c1.2.2) else c1
          if event.type = .initWrite then (c2.1, c2.2.1, c2.2.2 + 1) else c2) c =
      (c.1 + countRuntimeReads l stateId,
       c.2.1 + countRuntimeWrites l stateId,
       c.2.2 + countInitWrites l stateId) := by
    intro l
    induction l with
    | nil =>
      intro c
      simp [countRuntimeReads, countRuntimeWrites, countInitWrites]
    | cons e t ih =>
      intro c
      rw [List.foldl_cons, ih]
      simp only [countRuntimeReads, countRuntimeWrites, countInitWrites,
        List.countP_cons]
      by_cases hs : e.stateId = stateId
      · cases htype : e.type with
        | read =>
          by_cases hp : e.phase = .runtime <;>
            (simp [hs, htype, hp, Prod.ext_iff]; try omega)
        | runtimeWrite => simp [hs, htype, Prod.ext_iff]; try omega
        | initWrite => simp [hs, htype, Prod.ext_iff]; try omega
      · simp [hs]
  unfold r004Counts
  rw [key]
  simp

/-- The violation rule R004's loop appends for one state, phrased directly
from the claim: a violation iff the state is a plain recoil atom with at
least one runtime-phase read and no `runtimeWrite`; `initWrite` counts
appear only inside the reported metrics. -/
def r004SpecViolation (usageEvents : List UsageEvent) (state : StateSymbol) :
    Option Violation :=
  if state.store = .recoil ∧ state.kind = .atom ∧ state.isRecoilPlainAtom ∧
      0 < countRuntimeReads usageEvents state.id ∧
      countRuntimeWrites usageEvents state.id = 0 then
    some { rule := "R004"
           state := state.name
           file := state.filePath
           line := state.line
           message := "Recoil atom is read at runtime but has no runtime writes"
           metrics := some ⟨countRuntimeReads usageEvents state.id,
             countRuntimeWrites usageEvents state.id,
             countInitWrites usageEvents state.id⟩ }
  else none

theorem flatMap_toList_eq_filterMap {α β : Type _} (f : α → Option β)
    (l : List α) : l.flatMap (fun a => (f a).toList) = l.filterMap f := by
  induction l with
  | nil => rfl
  | cons a t ih =>
    rw [List.flatMap_cons, List.filterMap_cons]
    rcases f a with _ | b <;> simp [ih]

/-! ## The project loader and whole-project analysis

`createAnalyzerContext` (core/analyzer.ts) loads the project, builds the
symbol index and runs the event pipeline.  The loader it imports
(`loadProject`, core/project.ts, whose text is concatenated into
src/cli/state-impact.ts) filters the matched files and stable-sorts them
with `(l, r) => l.getFilePath().localeCompare(r.getFilePath())` before
anything else observes them — the spec's "sorting source files on load".
`loadProjectSourceFiles` is that sort, on the file models. -/

def loadProjectSourceFiles (sourceFiles : List SourceFileModel) :
    List SourceFileModel :=
  stableSortByCmp (fun l r => strCmp l.filePath r.filePath) sourceFiles

def analyzeProject (sourceFiles : List SourceFileModel) (fnTable : List FnNode)
    (capabilities : CapabilityFlags) : List UsageEvent × List DependencyEdge :=
  let files := loadProjectSourceFiles sourceFiles
  buildUsageEvents ⟨files, fnTable⟩ (buildSymbolIndex files) capabilities

theorem sorted_perm_eq {α : Type _} (r : α → α → Prop) :
    ∀ (l₁ l₂ : List α), l₁.Perm l₂ → l₁.Pairwise r → l₂.Pairwise r →
      (∀ a ∈ l₁, ∀ b ∈ l₁, r a b → r b a → a = b) → l₁ = l₂ := by
  intro l₁
  induction l₁ with
  | nil =>
    intro l₂ hp _ _ _
    exact (List.Perm.eq_nil hp.symm).symm
  | cons a t ih =>
    intro l₂ hp h1 h2 hanti
    cases l₂ with
    | nil => exact absurd (List.Perm.eq_nil hp) (by simp)
    | cons b u =>
      have hbmem : b ∈ a :: t := hp.mem_iff.2 (List.mem_cons_self b u)
      have hamem : a ∈ b :: u := hp.mem_iff.1 (List.mem_cons_self a t)
      have hab : a = b := by
        rcases List.mem_cons.1 hbmem with h | hbt
        · exact h.symm
        rcases List.mem_cons.1 hamem with h | hau
        · exact h
        exact hanti a (List.mem_cons_self a t) b hbmem
          (List.rel_of_pairwise_cons h1 hbt)
          (List.rel_of_pairwise_cons h2 hau)
      subst hab
      have ht : t.Perm u := hp.cons_inv
      rw [ih u ht h1.of_cons h2.of_cons
        (fun x hx y hy => hanti x (List.mem_cons_of_mem a hx)
          y (List.mem_cons_of_mem a hy))]

theorem loadProject_perm_eq {sourceFiles₁ sourceFiles₂ : List SourceFileModel}
    (hperm : sourceFiles₁.Perm sourceFiles₂)
    (hdistinct : sourceFiles₁.Pairwise (fun l r => l.filePath ≠ r.filePath)) :
    loadProjectSourceFiles sourceFiles₁ = loadProjectSourceFiles sourceFiles₂ := by
  have laws : CmpLaws (fun l r : SourceFileModel => strCmp l.filePath r.filePath) :=
    strCmpLaws.comap SourceFileModel.filePath
  have hsp₁ := stableSortByCmp_perm
    (fun l r : SourceFileModel => strCmp l.filePath r.filePath) sourceFiles₁
  have hsp₂ := stableSortByCmp_perm
    (fun l r : SourceFileModel => strCmp l.filePath r.filePath) sourceFiles₂
  refine sorted_perm_eq (fun l r => strCmp l.filePath r.filePath ≠ .gt) _ _
    (hsp₁.trans (hperm.trans hsp₂.symm))
    (pairwise_stableSortByCmp laws sourceFiles₁)
    (pairwise_stableSortByCmp laws sourceFiles₂) ?_
  intro x hx y hy hxy hyx
  have hmx : x ∈ sourceFiles₁ := hsp₁.mem_iff.1 hx
  have hmy : y ∈ sourceFiles₁ := hsp₁.mem_iff.1 hy
  have hpaths : x.filePath = y.filePath := by
    have hswap := strCmp_swap x.filePath y.filePath
    rcases e : strCmp x.filePath y.filePath with _ | _ | _
    · rw [e] at hswap
      exact absurd hyx (by rw [← hswap]; simp [Ordering.swap])
    · exact (strCmp_eq_iff _ _).1 e
    · exact absurd hxy (by rw [e]; simp)
  rcases eq_or_ne x y with rfl | hne
  · rfl
  · have hsymm : Symmetric (fun l r : SourceFileModel => l.filePath ≠ r.filePath) :=
      fun p q h e => h e.symm
    exact absurd hpaths (hdistinct.forall hsymm hmx hmy hne)

/-! ## One-hop forwarding adds bindings computed from the base map alone -/

theorem foldl_extending {α β : Type _} (step : List β → α → List β)
    (hstep : ∀ acc x, step acc x = acc ++ step [] x) (l : List α)
    (acc : List β) : l.foldl step acc = acc ++ l.foldl step [] := by
  rw [foldl_step_append (fun x => step [] x) step hstep l acc,
      foldl_step_append (fun x => step [] x) step hstep l []]
  simp

theorem bindSetterIdentifier_extending (t : String) (s : Option SymRef)
    (fp sid : String) (m : JsMap String) :
    bindSetterIdentifier t s fp sid m = m ++ bindSetterIdentifier t s fp sid [] := by
  rcases hk : getSymbolKey s with _ | k <;>
    simp [bindSetterIdentifier, hk, jset]

theorem bindSetterIdentifierByName_extending (localName fp sid : String)
    (m : JsMap String) (node : BindingName) :
    bindSetterIdentifierByName localName fp sid m node =
      m ++ bindSetterIdentifierByName localName fp sid [] node := by
  have hstep : ∀ (acc : JsMap String) (d : SymDecl),
      (fun (acc : JsMap String) (declaration : SymDecl) =>
        match declaration.kind with
        | .bindingElem nameText nameSymKey =>
          if nameText = localName then
            match nameSymKey with
            | some symbolKey => jset acc ("sym|" ++ symbolKey) sid
            | none => acc
          else acc
        | _ => acc) acc d =
      acc ++ (fun (acc : JsMap String) (declaration : SymDecl) =>
        match declaration.kind with
        | .bindingElem nameText nameSymKey =>
          if nameText = localName then
            match nameSymKey with
            | some symbolKey => jset acc ("sym|" ++ symbolKey) sid
            | none => acc
          else acc
        | _ => acc) [] d := by
    intro acc d
    rcases hdk : d.kind with k | k | k | ⟨nt, nsk⟩ | _ <;> simp only [hdk]
    case bindingElem =>
      split
      · rcases nsk with _ | k <;> simp [jset]
      · simp
    all_goals simp
  cases node with
  | identB t sym =>
    cases sym with
    | none => simp [bindSetterIdentifierByName, jset]
    | some symbol =>
      simp only [bindSetterIdentifierByName]
      rw [foldl_extending _ hstep symbol.declarations
          (jset m (getFallbackSetterKey fp localName) sid),
        foldl_extending _ hstep symbol.declarations
          (jset [] (getFallbackSetterKey fp localName) sid)]
      simp [jset]
  | arrayB els => simp [bindSetterIdentifierByName, jset]
  | objectB els => simp [bindSetterIdentifierByName, jset]

theorem propagateCallSite_extending (prog : Program) (base : JsMap String)
    (c : Expr) (acc : JsMap String) :
    propagateCallSite prog base acc c = acc ++ propagateCallSite prog base [] c := by
  unfold propagateCallSite
  cases c with
  | identE t s => simp
  | propE b n s => simp
  | objectE ps => simp
  | arrowE k => simp
  | otherE => simp
  | callE callee args fp ln col anc =>
    dsimp only
    split
    · simp
    · refine foldl_extending _ ?_ (List.range args.length) acc
      intro acc2 i
      rcases hai : args[i]? with _ | arg
      · simp [hai]
      · cases arg with
        | propE eb en es => simp [hai]
        | callE ec ea ef el ec2 ea2 => simp [hai]
        | objectE ps => simp [hai]
        | arrowE k => simp [hai]
        | otherE => simp [hai]
        | identE t sym =>
          simp only [hai]
          rcases hres : resolveStateIdFromIdentifier t sym
              (callFilePath (Expr.callE callee args fp ln col anc)) base
            with _ | sid
          · simp [hres]
          · simp only [hres]
            refine foldl_extending _ ?_ _ acc2
            intro acc3 tf
            rcases hp : tf.params[i]? with _ | pn
            · simp [hp]
            · cases pn with
              | identB pt psym =>
                simp only [hp]
                exact bindSetterIdentifier_extending _ _ _ _ _
              | arrayB es => simp [hp]
              | objectB es => simp [hp]

theorem propagateJsxSite_extending (prog : Program) (base : JsMap String)
    (sourceFile : SourceFileModel) (a : JsxAttr) (acc : JsMap String) :
    propagateJsxSite prog base acc sourceFile a =
      acc ++ propagateJsxSite prog base [] sourceFile a := by
  unfold propagateJsxSite
  rcases hv : a.valueExpr with _ | ve
  · simp [hv]
  · cases ve with
    | propE eb en es => simp [hv]
    | callE ec ea ef el ec2 ea2 => simp [hv]
    | objectE ps => simp [hv]
    | arrowE k => simp [hv]
    | otherE => simp [hv]
    | identE t sym =>
      simp only [hv]
      rcases hres : resolveStateIdFromIdentifier t sym sourceFile.filePath base
        with _ | sid
      · simp [hres]
      · simp only [hres]
        rcases htag : a.tagNode with _ | tn
        · simp [htag]
        · cases tn with
          | propE eb en es => simp [htag]
          | callE ec ea ef el ec2 ea2 => simp [htag]
          | objectE ps => simp [htag]
          | arrowE k => simp [htag]
          | otherE => simp [htag]
          | identE tagText tagSym =>
            simp only [htag]
            try dsimp only
            split
            · simp
            · refine foldl_extending _ ?_ _ acc
              intro a2 tf
              rcases hph : tf.params.head? with _ | pn
              · simp [hph]
              · cases pn with
                | arrayB es => simp [hph]
                | objectB elements =>
                  simp only [hph]
                  refine foldl_extending _ ?_ elements a2
                  intro a3 element
                  try dsimp only
                  split
                  · refine foldl_extending _ ?_ _ a3
                    intro p localName
                    exact bindSetterIdentifierByName_extending _ _ _ _ _
                  · simp
                | identB propsText pSym =>
                  simp only [hph]
                  refine foldl_extending _ ?_ _ a2
                  intro a3 declaration
                  split
                  · rcases hnn : declaration.nameNode with ⟨t2, s2⟩ | es2 | elements
                    · simp [hnn]
                    · simp [hnn]
                    · simp only [hnn]
                      rcases hinit : declaration.init with _ | ie
                      · simp [hinit]
                      · cases ie with
                        | propE eb en es => simp [hinit]
                        | callE ec ea ef el ec2 ea2 => simp [hinit]
                        | objectE ps => simp [hinit]
                        | arrowE k => simp [hinit]
                        | otherE => simp [hinit]
                        | identE initText is2 =>
                          simp only [hinit]
                          split
                          · refine foldl_extending _ ?_ elements a3
                            intro a4 element
                            try dsimp only
                            split
                            · refine foldl_extending _ ?_ _ a4
                              intro p localName
                              exact bindSetterIdentifierByName_extending _ _ _ _ _
                            · simp
                          · simp
                  · simp

/-- The bindings one forwarding hop adds: per call site and JSX site, each
computed against the direct (`base`) map only. -/
def oneHopAdditions (prog : Program) (base : JsMap String) : JsMap String :=
  prog.files.flatMap (fun sourceFile =>
    sourceFile.calls.flatMap (fun c => propagateCallSite prog base [] c) ++
    sourceFile.jsxAttrs.flatMap
      (fun a => propagateJsxSite prog base [] sourceFile a))

theorem propagateSetterBindingsOneHop_eq (prog : Program) (base : JsMap String) :
    propagateSetterBindingsOneHop prog base = base ++ oneHopAdditions prog base := by
  unfold propagateSetterBindingsOneHop oneHopAdditions
  refine Eq.trans (foldl_step_append (fun sourceFile =>
    sourceFile.calls.flatMap (fun c => propagateCallSite prog base [] c) ++
    sourceFile.jsxAttrs.flatMap
      (fun a => propagateJsxSite prog base [] sourceFile a)) _ ?_ prog.files base)
    rfl
  intro acc sourceFile
  try dsimp only
  rw [foldl_step_append (fun c => propagateCallSite prog base [] c) _
      (fun acc2 c => propagateCallSite_extending prog base c acc2)
      sourceFile.calls acc,
    foldl_step_append (fun a => propagateJsxSite prog base [] sourceFile a) _
      (fun acc2 a => propagateJsxSite_extending prog base sourceFile a acc2)
      sourceFile.jsxAttrs (acc ++ sourceFile.calls.flatMap
        (fun c => propagateCallSite prog base [] c)),
    List.append_assoc]

/-! ## Concrete example programs

Small programs, written out node by node the way the analyzer would see
them, used to instantiate the claim theorems on closed inputs. -/

def flagsOff : CapabilityFlags :=
  { callbacks := false, wrappers := false, forwarding := false, storeApi := false }

/-! ### `a.ts`: two recoil atoms sharing one variable name, plus a read -/

def symCounterA : SymRef := ⟨"counterState", "", [⟨"a.ts", 10, none, .varDecl none⟩]⟩

def atomCallA1 : Expr := .callE (.identE "atom" none) [.otherE] "a.ts" 1 20 []

def atomCallA2 : Expr := .callE (.identE "atom" none) [.otherE] "a.ts" 3 20 []

def readCallA : Expr :=
  .callE (.identE "useRecoilValue" none) [.identE "counterState" (some symCounterA)]
    "a.ts" 5 3 []

def declA1 : VarDecl := ⟨"a.ts", 10, .identB "counterState" none, some atomCallA1, none, 1, 7, true⟩

def declA2 : VarDecl := ⟨"a.ts", 50, .identB "counterState" none, some atomCallA2, none, 3, 7, true⟩

def importsA : List ImportDecl :=
  [⟨"recoil", [⟨"atom", none⟩, ⟨"useRecoilValue", none⟩], none⟩]

def fileA : SourceFileModel :=
  ⟨"a.ts", importsA, [declA1, declA2], [declA1, declA2],
   [atomCallA1, atomCallA2, readCallA], [], []⟩

def progA : Program := ⟨[fileA], []⟩

/-! ### `b.ts`: a hook setter named `set` called directly -/

def symCounterB : SymRef := ⟨"counterState", "", [⟨"b.ts", 10, none, .varDecl none⟩]⟩

def symSetB : SymRef := ⟨"set", "", [⟨"b.ts", 100, none, .varDecl none⟩]⟩

def atomCallB : Expr := .callE (.identE "atom" none) [.otherE] "b.ts" 1 20 []

def setterInitB : Expr :=
  .callE (.identE "useSetRecoilState" none)
    [.identE "counterState" (some symCounterB)] "b.ts" 5 15 []

def setCallB : Expr :=
  .callE (.identE "set" (some symSetB)) [.identE "counterState" (some symCounterB)]
    "b.ts" 6 3 []

def declAtomB : VarDecl := ⟨"b.ts", 10, .identB "counterState" none, some atomCallB, none, 1, 7, true⟩

def declSetB : VarDecl := ⟨"b.ts", 100, .identB "set" (some symSetB), some setterInitB, none, 5, 9, false⟩

def importsB : List ImportDecl :=
  [⟨"recoil", [⟨"atom", none⟩, ⟨"useSetRecoilState", none⟩], none⟩]

def fileB : SourceFileModel :=
  ⟨"b.ts", importsB, [declAtomB, declSetB], [declAtomB, declSetB],
   [atomCallB, setterInitB, setCallB], [], []⟩

def progB : Program := ⟨[fileB], []⟩

/-! ### `c.ts`: a recoil selector reading a jotai atom through a store handle -/

def symStoreC : SymRef := ⟨"store", "", [⟨"c.ts", 5, none, .varDecl none⟩]⟩

def symJatomC : SymRef := ⟨"jatom", "", [⟨"c.ts", 30, none, .varDecl none⟩]⟩

def storeInitC : Expr := .callE (.identE "createStore" none) [] "c.ts" 1 15 []

def jatomInitC : Expr := .callE (.identE "atom" none) [.otherE] "c.ts" 2 15 []

def storeGetCallC : Expr :=
  .callE (.propE (.identE "store" (some symStoreC)) "get" none)
    [.identE "jatom" (some symJatomC)] "c.ts" 3 30 []

def getFnC : FnNode := ⟨"c.ts", 80, false, [], .block, [storeGetCallC], [], [], []⟩

def selInitC : Expr :=
  .callE (.identE "selector" none) [.objectE [.assignP "get" (.arrowE "c.ts:80")]]
    "c.ts" 3 15 []

def declStoreC : VarDecl := ⟨"c.ts", 5, .identB "store" (some symStoreC), some storeInitC, none, 1, 7, false⟩

def declJatomC : VarDecl := ⟨"c.ts", 30, .identB "jatom" none, some jatomInitC, none, 2, 7, false⟩

def declSelC : VarDecl := ⟨"c.ts", 60, .identB "sel" none, some selInitC, none, 3, 7, false⟩

def importsC : List ImportDecl :=
  [⟨"recoil", [⟨"selector", none⟩], none⟩,
   ⟨"jotai", [⟨"atom", none⟩, ⟨"createStore", none⟩], none⟩]

def fileC : SourceFileModel :=
  ⟨"c.ts", importsC, [declStoreC, declJatomC, declSelC],
   [declStoreC, declJatomC, declSelC],
   [storeInitC, jatomInitC, selInitC, storeGetCallC], [], []⟩

def progC : Program := ⟨[fileC], [getFnC]⟩

def capsC : CapabilityFlags :=
  { callbacks := false, wrappers := false, forwarding := false, storeApi := true }

def idxC : SymbolIndex := buildSymbolIndex progC.files

def edgeC1 : DependencyEdge :=
  ⟨"c.ts::sel", "c.ts::jatom", "c.ts", 3, 30, "jotai:get"⟩

/-! ### `d.ts`: a `useAtomCallback` write inside an `initialize*` function -/

def symJatomD : SymRef := ⟨"jatom", "", [⟨"d.ts", 10, none, .varDecl none⟩]⟩

def jatomInitD : Expr := .callE (.identE "atom" none) [.otherE] "d.ts" 1 15 []

def setInnerCallD : Expr :=
  .callE (.identE "set" none) [.identE "jatom" (some symJatomD)] "d.ts" 2 20
    [.functionLike (some "initializeCounter")]

def cbFnD : FnNode :=
  ⟨"d.ts", 40, false, [.identB "get" none, .identB "set" none], .block,
   [setInnerCallD], [], [], []⟩

def cbCallD : Expr :=
  .callE (.identE "useAtomCallback" none) [.arrowE "d.ts:40"] "d.ts" 2 28 []

def declJatomD : VarDecl := ⟨"d.ts", 10, .identB "jatom" none, some jatomInitD, none, 1, 7, false⟩

def declCbD : VarDecl := ⟨"d.ts", 30, .identB "initializeCounter" none, some cbCallD, none, 2, 7, false⟩

def importsD : List ImportDecl :=
  [⟨"jotai", [⟨"atom", none⟩], none⟩,
   ⟨"jotai/utils", [⟨"useAtomCallback", none⟩], none⟩]

def fileD : SourceFileModel :=
  ⟨"d.ts", importsD, [declJatomD, declCbD], [declJatomD, declCbD],
   [jatomInitD, cbCallD, setInnerCallD], [], []⟩

def progD : Program := ⟨[fileD], [cbFnD]⟩

def imD : ImportMap := buildImportMap importsD

def idxD : SymbolIndex := buildSymbolIndex progD.files

def bindingsD : JotaiAtomCallbackBindings := ⟨"get", "set"⟩

def evD : UsageEvent :=
  createWriteEvent "d.ts" 2 20 [.functionLike (some "initializeCounter")]
    "d.ts::jatom" "set-call" "initializeState:set"

/-! ### `e.ts`: a setter forwarded through two components -/

def symCounterE : SymRef := ⟨"counterState", "", [⟨"e.ts", 10, none, .varDecl none⟩]⟩

def symSetXE : SymRef := ⟨"setX", "", [⟨"e.ts", 50, none, .varDecl none⟩]⟩

def symME : SymRef := ⟨"m", "", [⟨"e.ts", 110, none, .otherDecl⟩]⟩

def symPE : SymRef := ⟨"p", "", [⟨"e.ts", 210, none, .otherDecl⟩]⟩

def symMidE : SymRef := ⟨"Mid", "", [⟨"e.ts", 100, none, .funcDecl "e.ts:100"⟩]⟩

def symLeafE : SymRef := ⟨"Leaf", "", [⟨"e.ts", 200, none, .funcDecl "e.ts:200"⟩]⟩

def atomCallE : Expr := .callE (.identE "atom" none) [.otherE] "e.ts" 1 20 []

def setterInitE : Expr :=
  .callE (.identE "useSetRecoilState" none)
    [.identE "counterState" (some symCounterE)] "e.ts" 2 15 []

def callLeafE : Expr :=
  .callE (.identE "Leaf" (some symLeafE)) [.identE "m" (some symME)] "e.ts" 3 3 []

def callMidE : Expr :=
  .callE (.identE "Mid" (some symMidE)) [.identE "setX" (some symSetXE)] "e.ts" 4 3 []

def fnMidE : FnNode :=
  ⟨"e.ts", 100, true, [.identB "m" (some symME)], .block, [callLeafE], [], [], []⟩

def fnLeafE : FnNode :=
  ⟨"e.ts", 200, true, [.identB "p" (some symPE)], .block, [], [], [], []⟩

def declAtomE : VarDecl := ⟨"e.ts", 10, .identB "counterState" none, some atomCallE, none, 1, 7, true⟩

def declSetXE : VarDecl := ⟨"e.ts", 50, .identB "setX" (some symSetXE), some setterInitE, none, 2, 9, false⟩

def importsE : List ImportDecl :=
  [⟨"recoil", [⟨"atom", none⟩, ⟨"useSetRecoilState", none⟩], none⟩]

def fileE : SourceFileModel :=
  ⟨"e.ts", importsE, [declAtomE, declSetXE], [declAtomE, declSetXE],
   [atomCallE, setterInitE, callMidE, callLeafE], [], []⟩

def progE : Program := ⟨[fileE], [fnMidE, fnLeafE]⟩

def idxE : SymbolIndex := buildSymbolIndex progE.files

def baseE : JsMap String := buildDirectSetterBindings progE idxE

def hopE : JsMap String := propagateSetterBindingsOneHop progE baseE

/-! ### `w.ts`: two custom hooks wrapping each other in a cycle -/

def symUseAW : SymRef := ⟨"useA", "", [⟨"w.ts", 10, none, .funcDecl "w.ts:10"⟩]⟩

def symUseBW : SymRef := ⟨"useB", "", [⟨"w.ts", 50, none, .funcDecl "w.ts:50"⟩]⟩

def callBW : Expr := .callE (.identE "useB" (some symUseBW)) [] "w.ts" 1 10 []

def callAW : Expr := .callE (.identE "useA" (some symUseAW)) [] "w.ts" 2 10 []

def fnAW : FnNode :=
  ⟨"w.ts", 10, true, [], .block, [callBW], [], [⟨some "w.ts:10", some callBW⟩], []⟩

def fnBW : FnNode :=
  ⟨"w.ts", 50, true, [], .block, [callAW], [], [⟨some "w.ts:50", some callAW⟩], []⟩

def progW : Program := ⟨[], [fnAW, fnBW]⟩

def idxW : SymbolIndex := buildSymbolIndex ([] : List SourceFileModel)

def topCallW : Expr := .callE (.identE "useA" (some symUseAW)) [] "w.ts" 3 10 []

def evA : UsageEvent :=
  ⟨.read, .runtime, "a.ts::counterState", .function, "<anonymous>", none,
   "a.ts", 5, 3, "recoil:useRecoilValue"⟩

/-! ## The claims -/

/-- C1 (amended): for every dependency edge in the output there is a
dependency-phase read usage event in the output at the same file, line and
column whose stateId is the edge's target.  The via tags are not equal in
general: the store-handle read shape emits the edge with via `jotai:get`
and the event with via `jotai:store.get` (see the counterexample). -/
theorem claimC1_edge_event_pairing (prog : Program) (index : SymbolIndex)
    (capabilities : CapabilityFlags)
    (hbar : ∀ ev ∈ (buildUsageEventsRaw prog index capabilities).1,
      eventKeyBarFree ev) :
    ∀ e ∈ (buildUsageEvents prog index capabilities).2,
      ∃ ev ∈ (buildUsageEvents prog index capabilities).1,
        ev.filePath = e.filePath ∧ ev.line = e.line ∧ ev.column = e.column ∧
          ev.phase = .dependency ∧ ev.type = .read ∧ ev.stateId = e.toStateId :=
  edges_paired_with_events prog index capabilities hbar

theorem claimC1_edge_event_pairing_witness :
    ∃ ev ∈ (buildUsageEvents progC idxC capsC).1,
      ev.filePath = edgeC1.filePath ∧ ev.line = edgeC1.line ∧
        ev.column = edgeC1.column ∧ ev.phase = .dependency ∧ ev.type = .read ∧
        ev.stateId = edgeC1.toStateId :=
  claimC1_edge_event_pairing progC idxC capsC
    (show ∀ ev ∈ (buildUsageEventsRaw progC idxC capsC).1,
        ∀ s ∈ usageEventKeyParts ev, barFree s = true by decide)
    edgeC1 (by decide)

/-- C1 counterexample: in `c.ts` a recoil selector reads a jotai atom through
a store handle; the one output edge carries via `jotai:get` while the one
output event carries via `jotai:store.get`, so no event shares the edge's
via tag. -/
theorem claimC1_via_mismatch_counterexample :
    (buildUsageEvents progC idxC capsC).2.map (fun e => e.via) = ["jotai:get"] ∧
    (buildUsageEvents progC idxC capsC).1.map (fun ev => ev.via) =
      ["jotai:store.get"] ∧
    ("jotai:get" : String) ≠ "jotai:store.get" := by decide

/-- C2 (amended): the deduplicated output is nondecreasing under the
canonical comparators (file, line, column, type, stateId for events;
file, line, column, fromStateId, toStateId for edges) and pairwise distinct
under the full nine-part (respectively six-part) dedupe key.  It is not
strictly increasing under the five comparator components alone: two distinct
events can tie on all five (see the counterexample). -/
theorem claimC2_output_sorted_and_key_distinct (prog : Program)
    (index : SymbolIndex) (capabilities : CapabilityFlags) :
    ((buildUsageEvents prog index capabilities).1.Pairwise
        (fun a b => compareUsageEvents a b ≠ .gt) ∧
      (buildUsageEvents prog index capabilities).1.Pairwise
        (fun a b => usageEventKey a ≠ usageEventKey b)) ∧
    ((buildUsageEvents prog index capabilities).2.Pairwise
        (fun a b => compareDependencyEdges a b ≠ .gt) ∧
      (buildUsageEvents prog index capabilities).2.Pairwise
        (fun a b => dependencyEdgeKey a ≠ dependencyEdgeKey b)) :=
  ⟨⟨sorted_dedupeUsageEvents _, pairwise_key_dedupeUsageEvents _⟩,
   sorted_dedupeDependencyEdges _, pairwise_key_dedupeDependencyEdges _⟩

/-- C2 counterexample: in `b.ts` the call `set(counterState)` on a hook
setter named `set` yields two distinct surviving events — a
`hook-setter-call` write and a `set-call` write — agreeing on file, line,
column, type and stateId. -/
theorem claimC2_five_component_tie_counterexample :
    ((buildUsageEvents progB (buildSymbolIndex progB.files) flagsOff).1.map
      (fun e => (e.filePath, e.line, e.column, e.type.toStr, e.stateId)) =
      [("b.ts", 6, 3, "runtimeWrite", "b.ts::counterState"),
       ("b.ts", 6, 3, "runtimeWrite", "b.ts::counterState")]) ∧
    (buildUsageEvents progB (buildSymbolIndex progB.files) flagsOff).1.map
      (fun e => e.via) = ["hook-setter-call", "set-call"] := by decide

/-- C3 (amended): a write emitted by the jotai `useAtomCallback` classifier
has type `runtimeWrite` exactly when the call site is not in an init-write
context; inside an `initialize*`-named function (or an `initializeState`
property) it is an `initWrite`, contradicting "always runtimeWrite". -/
theorem claimC3_callback_write_type_follows_init_context
    (callExpression : Expr) (bindings : JotaiAtomCallbackBindings)
    (index : SymbolIndex) (ev : UsageEvent)
    (h : classifyJotaiAtomCallbackWrite callExpression bindings index = some ev) :
    ev.type = (if isInitWriteContext (callAncestors callExpression) then
      EventType.initWrite else EventType.runtimeWrite) := by
  unfold classifyJotaiAtomCallbackWrite at h
  split at h
  · split at h
    · split at h
      · exact Option.noConfusion h
      · injection h with h2
        subst h2
        simp [createWriteEvent, classifyWriteType, callAncestors]
    · exact Option.noConfusion h
  · exact Option.noConfusion h

theorem claimC3_callback_write_type_follows_init_context_witness :
    evD.type = (if isInitWriteContext (callAncestors setInnerCallD) then
      EventType.initWrite else EventType.runtimeWrite) :=
  claimC3_callback_write_type_follows_init_context setInnerCallD bindingsD idxD
    evD (by decide)

/-- C3 counterexample: in `d.ts` the callback write `set(jatom)` sits inside
the function `initializeCounter`, and the extractor emits it as an
`initWrite` with via `initializeState:set`, not a `runtimeWrite`. -/
theorem claimC3_initwrite_counterexample :
    (extractJotaiAtomCallbackEvents progD fileD imD idxD).map
      (fun e => (e.type.toStr, e.via)) = [("initWrite", "initializeState:set")] := by
  decide

/-- C4 (confirmed): rule R004 emits, per state in index order, a violation
exactly when the state is a plain recoil atom with at least one
runtime-phase read and zero `runtimeWrite` events for its id; `initWrite`
events influence only the reported metrics, never whether the violation
fires. -/
theorem claimC4_r004_characterization (context : RuleContext) :
    evaluateR004 context =
      context.states.filterMap (r004SpecViolation context.usageEvents) := by
  unfold evaluateR004
  refine Eq.trans (foldl_step_append
    (fun state => (r004SpecViolation context.usageEvents state).toList) _ ?_
    context.states []) ?_
  · intro acc state
    simp only [r004Counts_eq, r004SpecViolation]
    by_cases hplain : state.store = .recoil ∧ state.kind = .atom ∧
        state.isRecoilPlainAtom
    · rw [if_pos hplain]
      by_cases hfire : countRuntimeReads context.usageEvents state.id > 0 ∧
          countRuntimeWrites context.usageEvents state.id = 0
      · rw [if_pos hfire,
          if_pos ⟨hplain.1, hplain.2.1, hplain.2.2, hfire.1, hfire.2⟩]
        rfl
      · rw [if_neg hfire, if_neg (fun hc => hfire ⟨hc.2.2.2.1, hc.2.2.2.2⟩)]
        simp
    · rw [if_neg hplain, if_neg (fun hc => hplain ⟨hc.1, hc.2.1, hc.2.2.1⟩)]
      simp
  · rw [List.nil_append, flatMap_toList_eq_filterMap]

/-- C5 (code bug): the configuration knows no "extended" profile — resolving
it throws `Unsupported profile: extended`.  The two profiles the code
exposes are "core" (all four switches off) and "press-release" (all four
on, also the default). -/
theorem claimC5_extended_profile_rejected :
    resolveProfile (some "extended") =
      Except.error "Unsupported profile: extended" ∧
    resolveProfile (some "core") = Except.ok AnalyzerProfile.core ∧
    getCapabilityFlags .core =
      { callbacks := false, wrappers := false, forwarding := false,
        storeApi := false } ∧
    resolveProfile (some "press-release") = Except.ok AnalyzerProfile.pressRelease ∧
    resolveProfile none = Except.ok AnalyzerProfile.pressRelease ∧
    getCapabilityFlags .pressRelease =
      { callbacks := true, wrappers := true, forwarding := true,
        storeApi := true } :=
  ⟨rfl, rfl, rfl, rfl, rfl, rfl⟩

/-- C6 (confirmed): one forwarding hop equals the base map plus additions
computed per site against the base (direct) map only — forwarded bindings
are never sources.  Concretely in `e.ts`, where `setX` is forwarded to
`Mid`'s parameter `m` and `m` is passed on to `Leaf`: after the hop `m`
resolves but `m` has no direct binding, `Leaf`'s parameter `p` resolves to
nothing, and only a second application of the hop would bind `p`. -/
theorem claimC6_forwarding_single_hop :
    (∀ (prog : Program) (baseSetterBindings : JsMap String),
      propagateSetterBindingsOneHop prog baseSetterBindings =
        baseSetterBindings ++ oneHopAdditions prog baseSetterBindings) ∧
    resolveStateIdFromIdentifier "m" (some symME) "e.ts" hopE =
      some "e.ts::counterState" ∧
    resolveStateIdFromIdentifier "m" (some symME) "e.ts" baseE = none ∧
    resolveStateIdFromIdentifier "p" (some symPE) "e.ts" hopE = none ∧
    resolveStateIdFromIdentifier "p" (some symPE) "e.ts"
      (propagateSetterBindingsOneHop progE hopE) = some "e.ts::counterState" :=
  ⟨propagateSetterBindingsOneHop_eq, by decide, by decide, by decide, by decide⟩

/-- C7 (confirmed): every usage event the pipeline emits carries a stateId
that belongs to some state of the symbol index built for the program. -/
theorem claimC7_event_stateIds_come_from_index (prog : Program)
    (capabilities : CapabilityFlags) (ev : UsageEvent)
    (hmem : ev ∈ (buildUsageEvents prog (buildSymbolIndex prog.files)
      capabilities).1) :
    ∃ st ∈ (buildSymbolIndex prog.files).states, st.id = ev.stateId :=
  buildUsageEvents_good prog (buildSymbolIndex prog.files) capabilities
    (buildSymbolIndex_goodIndex prog.files) ev hmem

theorem claimC7_event_stateIds_come_from_index_witness :
    ∃ st ∈ (buildSymbolIndex progA.files).states, st.id = evA.stateId :=
  claimC7_event_stateIds_come_from_index progA flagsOff evA (by decide)

/-- C8 (confirmed): the wrapper-aware resolution terminates on every input,
cycles included.  The source's recursion, modelled faithfully as a
fuel-indexed function that spends fuel exactly where the source recurses
into a wrapper body, stabilises once the fuel reaches `remainingKeys` — the
number of function-table keys not yet in the in-flight set — and equals the
(provably total) recursive function; the in-flight set makes a re-entered
key contribute no binding instead of recursing. -/
theorem claimC8_wrapper_resolution_terminates (prog : Program)
    (index : SymbolIndex) (callExpression : Expr) (cache : HookCache)
    (resolvingKeys : JsSet) (fuel : Nat)
    (hfuel : remainingKeys prog resolvingKeys ≤ fuel) :
    resolveHookWriteBindingFromCallExpressionF fuel prog index callExpression
        cache resolvingKeys =
      resolveHookWriteBindingFromCallExpression prog index callExpression
        cache resolvingKeys :=
  (hookEqAt fuel prog index resolvingKeys hfuel).1 callExpression cache

theorem claimC8_wrapper_resolution_terminates_witness :
    resolveHookWriteBindingFromCallExpressionF 2 progW idxW topCallW [] [] =
      resolveHookWriteBindingFromCallExpression progW idxW topCallW [] [] :=
  claimC8_wrapper_resolution_terminates progW idxW topCallW [] [] 2 (by decide)

/-- C9 (confirmed; the loader is spec-modelled): analysis is a pure function,
so running it twice on the same project gives identical output; and because
the loader sorts the source files by path before the index and pipeline see
them, two projects that differ only in the presentation order of their
(distinct-path) source files are analysed identically. -/
theorem claimC9_analysis_deterministic
    (sourceFiles₁ sourceFiles₂ : List SourceFileModel) (fnTable : List FnNode)
    (capabilities : CapabilityFlags) (hperm : sourceFiles₁.Perm sourceFiles₂)
    (hdistinct : sourceFiles₁.Pairwise (fun l r => l.filePath ≠ r.filePath)) :
    analyzeProject sourceFiles₁ fnTable capabilities =
      analyzeProject sourceFiles₁ fnTable capabilities ∧
    analyzeProject sourceFiles₁ fnTable capabilities =
      analyzeProject sourceFiles₂ fnTable capabilities := by
  refine ⟨rfl, ?_⟩
  unfold analyzeProject
  rw [loadProject_perm_eq hperm hdistinct]

theorem claimC9_analysis_deterministic_witness :
    analyzeProject [fileA, fileB] [] flagsOff =
      analyzeProject [fileA, fileB] [] flagsOff ∧
    analyzeProject [fileA, fileB] [] flagsOff =
      analyzeProject [fileB, fileA] [] flagsOff :=
  claimC9_analysis_deterministic [fileA, fileB] [fileB, fileA] [] flagsOff
    (List.Perm.swap fileB fileA []) (by decide)

/-- C10 (confirmed): in `a.ts` two atoms share the variable name
`counterState`, so both get the id `a.ts::counterState`; the states array
keeps both (lines 1 and 3), while `stateById`, `declarationByStateId` and
`initCallByStateId` each resolve that id to the later declaration (line 3,
start 50); the read referencing the first declaration still emits an event
with the shared id. -/
theorem claimC10_duplicate_name_shared_id :
    ((buildSymbolIndex progA.files).states.map (fun st => st.id) =
      ["a.ts::counterState", "a.ts::counterState"]) ∧
    ((buildSymbolIndex progA.files).states.map (fun st => st.line) = [1, 3]) ∧
    ((jget (buildSymbolIndex progA.files).stateById "a.ts::counterState").map
      (fun st => st.line) = some 3) ∧
    ((jget (buildSymbolIndex progA.files).declarationByStateId
      "a.ts::counterState").map (fun d => d.start) = some 50) ∧
    ((jget (buildSymbolIndex progA.files).initCallByStateId
      "a.ts::counterState").map callLine = some 3) ∧
    ((buildUsageEvents progA (buildSymbolIndex progA.files) flagsOff).1.map
      (fun e => (e.type.toStr, e.stateId)) = [("read", "a.ts::counterState")]) := by
  decide

end StateAudit


